import Mathlib

/-!
Package nwk: error normalisation, the buffered stream wrapper, the listener
and the local address lookup

A shallow embedding of `nwkErrs.go` (`netErr`, `ChkNetErr`), of
`tcp/readWriter.go` (the `readWriter` / `readBufWriter` primitives), of
`tcp/listener.go` (`Listener` and its counters) and of `nwk.go`
(`FindMyIP4Addr`).

Go error values are modelled by the inductive type `GoErr`; the connection a
`readWriter` wraps is modelled by the bytes its successive `Read` calls
deliver and by the error it reports afterwards.  A read or write that runs
into its deadline reports `errDeadline`; the deadline calls themselves
(`setRExpiry`, `setWExpiry`) are kept, with the reads and writes, on the record
of connection calls of the `Traced` variants.  A listener keeps a log of what
it does to its surroundings, and the goroutines of `HandleRequests` run under
an explicit schedule.  A Go panic is an explicit outcome (`Abort.panic`).

The standard library under the package (`bufio.Reader`, `bufio.Writer`,
`encoding/binary`, the error types of `net`, `os` and `syscall`) is modelled
from its documented behaviour.
-/

namespace Nwk

/-! ## Outcomes -/

/-- Ways a Go call can fail to return: a run-time panic, a failed `dbg`
assertion, or (in this embedding only) the exhaustion of the read budget
given to a loop. -/
inductive Abort where
  | panic
  | assertion
  | outOfFuel
  deriving DecidableEq, Repr

/-- A Go call either returns a value or aborts. -/
abbrev Run (α : Type) := Except Abort α

instance instDecidableEqRun {α : Type} [DecidableEq α] : DecidableEq (Run α) := fun a b =>
  match a, b with
  | .ok x, .ok y => if h : x = y then isTrue (by rw [h]) else isFalse (fun e => h (by cases e; rfl))
  | .error x, .error y =>
    if h : x = y then isTrue (by rw [h]) else isFalse (fun e => h (by cases e; rfl))
  | .ok _, .error _ => isFalse (fun e => by cases e)
  | .error _, .ok _ => isFalse (fun e => by cases e)

/-! ## Error values (`nwkErrs.go`) -/

/-- The sentinel errors declared in `nwkErrs.go` (each an `errors.New` value). -/
inductive NwkErr where
  | UnknownHost
  | AddrNotFound
  | ConnectionRefused
  | NoConnection
  | LostConnection
  | ClosedByUser
  | UserExit
  | Timeout
  | ResetByPeer
  | ClosedRemotely
  | EndOfFile
  | NoData
  | BadData
  | AddressInUse
  | IllegalParam
  | BadInterface
  deriving DecidableEq, Repr

/-- The message given to `errors.New` for each sentinel. -/
def NwkErr.text : NwkErr → String
  | .UnknownHost => "Unknown host"
  | .AddrNotFound => "Addr not found"
  | .ConnectionRefused => "Connection refused"
  | .NoConnection => "Connection not open"
  | .LostConnection => "Lost connection"
  | .ClosedByUser => "Closed by user"
  | .UserExit => "User exit request"
  | .Timeout => "Timedout"
  | .ResetByPeer => "Reset by peer"
  | .ClosedRemotely => "Broken pipe, closed remotely"
  | .EndOfFile => "End of file/data"
  | .NoData => "No data received"
  | .BadData => "Bad data received"
  | .AddressInUse => "Address in use"
  | .IllegalParam => "Illegal/missing param"
  | .BadInterface => "Unknown interface"

/-- A value of Go's `error` interface, as far as `ChkNetErr` can tell values
apart.

* `nil`: the nil interface value.
* `eof`: `io.EOF`.
* `nwk e`: one of the package's own sentinels.
* `errno n`: a `syscall.Errno`.
* `opError tmo err`: a `*net.OpError` wrapping `err`; `tmo` is the answer of its
  `Timeout()` method (every `*net.OpError` implements `net.Error`).
* `syscallError err`: an `*os.SyscallError` wrapping `err` (it has no
  `Temporary` method, so it does not implement `net.Error`).
* `other text net`: a value of any other dynamic type, with the text its
  `Error()` method returns; `net = some t` when the type implements `net.Error`
  and its `Timeout()` reports `t`, `net = none` when it does not. -/
inductive GoErr where
  | nil
  | eof
  | nwk (e : NwkErr)
  | errno (n : Nat)
  | opError (tmo : Bool) (err : GoErr)
  | syscallError (err : GoErr)
  | other (text : String) (net : Option Bool)
  deriving DecidableEq, Repr

def Err_UnknownHost : GoErr := .nwk .UnknownHost
def Err_ConnectionRefused : GoErr := .nwk .ConnectionRefused
def Err_NoConnection : GoErr := .nwk .NoConnection
def Err_Timeout : GoErr := .nwk .Timeout
def Err_ResetByPeer : GoErr := .nwk .ResetByPeer
def Err_ClosedRemotely : GoErr := .nwk .ClosedRemotely
def Err_BadData : GoErr := .nwk .BadData
def Err_AddressInUse : GoErr := .nwk .AddressInUse

/-! `syscall.Errno` constants, with their linux values. -/

def EAGAIN : Nat := 0xb
def EPIPE : Nat := 0x20
def EADDRINUSE : Nat := 0x62
def ECONNRESET : Nat := 0x68
def ETIMEDOUT : Nat := 0x6e
def ECONNREFUSED : Nat := 0x6f
def EHOSTUNREACH : Nat := 0x71

/-- The type assertion `err.(net.Error)` together with the call of `Timeout()`
on its result: `none` when the assertion fails, `some t` when it succeeds and
`Timeout()` returns `t`.  A `syscall.Errno` implements `net.Error`; its
`Timeout()` is true for `EAGAIN` (= `EWOULDBLOCK`) and `ETIMEDOUT`. -/
def netError : GoErr → Option Bool
  | .nil => none
  | .eof => none
  | .nwk _ => none
  | .errno n => some (n == EAGAIN || n == ETIMEDOUT)
  | .opError tmo _ => some tmo
  | .syscallError _ => none
  | .other _ net => net

/-- The `default:` arm of the type switch in `netErr`, for a value whose
`Error()` text is `text`. -/
def netErrDefault (oerr : GoErr) (text : String) : GoErr :=
  if text = "use of closed network connection" then Err_NoConnection else oerr

/-- The function `netErr(oerr, err)`.  The type switch has no `case nil`, so a nil `err`
reaches the `default:` arm, where `err.Error()` dereferences nil. -/
def netErr (oerr : GoErr) : GoErr → Run GoErr
  | .opError _ err => netErr oerr err
  | .syscallError err => netErr oerr err
  | .errno n =>
    if n = ECONNREFUSED then .ok Err_ConnectionRefused
    else if n = EHOSTUNREACH then .ok Err_UnknownHost
    else if n = ECONNRESET then .ok Err_ResetByPeer
    else if n = EPIPE then .ok Err_ClosedRemotely
    else if n = EADDRINUSE then .ok Err_AddressInUse
    else .ok oerr
  | .nil => .error .panic
  | .eof => .ok (netErrDefault oerr "EOF")
  | .nwk e => .ok (netErrDefault oerr e.text)
  | .other text _ => .ok (netErrDefault oerr text)

/-- The function `ChkNetErr(err)`. -/
def ChkNetErr (err : GoErr) : Run GoErr :=
  if err ≠ .nil then
    if err = .eof then .ok err
    else
      match netError err with
      | some tmo => if tmo then .ok Err_Timeout else netErr err err
      | none => .ok err
  else .ok err

/-- The innermost error, reached by unwrapping `*net.OpError` and
`*os.SyscallError` layers. -/
def rootCause : GoErr → GoErr
  | .opError _ err => rootCause err
  | .syscallError err => rootCause err
  | e => e

/-! ## The read side of a connection (`bufio.Reader` over `net.Conn`) -/

/-- A byte. -/
abbrev Byte := Fin 256

/-- The default buffer size of `bufio.NewReader` and `bufio.NewWriter`. -/
def defaultBufSize : Nat := 4096

/-- The read side of a `readWriter`: its `bufio.Reader` and the connection
under it.

* `buf`: the bytes buffered and not yet consumed (`b.buf[b.r:b.w]`).
* `chunks`: what the connection will deliver: each `conn.Read` call returns
  bytes of the first chunk only (a chunk is non-empty: its first byte and the
  rest), as a TCP read returns what has arrived so far.
* `fail`: the error `conn.Read` reports once the chunks are used up (`io.EOF`
  after the peer closed, a timeout `*net.OpError` after a deadline, ...). -/
structure Reader where
  buf : List Byte
  chunks : List (Byte × List Byte)
  fail : GoErr
  deriving DecidableEq, Repr

/-- The bytes the reader has still to hand out, in stream order. -/
def Reader.pending (s : Reader) : List Byte :=
  s.buf ++ (s.chunks.map (fun c => c.1 :: c.2)).flatten

/-- The bytes at hand for the next `Read`: the buffered bytes or, with an empty
buffer, the next delivery of the connection. -/
def Reader.ready (s : Reader) : List Byte :=
  match s.buf with
  | [] =>
    match s.chunks with
    | [] => []
    | c :: _ => c.1 :: c.2
  | b :: r => b :: r

/-- A list of bytes as the chunks of one delivery (none when it is empty). -/
def asChunk : List Byte → List (Byte × List Byte)
  | [] => []
  | b :: bs => [(b, bs)]

/-- One `conn.Read(p)` with `len(p) = n > 0`: the bytes returned, the error, and
the chunks left. -/
def connRead (n : Nat) (chunks : List (Byte × List Byte)) (fail : GoErr) :
    List Byte × GoErr × List (Byte × List Byte) :=
  match chunks with
  | [] => ([], fail, [])
  | (b, c) :: rest => ((b :: c).take n, .nil, asChunk ((b :: c).drop n) ++ rest)

/-- The error `io.ErrNoProgress` of package `io`. -/
def ErrNoProgress : GoErr := .other "multiple Read calls return no data or error" none

/-- The method `ReadByte` of `bufio.Reader`: with an empty buffer it fills the
buffer by a `conn.Read` of `defaultBufSize` bytes; a connection that neither
delivers nor fails makes it give up with `io.ErrNoProgress`. -/
def bufioReadByte (s : Reader) : Byte × GoErr × Reader :=
  match s.buf with
  | b :: r => (b, .nil, { s with buf := r })
  | [] =>
    match connRead defaultBufSize s.chunks s.fail with
    | (b :: r, _, chunks) => (b, .nil, { s with buf := r, chunks := chunks })
    | ([], err, chunks) =>
      (0, if err = .nil then ErrNoProgress else err, { s with chunks := chunks })

/-- The method `Read` of `bufio.Reader` for a slice of length `n`: the bytes
copied into the slice, the error, and the new state.  It takes the bytes of at
most one `conn.Read`: with an empty buffer, a slice at least as large as the
buffer is read into directly, a smaller one goes through the buffer. -/
def bufioRead (n : Nat) (s : Reader) : List Byte × GoErr × Reader :=
  if n = 0 then ([], .nil, s)
  else
    match s.buf with
    | [] =>
      if defaultBufSize ≤ n then
        match connRead n s.chunks s.fail with
        | (data, err, chunks) => (data, err, { s with chunks := chunks })
      else
        match connRead defaultBufSize s.chunks s.fail with
        | ([], err, chunks) => ([], err, { s with chunks := chunks })
        | (b :: r, _, chunks) =>
          ((b :: r).take n, .nil, { s with buf := (b :: r).drop n, chunks := chunks })
    | b :: r => ((b :: r).take n, .nil, { s with buf := (b :: r).drop n })

/-! ## `readWriter`: the read primitives (`tcp/readWriter.go`)

A loop that reads byte after byte takes a budget `fuel` of `ReadByte` calls and
aborts with `Abort.outOfFuel` when the budget is used up before the loop
ends. -/

/-- The method `(*readWriter).ReadByte`. -/
def ReadByte (s : Reader) : Run (Byte × GoErr × Reader) :=
  match bufioReadByte s with
  | (b, err, s') =>
    match ChkNetErr err with
    | .ok e => .ok (b, e, s')
    | .error a => .error a

/-- The method `(*readWriter).Read` for a slice of length `n`. -/
def Read (n : Nat) (s : Reader) : Run (List Byte × GoErr × Reader) :=
  match bufioRead n s with
  | (data, err, s') =>
    match ChkNetErr err with
    | .ok e => .ok (data, e, s')
    | .error a => .error a

/-- The loop `waitStart` of `FindStart`, entered with match index `i`. -/
def findStartLoop (stRec : List Byte) : Nat → Nat → Reader → Run (GoErr × Reader)
  | 0, i, s => if i < stRec.length then .error .outOfFuel else .ok (.nil, s)
  | fuel + 1, i, s =>
    if h : i < stRec.length then
      match ReadByte s with
      | .error a => .error a
      | .ok (b, err, s') =>
        if err ≠ .nil then .ok (err, s')
        else if b ≠ stRec.get ⟨i, h⟩ then findStartLoop stRec fuel 0 s'
        else findStartLoop stRec fuel (i + 1) s'
    else .ok (.nil, s)

/-- The method `(*readWriter).FindStart`. -/
def FindStart (fuel : Nat) (stRec : List Byte) (s : Reader) : Run (GoErr × Reader) :=
  findStartLoop stRec fuel 0 s

/-- The loop `waitEnd` of `ReadRecord`, entered with match index `i` and the
bytes `data` gathered so far. -/
def readRecordLoop (enRec : List Byte) :
    Nat → Nat → List Byte → Reader → Run (List Byte × GoErr × Reader)
  | 0, i, data, s => if i < enRec.length then .error .outOfFuel else .ok (data, .nil, s)
  | fuel + 1, i, data, s =>
    if h : i < enRec.length then
      match ReadByte s with
      | .error a => .error a
      | .ok (b, err, s') =>
        if err ≠ .nil then
          match ChkNetErr err with
          | .ok e => .ok (data, e, s')
          | .error a => .error a
        else if b ≠ enRec.get ⟨i, h⟩ then
          readRecordLoop enRec fuel 0 (data ++ enRec.take i ++ [b]) s'
        else readRecordLoop enRec fuel (i + 1) data s'
    else .ok (data, .nil, s)

/-- The method `(*readWriter).ReadRecord`.  The assertion `dbg.ChkTruX` stops the program
when `enRec` is empty. -/
def ReadRecord (fuel : Nat) (stRec enRec : List Byte) (s : Reader) :
    Run (List Byte × GoErr × Reader) :=
  if enRec.length = 0 then .error .assertion
  else
    match FindStart fuel stRec s with
    | .error a => .error a
    | .ok (err, s') =>
      if err ≠ .nil then
        match ChkNetErr err with
        | .ok e => .ok ([], e, s')
        | .error a => .error a
      else readRecordLoop enRec fuel 0 [] s'

/-- The largest number of bytes `make([]byte, n)` accepts: the constant
`maxAlloc` of the Go runtime, `1 << 48` on 64-bit linux.  Beyond it `make`
panics (`makeslice: len out of range`); a length within it is taken to be
allocated. -/
def maxAlloc : Nat := 2 ^ 48

/-- The method `(*readWriter).ReadSizedRecord`; `make([]byte, recLen)` panics on a negative
length and on a length beyond `maxAlloc`. -/
def ReadSizedRecord (fuel : Nat) (stRec : List Byte) (recLen : Int) (s : Reader) :
    Run (List Byte × GoErr × Reader) :=
  match FindStart fuel stRec s with
  | .error a => .error a
  | .ok (err, s') =>
    if err ≠ .nil then
      match ChkNetErr err with
      | .ok e => .ok ([], e, s')
      | .error a => .error a
    else if recLen < 0 then .error .panic
    else if maxAlloc < recLen.toNat then .error .panic
    else
      match Read recLen.toNat s' with
      | .error a => .error a
      | .ok (data, err, s'') =>
        match ChkNetErr err with
        | .ok e => .ok (data, e, s'')
        | .error a => .error a

/-! ## Structured values (`encoding/binary`)

`ReadStruct` and `WriteStruct` hand a fixed-size value to Go's
`encoding/binary`.  A struct is a list of fields, each an array of scalars of
one kind; a float is carried as its IEEE 754 bit pattern, which is what
`encoding/binary` writes and reads. -/

/-- The two values of `binary.ByteOrder` the package is used with. -/
inductive ByteOrder where
  | BigEndian
  | LittleEndian
  deriving DecidableEq, Repr

/-- The scalar kinds of the fields. -/
inductive Scalar where
  | u8
  | u16
  | u32
  | u64
  | f32
  | f64
  deriving DecidableEq, Repr

/-- Encoded size of a scalar, in bytes. -/
def Scalar.size : Scalar → Nat
  | .u8 => 1
  | .u16 => 2
  | .u32 => 4
  | .u64 => 8
  | .f32 => 4
  | .f64 => 8

/-- One field: an array of `elems.length` scalars of kind `kind` (a plain
scalar field is an array of one). -/
structure FieldVal where
  kind : Scalar
  elems : List Nat
  deriving DecidableEq, Repr

/-- A struct value: its fields in declaration order. -/
abbrev StructVal := List FieldVal

/-- Every element fits the width of its kind. -/
def FieldVal.WellTyped (f : FieldVal) : Prop :=
  ∀ v ∈ f.elems, v < 256 ^ f.kind.size

/-- Every field of the struct is well typed. -/
def WellTyped (v : StructVal) : Prop :=
  ∀ f ∈ v, f.WellTyped

/-- Two struct values have the same type: same kinds and array lengths, field
by field. -/
def SameLayout (v w : StructVal) : Prop :=
  v.map (fun f => (f.kind, f.elems.length)) = w.map (fun f => (f.kind, f.elems.length))

/-- The function `binary.Size`: the encoded size of a value. -/
def binarySize (v : StructVal) : Nat :=
  (v.map (fun f => f.kind.size * f.elems.length)).sum

/-- The `w` low-order bytes of `v`, least significant first. -/
def leBytes : Nat → Nat → List Byte
  | 0, _ => []
  | w + 1, v => Fin.ofNat (v % 256) :: leBytes w (v / 256)

/-- The number whose bytes, least significant first, are `bs`. -/
def leValue : List Byte → Nat
  | [] => 0
  | b :: bs => b.val + 256 * leValue bs

/-- The method `ByteOrder.PutUintN`: the `w` bytes of `v` in the given order. -/
def putUint (ord : ByteOrder) (w v : Nat) : List Byte :=
  match ord with
  | .LittleEndian => leBytes w v
  | .BigEndian => (leBytes w v).reverse

/-- The method `ByteOrder.UintN`: the number a group of bytes encodes in the given order. -/
def getUint (ord : ByteOrder) (bs : List Byte) : Nat :=
  match ord with
  | .LittleEndian => leValue bs
  | .BigEndian => leValue bs.reverse

/-- The encoding of the elements of one array of scalars of width `w`. -/
def encodeElems (ord : ByteOrder) (w : Nat) : List Nat → List Byte
  | [] => []
  | v :: vs => putUint ord w v ++ encodeElems ord w vs

/-- The bytes `binary.Write` produces for a struct value. -/
def encode (ord : ByteOrder) : StructVal → List Byte
  | [] => []
  | f :: fs => encodeElems ord f.kind.size f.elems ++ encode ord fs

/-- Decoding of `count` scalars of width `w`: the values and the bytes left. -/
def decodeElems (ord : ByteOrder) (w : Nat) : Nat → List Byte → List Nat × List Byte
  | 0, bs => ([], bs)
  | k + 1, bs =>
    match decodeElems ord w k (bs.drop w) with
    | (vs, rest) => (getUint ord (bs.take w) :: vs, rest)

/-- Decoding of the fields of a target from a byte sequence. -/
def decode (ord : ByteOrder) : StructVal → List Byte → StructVal
  | [], _ => []
  | f :: fs, bs =>
    match decodeElems ord f.kind.size f.elems.length bs with
    | (vs, rest) => { kind := f.kind, elems := vs } :: decode ord fs rest

/-- The error `io.ErrUnexpectedEOF` of package `io`. -/
def ErrUnexpectedEOF : GoErr := .other "unexpected EOF" none

/-- The function `binary.Read(bytes.NewBuffer(data), ord, i)`: it fills the target `i` from
the first `binary.Size(i)` bytes of `data` and fails, leaving the target as it
is, when `data` is shorter. -/
def binaryRead (ord : ByteOrder) (i : StructVal) (data : List Byte) : GoErr × StructVal :=
  if data.length < binarySize i then
    (if data.length = 0 then .eof else ErrUnexpectedEOF, i)
  else (.nil, decode ord i data)

/-- The method `(*readWriter).ReadStruct` with target `i`: the error returned, the target
afterwards, and the new state. -/
def ReadStruct (ord : ByteOrder) (i : StructVal) (s : Reader) : Run (GoErr × StructVal × Reader) :=
  if binarySize i = 0 then .ok (.nil, i, s)
  else
    match Read (binarySize i) s with
    | .error a => .error a
    | .ok (data, err, s') =>
      if err ≠ .nil then
        match ChkNetErr err with
        | .ok e => .ok (e, i, s')
        | .error a => .error a
      else if data.length ≠ binarySize i then .ok (Err_BadData, i, s')
      else
        match binaryRead ord i data with
        | (e, v) => .ok (e, v, s')

/-! ## The write side of a connection and the write primitives -/

/-- The write side of a `net.Conn`.

* `sent`: the byte slices of the `Write` calls that succeeded, in order.
* `wfail`: what `Write` reports (`nil` when a write succeeds; a failed write
  sends nothing).
* `cfail`: what `Close` reports.
* `closed`: whether `Close` has been called. -/
structure Conn where
  sent : List (List Byte)
  wfail : GoErr
  cfail : GoErr
  closed : Bool
  deriving DecidableEq, Repr

/-- The error of an operation on a closed connection. -/
def errClosed : GoErr := .opError false (.other "use of closed network connection" none)

/-- The error of a read or write that ran into its deadline: a `*net.OpError`
around `os.ErrDeadlineExceeded`, whose `Timeout()` is true. -/
def errDeadline : GoErr := .opError true (.other "i/o timeout" (some true))

/-- The method `Write` of `net.Conn`. -/
def connWrite (dta : List Byte) (c : Conn) : GoErr × Conn :=
  if c.closed then (errClosed, c)
  else if c.wfail ≠ .nil then (c.wfail, c)
  else (.nil, { c with sent := c.sent ++ [dta] })

/-- The method `Close` of `net.Conn`. -/
def connClose (c : Conn) : GoErr × Conn :=
  if c.closed then (errClosed, c)
  else (c.cfail, { c with closed := true })

/-- The method `(*readWriter).Write`. -/
def Write (dta : List Byte) (c : Conn) : Run (GoErr × Conn) :=
  match connWrite dta c with
  | (err, c') =>
    match ChkNetErr err with
    | .ok e => .ok (e, c')
    | .error a => .error a

/-- The method `(*readWriter).WriteByte`. -/
def WriteByte (byt : Byte) (c : Conn) : Run (GoErr × Conn) :=
  match connWrite [byt] c with
  | (err, c') =>
    match ChkNetErr err with
    | .ok e => .ok (e, c')
    | .error a => .error a

/-- The method `(*readWriter).WriteString`, the string given by its bytes. -/
def WriteString (str : List Byte) (c : Conn) : Run (GoErr × Conn) :=
  match connWrite str c with
  | (err, c') =>
    match ChkNetErr err with
    | .ok e => .ok (e, c')
    | .error a => .error a

/-- The method `(*readWriter).WriteStruct`; `binary.Write` does not fail on a fixed-size
value. -/
def WriteStruct (ord : ByteOrder) (i : StructVal) (c : Conn) : Run (GoErr × Conn) :=
  Write (encode ord i) c

/-- The method `(*readWriter).Flush`. -/
def Flush (c : Conn) : GoErr × Conn := (.nil, c)

/-- The method `(*readWriter).Close`. -/
def Close (c : Conn) : Run (GoErr × Conn) :=
  match connClose c with
  | (err, c') =>
    match ChkNetErr err with
    | .ok e => .ok (e, c')
    | .error a => .error a

/-- The write side of a `readBufWriter`: the connection and the state of its
`bufio.Writer` (`wbuf`: the bytes written and not yet flushed; `werr`: the
error of an earlier failed flush, which the writer keeps). -/
structure BufWriter where
  conn : Conn
  wbuf : List Byte
  werr : GoErr
  deriving DecidableEq, Repr

/-- The method `Flush` of `bufio.Writer`. -/
def bufioFlush (w : BufWriter) : GoErr × BufWriter :=
  if w.werr ≠ .nil then (w.werr, w)
  else if w.wbuf.length = 0 then (.nil, w)
  else
    match connWrite w.wbuf w.conn with
    | (err, c') =>
      if err ≠ .nil then (err, { w with conn := c', werr := err })
      else (.nil, { w with conn := c', wbuf := [] })

/-- The method `Write` of `bufio.Writer`: bytes that do not fit the free space
make it flush a full buffer first, and a slice that still does not fit an empty
buffer is written to the connection directly; the rest is buffered. -/
def bufioWrite (p : List Byte) (w : BufWriter) : GoErr × BufWriter :=
  let avail := defaultBufSize - w.wbuf.length
  let step1 : List Byte × BufWriter :=
    if avail < p.length ∧ w.werr = .nil ∧ w.wbuf.length ≠ 0 then
      (p.drop avail, (bufioFlush { w with wbuf := w.wbuf ++ p.take avail }).2)
    else (p, w)
  let p1 := step1.1
  let w1 := step1.2
  let step2 : List Byte × BufWriter :=
    if defaultBufSize - w1.wbuf.length < p1.length ∧ w1.werr = .nil then
      match connWrite p1 w1.conn with
      | (err, c') =>
        if err ≠ .nil then (p1, { w1 with conn := c', werr := err })
        else ([], { w1 with conn := c' })
    else (p1, w1)
  let p2 := step2.1
  let w2 := step2.2
  if w2.werr ≠ .nil then (w2.werr, w2)
  else (.nil, { w2 with wbuf := w2.wbuf ++ p2 })

/-- The method `(*readBufWriter).Write`. -/
def readBufWriter.Write (dta : List Byte) (w : BufWriter) : Run (GoErr × BufWriter) :=
  match bufioWrite dta w with
  | (err, w') =>
    match ChkNetErr err with
    | .ok e => .ok (e, w')
    | .error a => .error a

/-- The method `(*readBufWriter).WriteByte`. -/
def readBufWriter.WriteByte (byt : Byte) (w : BufWriter) : Run (GoErr × BufWriter) :=
  match bufioWrite [byt] w with
  | (err, w') =>
    match ChkNetErr err with
    | .ok e => .ok (e, w')
    | .error a => .error a

/-- The method `(*readBufWriter).WriteString`, the string given by its bytes. -/
def readBufWriter.WriteString (str : List Byte) (w : BufWriter) : Run (GoErr × BufWriter) :=
  match bufioWrite str w with
  | (err, w') =>
    match ChkNetErr err with
    | .ok e => .ok (e, w')
    | .error a => .error a

/-- The method `(*readBufWriter).WriteStruct`. -/
def readBufWriter.WriteStruct (ord : ByteOrder) (i : StructVal) (w : BufWriter) :
    Run (GoErr × BufWriter) :=
  readBufWriter.Write (encode ord i) w

/-- The method `(*readBufWriter).Flush`. -/
def readBufWriter.Flush (w : BufWriter) : GoErr × BufWriter :=
  bufioFlush w

/-- The method `(*readBufWriter).Close`: flush, close through `(*readWriter).Close`, and
return the flush error when there is one. -/
def readBufWriter.Close (w : BufWriter) : Run (GoErr × BufWriter) :=
  match bufioFlush w with
  | (ferr, w') =>
    match Nwk.Close w'.conn with
    | .error a => .error a
    | .ok (cerr, c') =>
      if ferr ≠ .nil then .ok (ferr, { w' with conn := c' })
      else .ok (cerr, { w' with conn := c' })

/-- The function `newReadBufWriter(conn)`, write side. -/
def newReadBufWriter (c : Conn) : BufWriter :=
  { conn := c, wbuf := [], werr := .nil }

/-! ## Reading a line (`ReadBytes`, `ReadString`) -/

/-- The bytes of a buffer up to and including the first `delim` and the bytes
behind it (`bytes.IndexByte` and the slicing built on it); `none` when `delim`
does not occur. -/
def cutAt (delim : Byte) : List Byte → Option (List Byte × List Byte)
  | [] => none
  | b :: bs =>
    if b = delim then some ([b], bs)
    else
      match cutAt delim bs with
      | none => none
      | some (line, rest) => some (b :: line, rest)

/-- The method `ReadBytes` of `bufio.Reader` (it is also what `ReadString`
runs): the loop over `ReadSlice`, with `acc` the full buffers set aside so far.
Each pass searches the buffer for `delim`; without it, a full buffer is set
aside, and a buffer with room is topped up by one `conn.Read`, whose error
ends the call with the bytes gathered.  `fuel` bounds the passes. -/
def bufioReadBytesLoop (delim : Byte) : Nat → List Byte → Reader → Run (List Byte × GoErr × Reader)
  | 0, _, _ => .error .outOfFuel
  | fuel + 1, acc, s =>
    match cutAt delim s.buf with
    | some (line, rest) => .ok (acc ++ line, .nil, { s with buf := rest })
    | none =>
      if defaultBufSize ≤ s.buf.length then
        bufioReadBytesLoop delim fuel (acc ++ s.buf) { s with buf := [] }
      else
        match connRead (defaultBufSize - s.buf.length) s.chunks s.fail with
        | ([], err, chunks) =>
          .ok (acc ++ s.buf, if err = .nil then ErrNoProgress else err,
            { s with buf := [], chunks := chunks })
        | (b :: r, _, chunks) =>
          bufioReadBytesLoop delim fuel acc { s with buf := s.buf ++ b :: r, chunks := chunks }

/-- The number of `conn.Read` calls the loop of `bufioReadBytesLoop` makes. -/
def bufioReadBytesReads (delim : Byte) : Nat → Reader → Nat
  | 0, _ => 0
  | fuel + 1, s =>
    match cutAt delim s.buf with
    | some _ => 0
    | none =>
      if defaultBufSize ≤ s.buf.length then bufioReadBytesReads delim fuel { s with buf := [] }
      else
        match connRead (defaultBufSize - s.buf.length) s.chunks s.fail with
        | ([], err, _) => if err = .nil then 100 else 1
        | (b :: r, _, chunks) =>
          1 + bufioReadBytesReads delim fuel { s with buf := s.buf ++ b :: r, chunks := chunks }

/-- The method `(*readWriter).ReadBytes`, with the EOL byte of the
`readWriter`. -/
def ReadBytes (fuel : Nat) (eol : Byte) (s : Reader) : Run (List Byte × GoErr × Reader) :=
  match bufioReadBytesLoop eol fuel [] s with
  | .error a => .error a
  | .ok (b, err, s') =>
    match ChkNetErr err with
    | .ok e => .ok (b, e, s')
    | .error a => .error a

/-- The method `(*readWriter).ReadString`, the string given by its bytes; the
delimiter is the newline, byte 10. -/
def ReadString (fuel : Nat) (s : Reader) : Run (List Byte × GoErr × Reader) :=
  match bufioReadBytesLoop 10 fuel [] s with
  | .error a => .error a
  | .ok (b, err, s') =>
    match ChkNetErr err with
    | .ok e => .ok (b, e, s')
    | .error a => .error a

/-! ## The calls a `ReadWriter` makes on its connection

The functions below are the primitives of `tcp/readWriter.go` once more, now on
the whole `readWriter` struct and with a record of the calls made on the
`net.Conn`: the deadlines set by `setRExpiry` and `setWExpiry`, the reads and
writes (those made by `bufio` included) and the close.  What they return and
what they do to the reader and to the connection is given by the primitives
above. -/

/-- One call on the `net.Conn` under a `ReadWriter`.  The argument of a
deadline call is `some d` for the time `time.Now().Add(d)`, the clock being
read at the call, and `none` for the zero `time.Time`, which removes the
deadline. -/
inductive ConnOp where
  | SetReadDeadline (d : Option Nat)
  | SetWriteDeadline (d : Option Nat)
  | Read
  | Write (dta : List Byte)
  | Close
  deriving DecidableEq, Repr

/-- The number of `conn.Read` calls of `bufioReadByte`: none with a byte in the
buffer, otherwise the one read of `fill`, which is tried 100 times on a
connection that neither delivers nor fails. -/
def bufioReadByteReads (s : Reader) : Nat :=
  match s.buf with
  | _ :: _ => 0
  | [] =>
    match s.chunks with
    | [] => if s.fail = .nil then 100 else 1
    | _ :: _ => 1

/-- The number of `conn.Read` calls of `bufioRead`. -/
def bufioReadReads (n : Nat) (s : Reader) : Nat :=
  if n = 0 then 0
  else
    match s.buf with
    | [] => 1
    | _ :: _ => 0

/-- The `conn.Write` calls of `bufioFlush`. -/
def bufioFlushOps (w : BufWriter) : List ConnOp :=
  if w.werr ≠ .nil then []
  else if w.wbuf.length = 0 then []
  else [.Write w.wbuf]

/-- The `conn.Write` calls of `bufioWrite`: the flush of a buffer filled up and
the direct write of a slice too large for the empty buffer. -/
def bufioWriteOps (p : List Byte) (w : BufWriter) : List ConnOp :=
  let avail := defaultBufSize - w.wbuf.length
  let topUp : Bool := avail < p.length ∧ w.werr = .nil ∧ w.wbuf.length ≠ 0
  let ops1 : List ConnOp :=
    if topUp then bufioFlushOps { w with wbuf := w.wbuf ++ p.take avail } else []
  let p1 := if topUp then p.drop avail else p
  let w1 := if topUp then (bufioFlush { w with wbuf := w.wbuf ++ p.take avail }).2 else w
  let ops2 : List ConnOp :=
    if defaultBufSize - w1.wbuf.length < p1.length ∧ w1.werr = .nil then [.Write p1] else []
  ops1 ++ ops2

/-- The struct `readWriter`: the reader and the connection, the EOL byte, the
two timeouts (zero: none), and the calls made on the connection so far. -/
structure Traced.readWriter where
  reader : Reader
  conn : Conn
  eol : Byte
  readTimeout : Nat
  writeTimeout : Nat
  ops : List ConnOp
  deriving DecidableEq, Repr

/-- The function `newReadWriter(conn)`: the EOL byte is the newline. -/
def Traced.newReadWriter (reader : Reader) (conn : Conn) : Traced.readWriter :=
  { reader := reader, conn := conn, eol := 10, readTimeout := 0, writeTimeout := 0, ops := [] }

/-- The method `(*readWriter).SetEOL`. -/
def Traced.readWriter.SetEOL (eol : Byte) (x : Traced.readWriter) : Traced.readWriter :=
  { x with eol := eol }

/-- The method `(*readWriter).ReadTimeout`. -/
def Traced.readWriter.ReadTimeout (d : Nat) (x : Traced.readWriter) : Traced.readWriter :=
  { x with readTimeout := d }

/-- The method `(*readWriter).WriteTimeout`. -/
def Traced.readWriter.WriteTimeout (d : Nat) (x : Traced.readWriter) : Traced.readWriter :=
  { x with writeTimeout := d }

/-- The deadline `setRExpiry` computes. -/
def Traced.readWriter.rExpiry (x : Traced.readWriter) : Option Nat :=
  if 0 ≠ x.readTimeout then some x.readTimeout else none

/-- The deadline `setWExpiry` computes. -/
def Traced.readWriter.wExpiry (x : Traced.readWriter) : Option Nat :=
  if 0 ≠ x.writeTimeout then some x.writeTimeout else none

/-- The method `(*readWriter).setRExpiry`. -/
def Traced.readWriter.setRExpiry (x : Traced.readWriter) : Traced.readWriter :=
  { x with ops := x.ops ++ [.SetReadDeadline x.rExpiry] }

/-- The method `(*readWriter).setWExpiry`. -/
def Traced.readWriter.setWExpiry (x : Traced.readWriter) : Traced.readWriter :=
  { x with ops := x.ops ++ [.SetWriteDeadline x.wExpiry] }

/-- The method `(*readWriter).Read` for a slice of length `n`. -/
def Traced.readWriter.Read (n : Nat) (x : Traced.readWriter) :
    Run (List Byte × GoErr × Traced.readWriter) :=
  match Nwk.Read n x.reader with
  | .error a => .error a
  | .ok (data, err, r') =>
    .ok (data, err, { x with
      reader := r',
      ops := x.setRExpiry.ops ++ List.replicate (bufioReadReads n x.reader) .Read })

/-- The method `(*readWriter).ReadByte`. -/
def Traced.readWriter.ReadByte (x : Traced.readWriter) : Run (Byte × GoErr × Traced.readWriter) :=
  match Nwk.ReadByte x.reader with
  | .error a => .error a
  | .ok (b, err, r') =>
    .ok (b, err, { x with
      reader := r',
      ops := x.setRExpiry.ops ++ List.replicate (bufioReadByteReads x.reader) .Read })

/-- The method `(*readWriter).ReadBytes`. -/
def Traced.readWriter.ReadBytes (fuel : Nat) (x : Traced.readWriter) :
    Run (List Byte × GoErr × Traced.readWriter) :=
  match Nwk.ReadBytes fuel x.eol x.reader with
  | .error a => .error a
  | .ok (b, err, r') =>
    .ok (b, err, { x with
      reader := r',
      ops := x.setRExpiry.ops ++ List.replicate (bufioReadBytesReads x.eol fuel x.reader) .Read })

/-- The method `(*readWriter).ReadString`. -/
def Traced.readWriter.ReadString (fuel : Nat) (x : Traced.readWriter) :
    Run (List Byte × GoErr × Traced.readWriter) :=
  match Nwk.ReadString fuel x.reader with
  | .error a => .error a
  | .ok (b, err, r') =>
    .ok (b, err, { x with
      reader := r',
      ops := x.setRExpiry.ops ++ List.replicate (bufioReadBytesReads 10 fuel x.reader) .Read })

/-- The loop `waitStart` of `FindStart`, entered with match index `i`. -/
def Traced.findStartLoop (stRec : List Byte) :
    Nat → Nat → Traced.readWriter → Run (GoErr × Traced.readWriter)
  | 0, i, x => if i < stRec.length then .error .outOfFuel else .ok (.nil, x)
  | fuel + 1, i, x =>
    if h : i < stRec.length then
      match x.ReadByte with
      | .error a => .error a
      | .ok (b, err, x') =>
        if err ≠ .nil then .ok (err, x')
        else if b ≠ stRec.get ⟨i, h⟩ then Traced.findStartLoop stRec fuel 0 x'
        else Traced.findStartLoop stRec fuel (i + 1) x'
    else .ok (.nil, x)

/-- The method `(*readWriter).FindStart`. -/
def Traced.readWriter.FindStart (fuel : Nat) (stRec : List Byte) (x : Traced.readWriter) :
    Run (GoErr × Traced.readWriter) :=
  Traced.findStartLoop stRec fuel 0 x.setRExpiry

/-- The loop `waitEnd` of `ReadRecord`, entered with match index `i` and the
bytes `data` gathered so far. -/
def Traced.readRecordLoop (enRec : List Byte) :
    Nat → Nat → List Byte → Traced.readWriter → Run (List Byte × GoErr × Traced.readWriter)
  | 0, i, data, x => if i < enRec.length then .error .outOfFuel else .ok (data, .nil, x)
  | fuel + 1, i, data, x =>
    if h : i < enRec.length then
      match x.ReadByte with
      | .error a => .error a
      | .ok (b, err, x') =>
        if err ≠ .nil then
          match ChkNetErr err with
          | .ok e => .ok (data, e, x')
          | .error a => .error a
        else if b ≠ enRec.get ⟨i, h⟩ then
          Traced.readRecordLoop enRec fuel 0 (data ++ enRec.take i ++ [b]) x'
        else Traced.readRecordLoop enRec fuel (i + 1) data x'
    else .ok (data, .nil, x)

/-- The method `(*readWriter).ReadRecord`. -/
def Traced.readWriter.ReadRecord (fuel : Nat) (stRec enRec : List Byte) (x : Traced.readWriter) :
    Run (List Byte × GoErr × Traced.readWriter) :=
  if enRec.length = 0 then .error .assertion
  else
    match x.FindStart fuel stRec with
    | .error a => .error a
    | .ok (err, x') =>
      if err ≠ .nil then
        match ChkNetErr err with
        | .ok e => .ok ([], e, x')
        | .error a => .error a
      else Traced.readRecordLoop enRec fuel 0 [] x'

/-- The method `(*readWriter).ReadSizedRecord`. -/
def Traced.readWriter.ReadSizedRecord (fuel : Nat) (stRec : List Byte) (recLen : Int)
    (x : Traced.readWriter) : Run (List Byte × GoErr × Traced.readWriter) :=
  match x.FindStart fuel stRec with
  | .error a => .error a
  | .ok (err, x') =>
    if err ≠ .nil then
      match ChkNetErr err with
      | .ok e => .ok ([], e, x')
      | .error a => .error a
    else if recLen < 0 then .error .panic
    else if maxAlloc < recLen.toNat then .error .panic
    else
      match x'.Read recLen.toNat with
      | .error a => .error a
      | .ok (data, err, x'') =>
        match ChkNetErr err with
        | .ok e => .ok (data, e, x'')
        | .error a => .error a

/-- The method `(*readWriter).ReadStruct` with target `i`. -/
def Traced.readWriter.ReadStruct (ord : ByteOrder) (i : StructVal) (x : Traced.readWriter) :
    Run (GoErr × StructVal × Traced.readWriter) :=
  if binarySize i = 0 then .ok (.nil, i, x)
  else
    match x.Read (binarySize i) with
    | .error a => .error a
    | .ok (data, err, x') =>
      if err ≠ .nil then
        match ChkNetErr err with
        | .ok e => .ok (e, i, x')
        | .error a => .error a
      else if data.length ≠ binarySize i then .ok (Err_BadData, i, x')
      else
        match binaryRead ord i data with
        | (e, v) => .ok (e, v, x')

/-- The method `(*readWriter).Flush`. -/
def Traced.readWriter.Flush (x : Traced.readWriter) : GoErr × Traced.readWriter := (.nil, x)

/-- The method `(*readWriter).Write`. -/
def Traced.readWriter.Write (dta : List Byte) (x : Traced.readWriter) :
    Run (GoErr × Traced.readWriter) :=
  match Nwk.Write dta x.conn with
  | .error a => .error a
  | .ok (e, c') => .ok (e, { x with conn := c', ops := x.setWExpiry.ops ++ [.Write dta] })

/-- The method `(*readWriter).WriteByte`. -/
def Traced.readWriter.WriteByte (byt : Byte) (x : Traced.readWriter) :
    Run (GoErr × Traced.readWriter) :=
  match Nwk.WriteByte byt x.conn with
  | .error a => .error a
  | .ok (e, c') => .ok (e, { x with conn := c', ops := x.setWExpiry.ops ++ [.Write [byt]] })

/-- The method `(*readWriter).WriteString`, the string given by its bytes. -/
def Traced.readWriter.WriteString (str : List Byte) (x : Traced.readWriter) :
    Run (GoErr × Traced.readWriter) :=
  match Nwk.WriteString str x.conn with
  | .error a => .error a
  | .ok (e, c') => .ok (e, { x with conn := c', ops := x.setWExpiry.ops ++ [.Write str] })

/-- The method `(*readWriter).WriteStruct`. -/
def Traced.readWriter.WriteStruct (ord : ByteOrder) (i : StructVal) (x : Traced.readWriter) :
    Run (GoErr × Traced.readWriter) :=
  x.Write (encode ord i)

/-- The method `(*readWriter).Close`. -/
def Traced.readWriter.Close (x : Traced.readWriter) : Run (GoErr × Traced.readWriter) :=
  match Nwk.Close x.conn with
  | .error a => .error a
  | .ok (e, c') => .ok (e, { x with conn := c', ops := x.ops ++ [.Close] })

/-- The struct `readBufWriter`: the `readWriter` it reads through and the state
of its `bufio.Writer`. -/
structure Traced.readBufWriter where
  r : Traced.readWriter
  wbuf : List Byte
  werr : GoErr
  deriving DecidableEq, Repr

/-- The function `newReadBufWriter(conn)`. -/
def Traced.newReadBufWriter (reader : Reader) (conn : Conn) : Traced.readBufWriter :=
  { r := Traced.newReadWriter reader conn, wbuf := [], werr := .nil }

/-- The `bufio.Writer` of a `readBufWriter` with the connection under it. -/
def Traced.readBufWriter.writer (x : Traced.readBufWriter) : BufWriter :=
  { conn := x.r.conn, wbuf := x.wbuf, werr := x.werr }

/-- The method `(*readBufWriter).Write`. -/
def Traced.readBufWriter.Write (dta : List Byte) (x : Traced.readBufWriter) :
    Run (GoErr × Traced.readBufWriter) :=
  match Nwk.readBufWriter.Write dta x.writer with
  | .error a => .error a
  | .ok (e, w') =>
    .ok (e, { r := { x.r with conn := w'.conn,
                              ops := x.r.setWExpiry.ops ++ bufioWriteOps dta x.writer },
              wbuf := w'.wbuf, werr := w'.werr })

/-- The method `(*readBufWriter).WriteByte`. -/
def Traced.readBufWriter.WriteByte (byt : Byte) (x : Traced.readBufWriter) :
    Run (GoErr × Traced.readBufWriter) :=
  match Nwk.readBufWriter.WriteByte byt x.writer with
  | .error a => .error a
  | .ok (e, w') =>
    .ok (e, { r := { x.r with conn := w'.conn,
                              ops := x.r.setWExpiry.ops ++ bufioWriteOps [byt] x.writer },
              wbuf := w'.wbuf, werr := w'.werr })

/-- The method `(*readBufWriter).WriteString`, the string given by its bytes. -/
def Traced.readBufWriter.WriteString (str : List Byte) (x : Traced.readBufWriter) :
    Run (GoErr × Traced.readBufWriter) :=
  match Nwk.readBufWriter.WriteString str x.writer with
  | .error a => .error a
  | .ok (e, w') =>
    .ok (e, { r := { x.r with conn := w'.conn,
                              ops := x.r.setWExpiry.ops ++ bufioWriteOps str x.writer },
              wbuf := w'.wbuf, werr := w'.werr })

/-- The method `(*readBufWriter).WriteStruct`. -/
def Traced.readBufWriter.WriteStruct (ord : ByteOrder) (i : StructVal)
    (x : Traced.readBufWriter) : Run (GoErr × Traced.readBufWriter) :=
  x.Write (encode ord i)

/-- The method `(*readBufWriter).Flush`: no deadline is set. -/
def Traced.readBufWriter.Flush (x : Traced.readBufWriter) : GoErr × Traced.readBufWriter :=
  match Nwk.readBufWriter.Flush x.writer with
  | (e, w') =>
    (e, { r := { x.r with conn := w'.conn, ops := x.r.ops ++ bufioFlushOps x.writer },
          wbuf := w'.wbuf, werr := w'.werr })

/-- The method `(*readBufWriter).Close`: the flush, without a deadline of its
own, and the close of the connection. -/
def Traced.readBufWriter.Close (x : Traced.readBufWriter) : Run (GoErr × Traced.readBufWriter) :=
  match Nwk.readBufWriter.Close x.writer with
  | .error a => .error a
  | .ok (e, w') =>
    .ok (e, { r := { x.r with conn := w'.conn,
                              ops := x.r.ops ++ bufioFlushOps x.writer ++ [.Close] },
              wbuf := w'.wbuf, werr := w'.werr })

/-- A read primitive of `readBufWriter` that returns data and an error: it is
the one of the `readWriter` inside (`Read`, `ReadByte`, `ReadBytes`,
`ReadString`, `ReadRecord` and `ReadSizedRecord` all delegate to `x.r`). -/
def Traced.readBufWriter.viaReader {α : Type}
    (f : Traced.readWriter → Run (α × GoErr × Traced.readWriter))
    (x : Traced.readBufWriter) : Run (α × GoErr × Traced.readBufWriter) :=
  match f x.r with
  | .error a => .error a
  | .ok (a, e, r') => .ok (a, e, { x with r := r' })

/-- The method `(*readBufWriter).FindStart`. -/
def Traced.readBufWriter.FindStart (fuel : Nat) (stRec : List Byte) (x : Traced.readBufWriter) :
    Run (GoErr × Traced.readBufWriter) :=
  match x.r.FindStart fuel stRec with
  | .error a => .error a
  | .ok (e, r') => .ok (e, { x with r := r' })

/-- The method `(*readBufWriter).ReadStruct`. -/
def Traced.readBufWriter.ReadStruct (ord : ByteOrder) (i : StructVal) (x : Traced.readBufWriter) :
    Run (GoErr × StructVal × Traced.readBufWriter) :=
  match x.r.ReadStruct ord i with
  | .error a => .error a
  | .ok (e, v, r') => .ok (e, v, { x with r := r' })

/-- Whether, along a sequence of calls, every `Read` comes after a
`SetReadDeadline dr` with only reads in between and every `Write` after a
`SetWriteDeadline dw` with only writes in between; `r` and `w` tell whether
such a deadline call is in force at the start. -/
def covered (dr dw : Option Nat) : Bool → Bool → List ConnOp → Bool
  | _, _, [] => true
  | _, _, .SetReadDeadline d :: ops => decide (d = dr) && covered dr dw true false ops
  | _, _, .SetWriteDeadline d :: ops => decide (d = dw) && covered dr dw false true ops
  | r, _, .Read :: ops => r && covered dr dw r false ops
  | _, w, .Write _ :: ops => w && covered dr dw false w ops
  | _, _, .Close :: ops => covered dr dw false false ops

/-- Whether, along a sequence of calls, every `Read` comes right after a
`SetReadDeadline dr` and every `Write` right after a `SetWriteDeadline dw`;
`prev` is the call before the sequence. -/
def immediate (dr dw : Option Nat) : Option ConnOp → List ConnOp → Bool
  | _, [] => true
  | prev, .Read :: ops =>
    decide (prev = some (.SetReadDeadline dr)) && immediate dr dw (some .Read) ops
  | prev, .Write dta :: ops =>
    decide (prev = some (.SetWriteDeadline dw)) && immediate dr dw (some (.Write dta)) ops
  | _, .SetReadDeadline d :: ops => immediate dr dw (some (.SetReadDeadline d)) ops
  | _, .SetWriteDeadline d :: ops => immediate dr dw (some (.SetWriteDeadline d)) ops
  | _, .Close :: ops => immediate dr dw (some .Close) ops

/-- The calls a primitive has added to the record, leading from `x` to `x'`,
are covered by the deadlines of `x`, and the timeouts are as before. -/
def Traced.Issues (x x' : Traced.readWriter) : Prop :=
  x'.readTimeout = x.readTimeout ∧ x'.writeTimeout = x.writeTimeout ∧
  ∃ seg, x'.ops = x.ops ++ seg ∧ covered x.rExpiry x.wExpiry false false seg = true

/-! ## The listener (`tcp/listener.go`)

A connection is known by the address of its peer (`conn.RemoteAddr().String()`)
and a handler by the error it returns for a connection number and a peer.  What
a listener does to the outside is kept in a log.  The two counters are `uint32`
values; `Counts` and `WaitOnConnection` convert them to `int`, taken to be 64
bits wide. -/

/-- The function `atomic.AddUint32`: the new value of a counter `x` after
`delta` is added, modulo `2 ^ 32`. -/
def addUint32 (x delta : Nat) : Nat := (x + delta) % 2 ^ 32

/-- The status messages: `"Listener Created"`, `"Listener Waiting"`,
`"Listener Closed"`, `"Con<n>@<serving>"` and `"Dis<n>@<serving>(<err>)"`. -/
inductive Status where
  | Created
  | Waiting
  | Closed
  | Con (n : Int) (serving : String)
  | Dis (n : Int) (serving : String) (err : GoErr)
  deriving DecidableEq, Repr

/-- What a listener does that its surroundings see: a message sent on the
status channel, the deadline set on the TCP listener (`some d`: now plus `d`;
`none`: the zero time), a call of `Accept`, the call of the handler, the close
of a connection, an error sent on the error channel, the start of a goroutine
for `handleConn`, and the close of the TCP listener. -/
inductive Event where
  | status (s : Status)
  | setDeadline (d : Option Nat)
  | accept
  | handler (n : Int) (serving : String)
  | connClose (serving : String)
  | errSent (e : GoErr)
  | spawn (n : Int) (conn : Option String)
  | listenerClose
  deriving DecidableEq, Repr

/-- The struct `Listener`; `statPipe` tells whether a status channel was given,
`closed` whether the TCP listener has been closed, `log` what has been done so
far. -/
structure Listener where
  connections : Nat
  servicing : Nat
  hostIP : String
  statPipe : Bool
  timeout : Nat
  closed : Bool
  log : List Event
  deriving DecidableEq, Repr

/-- The method `(*Listener).status`. -/
def Listener.status (s : Status) (l : Listener) : Listener :=
  if l.statPipe then { l with log := l.log ++ [Event.status s] } else l

/-- The listener `NewListener` returns when binding succeeds. -/
def Listener.fresh (ipPort : String) (status : Bool) : Listener :=
  Listener.status .Created
    { connections := 0, servicing := 0, hostIP := ipPort, statPipe := status, timeout := 0,
      closed := false, log := [] }

/-- The function `NewListener`; `resolveErr` and `listenErr` are the errors of
`net.ResolveTCPAddr` and `net.ListenTCP`. -/
def NewListener (ipPort : String) (status : Bool) (resolveErr listenErr : GoErr) :
    Option Listener × GoErr :=
  if resolveErr ≠ .nil then (none, resolveErr)
  else if listenErr ≠ .nil then (none, listenErr)
  else (some (Listener.fresh ipPort status), .nil)

/-- The method `(*Listener).SetTimeout`. -/
def Listener.SetTimeout (timeout : Nat) (l : Listener) : Listener :=
  { l with timeout := timeout }

/-- The method `(*Listener).Close`. -/
def Listener.Close (l : Listener) : Listener :=
  Listener.status .Closed { l with closed := true, log := l.log ++ [Event.listenerClose] }

/-- The method `(*Listener).Counts`. -/
def Listener.Counts (l : Listener) : Int × Int :=
  (Int.ofNat l.servicing, Int.ofNat l.connections)

/-- What `Accept` returns: the connection (`none`: nil) and the error. -/
abbrev Accepted := Option String × GoErr

/-- The result of `l.listener.Accept()` when the surroundings offer `out`: on a
closed listener it is the error of a closed connection. -/
def Listener.accepted (out : Accepted) (l : Listener) : Accepted :=
  if l.closed then (none, errClosed) else out

/-- The method `(*Listener).WaitOnConnection`.  The check `ListenDbg.ChkErrI`
reports whether the error is non-nil (the errors listed with it are only kept
out of the debug output). -/
def Listener.WaitOnConnection (out : Accepted) (l : Listener) :
    Run (Option String × Int × GoErr × Listener) :=
  let l1 := { l with log := l.log ++ [Event.setDeadline (if l.timeout ≠ 0 then some l.timeout else none)] }
  let l2 := Listener.status .Waiting l1
  let l3 := { l2 with log := l2.log ++ [Event.accept] }
  match ChkNetErr (l.accepted out).2 with
  | .error a => .error a
  | .ok err =>
    if err ≠ .nil then .ok (none, -1, err, l3)
    else
      let l4 := { l3 with servicing := addUint32 l3.servicing 1 }
      let l5 := { l4 with connections := addUint32 l4.connections 1 }
      .ok ((l.accepted out).1, Int.ofNat l5.connections, .nil, l5)

/-- The type `ConnHandler`, as the error the handler returns for a connection
number and a peer address. -/
abbrev ConnHandler := Int → String → GoErr

/-- The method `(*Listener).handleConn`; `errPipe` tells whether an error
channel was given.  A nil `conn` makes `conn.RemoteAddr()` panic. -/
def Listener.handleConn (conn : Option String) (conNum : Int) (ch : ConnHandler)
    (errPipe : Bool) (l : Listener) : Run (GoErr × Listener) :=
  match conn with
  | none => .error .panic
  | some serving =>
    let l1 := Listener.status (.Con conNum serving) l
    let l2 := { l1 with log := l1.log ++ [Event.handler conNum serving] }
    match ChkNetErr (ch conNum serving) with
    | .error a => .error a
    | .ok err =>
      let l3 := { l2 with log := l2.log ++ [Event.connClose serving] }
      let l4 := if err ≠ .nil ∧ errPipe = true then { l3 with log := l3.log ++ [Event.errSent err] } else l3
      let l5 := { l4 with servicing := addUint32 l4.servicing (2 ^ 32 - 1) }
      .ok (err, Listener.status (.Dis conNum serving err) l5)

/-- The method `(*Listener).HandleARequest`. -/
def Listener.HandleARequest (out : Accepted) (ch : ConnHandler) (l : Listener) :
    Run (GoErr × Listener) :=
  match l.WaitOnConnection out with
  | .error a => .error a
  | .ok (conn, conNum, err, l') =>
    if err ≠ .nil then .ok (err, l')
    else Listener.handleConn conn conNum ch false l'

/-- One step of the schedule under which `HandleRequests` and the goroutines it
starts run: the next pass of the accept loop, with what `Accept` returns, or the
run, in one piece, of the `i`-th of the `handleConn` goroutines started and not
yet run. -/
inductive Sched where
  | accept (out : Accepted)
  | run (i : Nat)
  deriving DecidableEq, Repr

/-- The method `(*Listener).HandleRequests` under a schedule; `tasks` are the
goroutines started and not yet run.  A schedule that ends with the loop still
waiting gives `Abort.outOfFuel`. -/
def Listener.HandleRequests (ch : ConnHandler) (errPipe : Bool) :
    List Sched → List (Option String × Int) → Listener → Run (GoErr × Listener)
  | [], _, _ => .error .outOfFuel
  | .accept out :: rest, tasks, l =>
    match l.WaitOnConnection out with
    | .error a => .error a
    | .ok (conn, conNum, err, l') =>
      if err ≠ .nil then .ok (err, l')
      else
        Listener.HandleRequests ch errPipe rest (tasks ++ [(conn, conNum)])
          { l' with log := l'.log ++ [Event.spawn conNum conn] }
  | .run i :: rest, tasks, l =>
    match tasks.get? i with
    | none => Listener.HandleRequests ch errPipe rest tasks l
    | some (conn, conNum) =>
      match Listener.handleConn conn conNum ch errPipe l with
      | .error a => .error a
      | .ok (_, l') => Listener.HandleRequests ch errPipe rest (tasks.eraseIdx i) l'

/-- An operation on a listener: a `WaitOnConnection` call with what `Accept`
returns, the run of `handleConn` for a connection with the result of its
handler, a `HandleARequest` call with what `Accept` and the handler return,
`SetTimeout`, and `Close`. -/
inductive ListenerOp where
  | wait (out : Accepted)
  | handled (conn : Option String) (conNum : Int) (res : GoErr) (errPipe : Bool)
  | request (out : Accepted) (res : GoErr)
  | setTimeout (timeout : Nat)
  | close
  deriving DecidableEq, Repr

/-- The listener after one operation. -/
def Listener.step (op : ListenerOp) (l : Listener) : Run Listener :=
  match op with
  | .wait out =>
    match l.WaitOnConnection out with
    | .error a => .error a
    | .ok (_, _, _, l') => .ok l'
  | .handled conn conNum res errPipe =>
    match Listener.handleConn conn conNum (fun _ _ => res) errPipe l with
    | .error a => .error a
    | .ok (_, l') => .ok l'
  | .request out res =>
    match l.HandleARequest out (fun _ _ => res) with
    | .error a => .error a
    | .ok (_, l') => .ok l'
  | .setTimeout timeout => .ok (l.SetTimeout timeout)
  | .close => .ok l.Close

/-- The listener after a sequence of operations. -/
def Listener.run : List ListenerOp → Listener → Run Listener
  | [], l => .ok l
  | op :: ops, l =>
    match l.step op with
    | .error a => .error a
    | .ok l' => Listener.run ops l'

/-- What a status message adds to the log: one event with a status channel,
none without. -/
def Listener.statusLog (l : Listener) (s : Status) : List Event :=
  if l.statPipe then [Event.status s] else []

/-- What a `WaitOnConnection` call adds to the log. -/
def Listener.waitLog (l : Listener) : List Event :=
  [Event.setDeadline (if l.timeout ≠ 0 then some l.timeout else none)] ++
    l.statusLog .Waiting ++ [Event.accept]

/-- What a `handleConn` call adds to the log, for the normalised result `err` of
the handler. -/
def Listener.handleLog (l : Listener) (conNum : Int) (serving : String) (err : GoErr)
    (errPipe : Bool) : List Event :=
  l.statusLog (.Con conNum serving) ++ [Event.handler conNum serving, Event.connClose serving] ++
    (if err ≠ .nil ∧ errPipe = true then [Event.errSent err] else []) ++
    l.statusLog (.Dis conNum serving err)

/-- Whether an operation goes through a `WaitOnConnection` that is offered a
connection without error. -/
def ListenerOp.accepts : ListenerOp → Bool
  | .wait out => decide (out.2 = .nil)
  | .request out _ => decide (out.2 = .nil)
  | _ => false

/-- Whether an operation takes a connection through `handleConn`. -/
def ListenerOp.handles : ListenerOp → Bool
  | .handled _ _ _ _ => true
  | .request out _ => decide (out.2 = .nil)
  | _ => false

/-- Whether an operation is offered only connections and results under which
`WaitOnConnection` and `handleConn` return: an accept without error comes with
a connection, `handleConn` is given a connection, and the normalisation of an
error returns. -/
def ListenerOp.Returns : ListenerOp → Prop
  | .wait out => ∃ e, ChkNetErr out.2 = .ok e
  | .handled conn _ res _ => conn ≠ none ∧ ∃ e, ChkNetErr res = .ok e
  | .request out res =>
    (∃ e, ChkNetErr out.2 = .ok e) ∧ (out.2 = .nil → out.1 ≠ none) ∧ ∃ e, ChkNetErr res = .ok e
  | .setTimeout _ => True
  | .close => True

/-- Whether a log entry is the start of a `handleConn` goroutine. -/
def Event.isSpawn : Event → Bool
  | .spawn _ _ => true
  | _ => false

/-- Whether a step of a schedule is a pass of the accept loop. -/
def Sched.isAccept : Sched → Bool
  | .accept _ => true
  | .run _ => false

/-! ## The local IPv4 address (`nwk.go`)

A Go string is given by the list of its characters. -/

/-- The sentinel `Err_BadInterface`. -/
def Err_BadInterface : GoErr := .nwk .BadInterface

/-- The function `strings.Split(s, sep)` for a separator of one character. -/
def Split (sep : Char) : List Char → List (List Char)
  | [] => [[]]
  | c :: cs =>
    if c = sep then [] :: Split sep cs
    else
      match Split sep cs with
      | [] => [[c]]
      | p :: ps => (c :: p) :: ps

/-- The slice `a[:strings.Index(a, "/")]`: the text in front of the first
slash; without a slash the index is -1 and the slice expression panics. -/
def beforeSlash : List Char → Run (List Char)
  | [] => .error .panic
  | c :: cs =>
    if c = '/' then .ok []
    else
      match beforeSlash cs with
      | .ok r => .ok (c :: r)
      | .error a => .error a

/-- One entry of `net.Interfaces()`: the name, and what `i.Addrs()` returns,
the addresses by their `String()` text and the error. -/
structure Interface where
  Name : List Char
  addrs : List (List Char)
  err : GoErr
  deriving DecidableEq, Repr

/-- The return statement of `FindMyIP4Addr` for the address `a`. -/
def foundAddr (tail a : List Char) : Run (List Char × GoErr) :=
  match beforeSlash a with
  | .ok ip => .ok (ip ++ tail, .nil)
  | .error e => .error e

/-- The inner loop of `FindMyIP4Addr`, over the addresses of the interface
called `name`: `none` when it ends without a return. -/
def findInAddrs (lead tail name : List Char) : List (List Char) → Option (Run (List Char × GoErr))
  | [] => none
  | a :: rest =>
    if ':' ∈ a then findInAddrs lead tail name rest
    else if lead ≠ [] then
      if lead.isPrefixOf a then some (foundAddr tail a)
      else findInAddrs lead tail name rest
    else if name ≠ ['l', 'o'] then some (foundAddr tail a)
    else findInAddrs lead tail name rest

/-- The outer loop of `FindMyIP4Addr`, over the interfaces, and the return
behind it. -/
def findInInterfaces (lead tail : List Char) : List Interface → Run (List Char × GoErr)
  | [] => .ok ([], Err_BadInterface)
  | i :: rest =>
    if i.err ≠ .nil then findInInterfaces lead tail rest
    else
      match findInAddrs lead tail i.Name i.addrs with
      | some r => r
      | none => findInInterfaces lead tail rest

/-- The filter of `FindMyIP4Addr` once a trailing dot is forced on it. -/
def forceDot (lead : List Char) : List Char :=
  if lead.getLast? ≠ some '.' then lead ++ ['.'] else lead

/-- The function `FindMyIP4Addr(lead)`, with `infs` what `net.Interfaces()`
returns.  A failed `dbg.ChkTruX` stops the program. -/
def FindMyIP4Addr (infs : List Interface) (lead : List Char) : Run (List Char × GoErr) :=
  let i := Split ':' lead
  let tail : List Char := if i.length = 2 then ':' :: i.getD 1 [] else []
  let lead : List Char := if i.length = 2 then i.getD 0 [] else lead
  if 0 < lead.length then
    if lead.head? = some '.' then .error .assertion
    else if ¬ (forceDot lead).count '.' < 4 then .error .assertion
    else findInInterfaces (forceDot lead) tail infs
  else findInInterfaces lead tail infs

/-- The first of a list of addresses, as `FindMyIP4Addr` returns it: without
its mask and with the port; `Err_BadInterface` for an empty list. -/
def firstAddr (tail : List Char) : List (List Char) → Run (List Char × GoErr)
  | [] => .ok ([], Err_BadInterface)
  | a :: _ => foundAddr tail a

/-- The addresses, in interface order, of the interfaces whose addresses can be
read, IPv6 addresses (those with a colon) left out, that satisfy `keep`. -/
def ip4Addrs (keep : Interface → List Char → Bool) (infs : List Interface) : List (List Char) :=
  (infs.map (fun i =>
    if i.err = .nil then i.addrs.filter (fun a => decide (':' ∉ a) && keep i a) else [])).flatten

/-- The test `FindMyIP4Addr` puts an address of an interface to: that it starts
with the filter, or, without a filter, that the interface is not called `lo`. -/
def selects (lead : List Char) (i : Interface) (a : List Char) : Bool :=
  if lead ≠ [] then lead.isPrefixOf a else decide (i.Name ≠ ['l', 'o'])

/-- Whether the text of an address begins with `127.`, the loopback network. -/
def isLoopbackAddr (a : List Char) : Bool :=
  ['1', '2', '7', '.'].isPrefixOf a

/-! ## Counting the calls on a listener -/

/-- What one operation on the listener `l` adds to the number of
`WaitOnConnection` calls that returned a connection (first component) and to
the number of `handleConn` calls that ran to their end (second component). -/
def Listener.tallyStep (op : ListenerOp) (l : Listener) : Nat × Nat :=
  match op with
  | .wait out =>
    match l.WaitOnConnection out with
    | .ok (_, _, err, _) => (if err = .nil then 1 else 0, 0)
    | .error _ => (0, 0)
  | .handled conn conNum res errPipe =>
    match Listener.handleConn conn conNum (fun _ _ => res) errPipe l with
    | .ok _ => (0, 1)
    | .error _ => (0, 0)
  | .request out res =>
    match l.WaitOnConnection out with
    | .ok (conn, conNum, err, l') =>
      if err = .nil then
        match Listener.handleConn conn conNum (fun _ _ => res) false l' with
        | .ok _ => (1, 1)
        | .error _ => (1, 0)
      else (0, 0)
    | .error _ => (0, 0)
  | .setTimeout _ => (0, 0)
  | .close => (0, 0)

/-- The number of `WaitOnConnection` calls that returned a connection and the
number of `handleConn` calls that ran to their end, over a sequence of
operations started on the listener `l`. -/
def Listener.tally : List ListenerOp → Listener → Nat × Nat
  | [], _ => (0, 0)
  | op :: ops, l =>
    match l.step op with
    | .error _ => l.tallyStep op
    | .ok l' =>
      ((l.tallyStep op).1 + (Listener.tally ops l').1,
        (l.tallyStep op).2 + (Listener.tally ops l').2)

/-- Whether an operation is one a caller makes who takes connections with
`WaitOnConnection` and closes them without `handleConn`: not a `handleConn` run and
not a `HandleARequest` call. -/
def ListenerOp.direct : ListenerOp → Bool
  | .handled _ _ _ _ => false
  | .request _ _ => false
  | _ => true

/-! ## Error normalisation: `ChkNetErr` -/

/-- The text `netErr` looks for in the `default:` arm. -/
theorem netErrDefault_closed (oerr : GoErr) :
    netErrDefault oerr "use of closed network connection" = Err_NoConnection := by
  simp [netErrDefault]

theorem netErrDefault_other (oerr : GoErr) (text : String)
    (h : text ≠ "use of closed network connection") : netErrDefault oerr text = oerr := by
  simp [netErrDefault, h]

/-- No sentinel of the package carries the text of a closed connection. -/
theorem NwkErr.text_ne_closed (k : NwkErr) : k.text ≠ "use of closed network connection" := by
  cases k <;> decide

/-- The operation and syscall layers are looked through: `netErr` depends on
the root cause only. -/
theorem netErr_rootCause (oerr e : GoErr) : netErr oerr e = netErr oerr (rootCause e) := by
  induction e with
  | opError tmo err ih => simpa [netErr, rootCause] using ih
  | syscallError err ih => simpa [netErr, rootCause] using ih
  | nil => rfl
  | eof => rfl
  | nwk k => rfl
  | errno n => rfl
  | other text net => rfl

/-- A network error that is no timeout is handed to `netErr`. -/
theorem ChkNetErr_of_netError_false (e : GoErr) (h : netError e = some false) :
    ChkNetErr e = netErr e (rootCause e) := by
  have h1 : e ≠ .nil := by rintro rfl; simp [netError] at h
  have h2 : e ≠ .eof := by rintro rfl; simp [netError] at h
  rw [← netErr_rootCause]
  simp [ChkNetErr, h1, h2, h]

/-- An error that is not a network error comes back as it is. -/
theorem ChkNetErr_of_netError_none (e : GoErr) (h : netError e = none) :
    ChkNetErr e = .ok e := by
  unfold ChkNetErr
  split
  · split
    · rfl
    · simp [h]
  · rfl

theorem ChkNetErr_nil : ChkNetErr .nil = .ok .nil := rfl

/-- What `netErr` returns is the outermost error or one of the sentinels it
maps to. -/
theorem netErr_result (oerr x e : GoErr) (h : netErr oerr x = .ok e) :
    e = oerr ∨ ∃ k, e = .nwk k ∧ k ≠ .BadData := by
  induction x with
  | opError tmo err ih => exact ih (by simpa [netErr] using h)
  | syscallError err ih => exact ih (by simpa [netErr] using h)
  | nil => simp [netErr] at h
  | errno n =>
    simp only [netErr] at h
    split_ifs at h <;> cases h
    · exact Or.inr ⟨_, rfl, by decide⟩
    · exact Or.inr ⟨_, rfl, by decide⟩
    · exact Or.inr ⟨_, rfl, by decide⟩
    · exact Or.inr ⟨_, rfl, by decide⟩
    · exact Or.inr ⟨_, rfl, by decide⟩
    · exact Or.inl rfl
  | eof =>
    simp only [netErr, netErrDefault] at h
    split_ifs at h <;> cases h
    · exact Or.inr ⟨_, rfl, by decide⟩
    · exact Or.inl rfl
  | nwk k =>
    simp only [netErr, netErrDefault] at h
    split_ifs at h <;> cases h
    · exact Or.inr ⟨_, rfl, by decide⟩
    · exact Or.inl rfl
  | other text net =>
    simp only [netErr, netErrDefault] at h
    split_ifs at h <;> cases h
    · exact Or.inr ⟨_, rfl, by decide⟩
    · exact Or.inl rfl

/-- What `ChkNetErr` returns is its argument or one of the sentinels it maps
to. -/
theorem ChkNetErr_result (x e : GoErr) (h : ChkNetErr x = .ok e) :
    e = x ∨ ∃ k, e = .nwk k ∧ k ≠ .BadData := by
  unfold ChkNetErr at h
  split_ifs at h with h1 h2
  · cases h; exact Or.inl rfl
  · split at h
    · split_ifs at h
      · cases h; exact Or.inr ⟨_, rfl, by decide⟩
      · exact netErr_result x x e h
    · cases h; exact Or.inl rfl
  · cases h; exact Or.inl rfl

theorem ChkNetErr_ne_nil (x e : GoErr) (h : ChkNetErr x = .ok e) (hx : x ≠ .nil) : e ≠ .nil := by
  rcases ChkNetErr_result x e h with rfl | ⟨k, rfl, _⟩
  · exact hx
  · simp

theorem ChkNetErr_eq_BadData (x : GoErr) (h : ChkNetErr x = .ok Err_BadData) :
    x = Err_BadData := by
  rcases ChkNetErr_result x _ h with h' | ⟨k, hk, hne⟩
  · exact h'.symm
  · simp only [Err_BadData, GoErr.nwk.injEq] at hk
    exact absurd hk.symm hne

/-- An error that `ChkNetErr` returned is left as it is by a second pass. -/
theorem ChkNetErr_again (x e : GoErr) (h : ChkNetErr x = .ok e) : ChkNetErr e = .ok e := by
  rcases ChkNetErr_result x e h with rfl | ⟨k, rfl, _⟩
  · exact h
  · rfl

/-- C6: a network error that is not a timeout and whose root cause, under any
number of `*net.OpError` and `*os.SyscallError` layers, is a listed errno or
the closed-connection text is mapped to the matching semantic error. -/
theorem ChkNetErr_recognised (e : GoErr) (h : netError e = some false) :
    (rootCause e = .errno ECONNREFUSED → ChkNetErr e = .ok Err_ConnectionRefused) ∧
    (rootCause e = .errno EHOSTUNREACH → ChkNetErr e = .ok Err_UnknownHost) ∧
    (rootCause e = .errno ECONNRESET → ChkNetErr e = .ok Err_ResetByPeer) ∧
    (rootCause e = .errno EPIPE → ChkNetErr e = .ok Err_ClosedRemotely) ∧
    (rootCause e = .errno EADDRINUSE → ChkNetErr e = .ok Err_AddressInUse) ∧
    (∀ net, rootCause e = .other "use of closed network connection" net →
      ChkNetErr e = .ok Err_NoConnection) := by
  rw [ChkNetErr_of_netError_false e h]
  refine ⟨?_, ?_, ?_, ?_, ?_, ?_⟩
  · intro hr; rw [hr]; rfl
  · intro hr; rw [hr]; rfl
  · intro hr; rw [hr]; rfl
  · intro hr; rw [hr]; rfl
  · intro hr; rw [hr]; rfl
  · intro net hr; rw [hr]; simp [netErr, netErrDefault_closed]

/-- C6 at concrete errors: a refused connection under two layers and a closed
connection under one. -/
theorem ChkNetErr_recognised_witness :
    netError (.opError false (.syscallError (.errno ECONNREFUSED))) = some false ∧
    ChkNetErr (.opError false (.syscallError (.errno ECONNREFUSED))) =
      .ok Err_ConnectionRefused ∧
    ChkNetErr (.opError false (.other "use of closed network connection" none)) =
      .ok Err_NoConnection :=
  ⟨rfl, (ChkNetErr_recognised (.opError false (.syscallError (.errno ECONNREFUSED))) rfl).1 rfl,
    (ChkNetErr_recognised (.opError false (.other "use of closed network connection" none))
      rfl).2.2.2.2.2 none rfl⟩

/-- C7: a network error whose `Timeout()` is true gives `Err_Timeout`, whatever
it wraps: the test comes before any unwrapping. -/
theorem ChkNetErr_timeout (e : GoErr) (h : netError e = some true) :
    ChkNetErr e = .ok Err_Timeout := by
  have h1 : e ≠ .nil := by rintro rfl; simp [netError] at h
  have h2 : e ≠ .eof := by rintro rfl; simp [netError] at h
  simp [ChkNetErr, h1, h2, h]

/-- C7 at a concrete error: a timed-out operation that wraps `ECONNREFUSED`. -/
theorem ChkNetErr_timeout_witness :
    netError (.opError true (.syscallError (.errno ECONNREFUSED))) = some true ∧
    ChkNetErr (.opError true (.syscallError (.errno ECONNREFUSED))) = .ok Err_Timeout :=
  ⟨rfl, ChkNetErr_timeout (.opError true (.syscallError (.errno ECONNREFUSED))) rfl⟩

/-- C8: on a `*net.OpError` whose wrapped `Err` is nil, `ChkNetErr` does not
return: `netErr` reaches `err.Error()` with a nil `err` and panics. -/
theorem ChkNetErr_panics_on_nil_inner :
    ChkNetErr (.opError false .nil) = .error .panic ∧
    ChkNetErr (.opError false (.syscallError .nil)) = .error .panic := by
  constructor <;> rfl

/-- C9: what the mapping does not recognise comes back unchanged: nil, `io.EOF`,
an error that is not a network error, and a network error without timeout whose
root cause is an unlisted errno or a value of another type with another text;
in the last two cases it is the outermost error that is returned. -/
theorem ChkNetErr_passthrough :
    ChkNetErr .nil = .ok .nil ∧
    ChkNetErr .eof = .ok .eof ∧
    (∀ e, netError e = none → ChkNetErr e = .ok e) ∧
    (∀ e n, netError e = some false → rootCause e = .errno n →
      n ≠ ECONNREFUSED → n ≠ EHOSTUNREACH → n ≠ ECONNRESET → n ≠ EPIPE → n ≠ EADDRINUSE →
      ChkNetErr e = .ok e) ∧
    (∀ e text net, netError e = some false → rootCause e = .other text net →
      text ≠ "use of closed network connection" → ChkNetErr e = .ok e) ∧
    (∀ e, netError e = some false → rootCause e = .eof → ChkNetErr e = .ok e) ∧
    (∀ e k, netError e = some false → rootCause e = .nwk k → ChkNetErr e = .ok e) := by
  refine ⟨rfl, rfl, ChkNetErr_of_netError_none, ?_, ?_, ?_, ?_⟩
  · intro e n h hr h1 h2 h3 h4 h5
    rw [ChkNetErr_of_netError_false e h, hr]
    simp [netErr, h1, h2, h3, h4, h5]
  · intro e text net h hr ht
    rw [ChkNetErr_of_netError_false e h, hr]
    simp [netErr, netErrDefault_other _ _ ht]
  · intro e h hr
    rw [ChkNetErr_of_netError_false e h, hr]
    simp [netErr, netErrDefault]
  · intro e k h hr
    rw [ChkNetErr_of_netError_false e h, hr]
    simp [netErr, netErrDefault_other _ _ (NwkErr.text_ne_closed k)]

/-- C9 at concrete errors: a plain error, an unlisted errno (`EIO`) under two
layers, and an unknown root under one layer. -/
theorem ChkNetErr_passthrough_witness :
    ChkNetErr (.other "no such file" none) = .ok (.other "no such file" none) ∧
    ChkNetErr (.opError false (.syscallError (.errno 5))) =
      .ok (.opError false (.syscallError (.errno 5))) ∧
    ChkNetErr (.opError false (.other "protocol error" none)) =
      .ok (.opError false (.other "protocol error" none)) :=
  ⟨ChkNetErr_passthrough.2.2.1 _ rfl,
    ChkNetErr_passthrough.2.2.2.1 _ 5 rfl rfl (by decide) (by decide) (by decide) (by decide)
      (by decide),
    ChkNetErr_passthrough.2.2.2.2.1 _ "protocol error" none rfl rfl (by decide)⟩

/-! ## Reading byte by byte -/

theorem flatten_asChunk (l : List Byte) (rest : List (Byte × List Byte)) :
    ((asChunk l ++ rest).map (fun c => c.1 :: c.2)).flatten =
      l ++ (rest.map (fun c => c.1 :: c.2)).flatten := by
  cases l <;> simp [asChunk]

/-- With a byte pending, `ReadByte` hands out the first pending byte without
error, whether it is buffered or still to be delivered. -/
theorem ReadByte_pending (s : Reader) (b : Byte) (rest : List Byte)
    (h : s.pending = b :: rest) :
    ∃ s', ReadByte s = .ok (b, .nil, s') ∧ s'.pending = rest ∧ s'.fail = s.fail := by
  obtain ⟨buf, chunks, fail⟩ := s
  cases buf with
  | cons x r =>
    simp only [Reader.pending, List.cons_append, List.cons.injEq] at h
    obtain ⟨rfl, h⟩ := h
    exact ⟨⟨r, chunks, fail⟩, rfl, h, rfl⟩
  | nil =>
    cases chunks with
    | nil => simp [Reader.pending] at h
    | cons c cs =>
      obtain ⟨c0, c⟩ := c
      simp only [Reader.pending, List.nil_append, List.map_cons, List.flatten_cons,
        List.cons_append, List.cons.injEq] at h
      obtain ⟨rfl, h⟩ := h
      refine ⟨⟨c.take 4095, asChunk (c.drop 4095) ++ cs, fail⟩, rfl, ?_, rfl⟩
      simp only [Reader.pending, flatten_asChunk, ← h]
      rw [← List.append_assoc, List.take_append_drop]

/-- With nothing pending, `ReadByte` reports the normalised error of the
connection (when that normalisation returns). -/
theorem ReadByte_exhausted (s : Reader) (e : GoErr) (h : s.pending = [])
    (hf : s.fail ≠ .nil) (he : ChkNetErr s.fail = .ok e) :
    ReadByte s = .ok (0, e, s) := by
  obtain ⟨buf, chunks, fail⟩ := s
  cases buf with
  | cons x r => simp [Reader.pending] at h
  | nil =>
    cases chunks with
    | cons c cs => simp [Reader.pending] at h
    | nil =>
      simp only at hf he
      simp [ReadByte, bufioReadByte, connRead, hf, he]

/-! ## `FindStart` -/

/-- While the bytes read differ from the first byte of the marker, the match
index of `FindStart` stays at zero and each byte costs one read. -/
theorem findStartLoop_skip (m : Byte) (M C : List Byte) (hC : m ∉ C) :
    ∀ (s : Reader) (rest : List Byte), s.pending = C ++ rest →
      ∃ s', s'.pending = rest ∧ s'.fail = s.fail ∧
        ∀ fuel, findStartLoop (m :: M) (C.length + fuel) 0 s = findStartLoop (m :: M) fuel 0 s' := by
  induction C with
  | nil =>
    intro s rest hs
    exact ⟨s, by simpa using hs, rfl, fun fuel => by simp⟩
  | cons c C ih =>
    intro s rest hs
    have hc : c ≠ m := fun h => hC (by simp [h])
    have hC' : m ∉ C := fun h => hC (by simp [h])
    obtain ⟨s1, h1, hp1, hf1⟩ := ReadByte_pending s c (C ++ rest) (by simpa using hs)
    obtain ⟨s', hp', hf', hloop⟩ := ih hC' s1 rest hp1
    refine ⟨s', hp', by rw [hf', hf1], fun fuel => ?_⟩
    rw [← hloop fuel]
    have : (c :: C).length + fuel = (C.length + fuel) + 1 := by simp; omega
    rw [this]
    simp [findStartLoop, h1, hc]

/-- Once the bytes pending are the rest of the marker, `FindStart` matches it
to the end and returns nil. -/
theorem findStartLoop_match (M : List Byte) :
    ∀ (k i : Nat) (s : Reader) (tail : List Byte), i + k = M.length →
      s.pending = M.drop i ++ tail →
      ∃ s', s'.pending = tail ∧ s'.fail = s.fail ∧
        ∀ fuel, k ≤ fuel → findStartLoop M fuel i s = .ok (.nil, s') := by
  intro k
  induction k with
  | zero =>
    intro i s tail hi hs
    have hi' : ¬ i < M.length := by omega
    refine ⟨s, ?_, rfl, fun fuel _ => ?_⟩
    · rw [hs, List.drop_eq_nil_of_le (by omega)]; rfl
    · cases fuel <;> simp [findStartLoop, hi']
  | succ k ih =>
    intro i s tail hi hs
    have hi' : i < M.length := by omega
    rw [List.drop_eq_getElem_cons hi'] at hs
    obtain ⟨s1, h1, hp1, hf1⟩ := ReadByte_pending s M[i] (M.drop (i + 1) ++ tail)
      (by rw [hs]; rfl)
    obtain ⟨s', hp', hf', hloop⟩ := ih (i + 1) s1 tail (by omega) hp1
    refine ⟨s', hp', by rw [hf', hf1], fun fuel hfuel => ?_⟩
    obtain ⟨fuel, rfl⟩ : ∃ f, fuel = f + 1 := ⟨fuel - 1, by omega⟩
    rw [← hloop fuel (by omega)]
    simp [findStartLoop, hi', h1]

/-- A marker whose first byte does not occur in the bytes in front of it is
found right where it stands: `FindStart` returns nil with the bytes behind the
marker pending. -/
theorem findStartLoop_found (M C tail : List Byte) (s : Reader) (fuel : Nat) (hM : M ≠ [])
    (hC : ∀ m ∈ M.head?, m ∉ C) (hs : s.pending = C ++ M ++ tail)
    (hfuel : C.length + M.length ≤ fuel) :
    ∃ s', findStartLoop M fuel 0 s = .ok (.nil, s') ∧ s'.pending = tail ∧ s'.fail = s.fail := by
  obtain ⟨m, M', rfl⟩ := List.exists_cons_of_ne_nil hM
  have hm : m ∉ C := hC m (by simp)
  obtain ⟨s1, hp1, hf1, hskip⟩ := findStartLoop_skip m M' C hm s ((m :: M') ++ tail)
    (by simpa using hs)
  obtain ⟨s', hp', hf', hmatch⟩ := findStartLoop_match (m :: M') (m :: M').length 0 s1 tail
    (by simp) (by simpa using hp1)
  refine ⟨s', ?_, hp', by rw [hf', hf1]⟩
  obtain ⟨f, rfl⟩ : ∃ f, fuel = C.length + f := ⟨fuel - C.length, by omega⟩
  rw [hskip f]
  exact hmatch f (by omega)

/-- C1 (amended): for a marker `M` of length at least one, a content `C` in
which the first byte of `M` does not occur and any tail, `FindStart M` on
`C ++ M ++ tail` returns nil and leaves exactly `tail` pending, so it has
consumed `len(C) + len(M)` bytes. -/
theorem FindStart_consumes (M C tail : List Byte) (s : Reader) (fuel : Nat) (hM : M ≠ [])
    (hC : ∀ m ∈ M.head?, m ∉ C) (hs : s.pending = C ++ M ++ tail)
    (hfuel : C.length + M.length ≤ fuel) :
    ∃ s', FindStart fuel M s = .ok (.nil, s') ∧ s'.pending = tail ∧ s'.fail = s.fail := by
  unfold FindStart
  exact findStartLoop_found M C tail s fuel hM hC hs hfuel

/-- The amended C1 at a concrete stream: three junk bytes, the marker `>>`, one
byte behind it, delivered in two pieces. -/
theorem FindStart_consumes_witness :
    ∃ s', FindStart 5 [62, 62] ⟨[], [(97, [98]), (99, [62, 62, 7])], .eof⟩ = .ok (.nil, s') ∧
      s'.pending = [7] ∧ s'.fail = .eof :=
  FindStart_consumes [62, 62] [97, 98, 99] [7] ⟨[], [(97, [98]), (99, [62, 62, 7])], .eof⟩ 5
    (by simp) (by simp) (by simp [Reader.pending]) (by simp)

/-- C1 (as stated) fails: the content `[1]` does not contain the marker
`[1, 1]`, yet on `[1] ++ [1, 1]` the marker is matched after two bytes and one
byte of the stream is left pending in front of the (empty) tail. -/
theorem FindStart_consumes_counterexample :
    ¬ ([1, 1] : List Byte) <:+: [1] ∧
    (⟨[], asChunk ([1] ++ [1, 1] ++ []), .eof⟩ : Reader).pending = [1] ++ [1, 1] ++ [] ∧
    FindStart 3 [1, 1] ⟨[], asChunk ([1] ++ [1, 1] ++ []), .eof⟩ = .ok (.nil, ⟨[1], [], .eof⟩) ∧
    (⟨[1], [], .eof⟩ : Reader).pending ≠ [] := by
  decide

/-! ## `ReadRecord` -/

/-- While the bytes read differ from the first byte of the end marker, the match
index of `ReadRecord` stays at zero and each byte is appended to the data. -/
theorem readRecordLoop_gather (e : Byte) (E S : List Byte) (hS : e ∉ S) :
    ∀ (s : Reader) (rest : List Byte), s.pending = S ++ rest →
      ∃ s', s'.pending = rest ∧ s'.fail = s.fail ∧
        ∀ fuel data, readRecordLoop (e :: E) (S.length + fuel) 0 data s =
          readRecordLoop (e :: E) fuel 0 (data ++ S) s' := by
  induction S with
  | nil =>
    intro s rest hs
    exact ⟨s, by simpa using hs, rfl, fun fuel data => by simp⟩
  | cons c S ih =>
    intro s rest hs
    have hc : c ≠ e := fun h => hS (by simp [h])
    have hS' : e ∉ S := fun h => hS (by simp [h])
    obtain ⟨s1, h1, hp1, hf1⟩ := ReadByte_pending s c (S ++ rest) (by simpa using hs)
    obtain ⟨s', hp', hf', hloop⟩ := ih hS' s1 rest hp1
    refine ⟨s', hp', by rw [hf', hf1], fun fuel data => ?_⟩
    have hlen : (c :: S).length + fuel = (S.length + fuel) + 1 := by simp; omega
    have hdata : data ++ c :: S = data ++ [c] ++ S := by simp
    rw [hlen, hdata, ← hloop fuel (data ++ [c])]
    simp [readRecordLoop, h1, hc]

/-- Once the bytes pending are the rest of the end marker, `ReadRecord` matches
it to the end and returns the data gathered, without the marker. -/
theorem readRecordLoop_match (E : List Byte) :
    ∀ (k i : Nat) (s : Reader) (tail : List Byte), i + k = E.length →
      s.pending = E.drop i ++ tail →
      ∃ s', s'.pending = tail ∧ s'.fail = s.fail ∧
        ∀ fuel data, k ≤ fuel → readRecordLoop E fuel i data s = .ok (data, .nil, s') := by
  intro k
  induction k with
  | zero =>
    intro i s tail hi hs
    have hi' : ¬ i < E.length := by omega
    refine ⟨s, ?_, rfl, fun fuel data _ => ?_⟩
    · rw [hs, List.drop_eq_nil_of_le (by omega)]; rfl
    · cases fuel <;> simp [readRecordLoop, hi']
  | succ k ih =>
    intro i s tail hi hs
    have hi' : i < E.length := by omega
    rw [List.drop_eq_getElem_cons hi'] at hs
    obtain ⟨s1, h1, hp1, hf1⟩ := ReadByte_pending s E[i] (E.drop (i + 1) ++ tail)
      (by rw [hs]; rfl)
    obtain ⟨s', hp', hf', hloop⟩ := ih (i + 1) s1 tail (by omega) hp1
    refine ⟨s', hp', by rw [hf', hf1], fun fuel data hfuel => ?_⟩
    obtain ⟨fuel, rfl⟩ : ∃ f, fuel = f + 1 := ⟨fuel - 1, by omega⟩
    rw [← hloop fuel data (by omega)]
    simp [readRecordLoop, hi', h1]

/-- From its current position, `ReadRecord`'s scan for the end marker returns a
payload free of the marker's first byte and stops right after the marker. -/
theorem readRecordLoop_payload (E S tail : List Byte) (s : Reader) (fuel : Nat) (hE : E ≠ [])
    (hS : ∀ e ∈ E.head?, e ∉ S) (hs : s.pending = S ++ E ++ tail)
    (hfuel : S.length + E.length ≤ fuel) :
    ∃ s', readRecordLoop E fuel 0 [] s = .ok (S, .nil, s') ∧ s'.pending = tail ∧
      s'.fail = s.fail := by
  obtain ⟨e, E', rfl⟩ := List.exists_cons_of_ne_nil hE
  have he : e ∉ S := hS e (by simp)
  obtain ⟨s1, hp1, hf1, hgather⟩ := readRecordLoop_gather e E' S he s ((e :: E') ++ tail)
    (by simpa using hs)
  obtain ⟨s', hp', hf', hmatch⟩ := readRecordLoop_match (e :: E') (e :: E').length 0 s1 tail
    (by simp) (by simpa using hp1)
  refine ⟨s', ?_, hp', by rw [hf', hf1]⟩
  obtain ⟨f, rfl⟩ : ∃ f, fuel = S.length + f := ⟨fuel - S.length, by omega⟩
  rw [hgather f []]
  simpa using hmatch f S (by omega)

/-- C2 (amended): for a non-empty end marker `E`, a start marker whose first
byte does not occur in the junk prefix (with no junk at all when the start
marker is empty) and a payload `S` in which the first byte of `E` does not
occur, `ReadRecord(start, E)` on `junk ++ start ++ S ++ E` returns exactly `S`
with a nil error and stops right after `E`. -/
theorem ReadRecord_roundtrip (start E junk S tail : List Byte) (s : Reader) (fuel : Nat)
    (hE : E ≠ []) (hjunk : ∀ m ∈ start.head?, m ∉ junk) (hstart : start = [] → junk = [])
    (hS : ∀ e ∈ E.head?, e ∉ S) (hs : s.pending = junk ++ start ++ S ++ E ++ tail)
    (hfuel : junk.length + start.length + S.length + E.length ≤ fuel) :
    ∃ s', ReadRecord fuel start E s = .ok (S, .nil, s') ∧ s'.pending = tail ∧
      s'.fail = s.fail := by
  have hlen : E.length ≠ 0 := by simpa using hE
  have hfind : ∃ s1, FindStart fuel start s = .ok (.nil, s1) ∧ s1.pending = S ++ E ++ tail ∧
      s1.fail = s.fail := by
    cases start with
    | nil =>
      have hj : junk = [] := hstart rfl
      subst hj
      refine ⟨s, ?_, by simpa using hs, rfl⟩
      cases fuel <;> simp [FindStart, findStartLoop]
    | cons m M =>
      exact findStartLoop_found (m :: M) junk (S ++ E ++ tail) s fuel (by simp) hjunk
        (by simpa using hs) (by omega)
  obtain ⟨s1, h1, hp1, hf1⟩ := hfind
  obtain ⟨s', h2, hp', hf'⟩ := readRecordLoop_payload E S tail s1 fuel hE hS hp1 (by omega)
  refine ⟨s', ?_, hp', by rw [hf', hf1]⟩
  simp [ReadRecord, hlen, h1, h2]

/-- The amended C2 at a concrete stream: `a>>`, the payload `[1, 2]`, `<<`, one
byte behind, delivered in two pieces. -/
theorem ReadRecord_roundtrip_witness :
    ∃ s', ReadRecord 9 [62, 62] [60, 60] ⟨[], [(97, [62, 62, 1]), (2, [60, 60, 98])], .eof⟩ =
        .ok ([1, 2], .nil, s') ∧ s'.pending = [98] ∧ s'.fail = .eof :=
  ReadRecord_roundtrip [62, 62] [60, 60] [97] [1, 2] [98]
    ⟨[], [(97, [62, 62, 1]), (2, [60, 60, 98])], .eof⟩ 9
    (by simp) (by simp) (by simp) (by simp) (by simp [Reader.pending]) (by simp)

/-- C2 (as stated) fails: the payload `[1]` does not contain the end marker
`[1, 1]`, yet on `[1] ++ [1, 1]` (no junk, no start marker) the marker is
matched on the first two bytes and the record returned is empty. -/
theorem ReadRecord_roundtrip_counterexample :
    ¬ ([1, 1] : List Byte) <:+: [1] ∧
    (⟨[], asChunk ([] ++ [] ++ [1] ++ [1, 1]), .eof⟩ : Reader).pending =
      [] ++ [] ++ [1] ++ [1, 1] ∧
    ReadRecord 3 [] [1, 1] ⟨[], asChunk ([] ++ [] ++ [1] ++ [1, 1]), .eof⟩ =
      .ok ([], .nil, ⟨[1], [], .eof⟩) := by
  decide

/-! ## `ReadSizedRecord` -/

/-- C3: a payload that the connection delivers in two pieces is not returned
whole.  `ReadSizedRecord(start, 2)` on `start ++ [1, 2]` returns `[1]` with a
nil error when the second payload byte arrives in a later delivery, both
without a start marker and after the start marker `[62]`. -/
theorem ReadSizedRecord_short_read :
    (⟨[], [(1, []), (2, [])], .eof⟩ : Reader).pending = [] ++ [1, 2] ∧
    ReadSizedRecord 0 [] 2 ⟨[], [(1, []), (2, [])], .eof⟩ =
      .ok ([1], .nil, ⟨[], [(2, [])], .eof⟩) ∧
    (⟨[], [(62, [1]), (2, [])], .eof⟩ : Reader).pending = [62] ++ [1, 2] ∧
    ReadSizedRecord 1 [62] 2 ⟨[], [(62, [1]), (2, [])], .eof⟩ =
      .ok ([1], .nil, ⟨[], [(2, [])], .eof⟩) := by
  decide

/-! ## The byte encoding of structured values -/

theorem leBytes_length (w v : Nat) : (leBytes w v).length = w := by
  induction w generalizing v with
  | zero => rfl
  | succ w ih => simp [leBytes, ih]

theorem leValue_leBytes (w v : Nat) : leValue (leBytes w v) = v % 256 ^ w := by
  induction w generalizing v with
  | zero => simp [leBytes, leValue, Nat.mod_one]
  | succ w ih =>
    have hval : (Fin.ofNat (v % 256) : Byte).val = v % 256 := by
      show v % 256 % 256 = v % 256
      exact Nat.mod_mod _ _
    rw [leBytes, leValue, ih, hval, pow_succ', Nat.mod_mul]

theorem putUint_length (ord : ByteOrder) (w v : Nat) : (putUint ord w v).length = w := by
  cases ord <;> simp [putUint, leBytes_length]

/-- A scalar that fits its width is read back from its bytes, in either byte
order. -/
theorem getUint_putUint (ord : ByteOrder) (w v : Nat) (h : v < 256 ^ w) :
    getUint ord (putUint ord w v) = v := by
  cases ord <;> simp [getUint, putUint, leValue_leBytes, Nat.mod_eq_of_lt h]

theorem encodeElems_length (ord : ByteOrder) (w : Nat) (vs : List Nat) :
    (encodeElems ord w vs).length = w * vs.length := by
  induction vs with
  | nil => rfl
  | cons v vs ih => simp [encodeElems, putUint_length, ih, Nat.mul_succ, Nat.add_comm]

theorem encode_length (ord : ByteOrder) (v : StructVal) :
    (encode ord v).length = binarySize v := by
  induction v with
  | nil => rfl
  | cons f fs ih =>
    simp only [encode, List.length_append, encodeElems_length, ih, binarySize, List.map_cons,
      List.sum_cons]

theorem decodeElems_encodeElems (ord : ByteOrder) (w : Nat) (vs : List Nat) (rest : List Byte)
    (h : ∀ v ∈ vs, v < 256 ^ w) :
    decodeElems ord w vs.length (encodeElems ord w vs ++ rest) = (vs, rest) := by
  induction vs with
  | nil => rfl
  | cons v vs ih =>
    have hv : v < 256 ^ w := h v (by simp)
    have hvs : ∀ x ∈ vs, x < 256 ^ w := fun x hx => h x (by simp [hx])
    have hlen := putUint_length ord w v
    have htake : (putUint ord w v ++ (encodeElems ord w vs ++ rest)).take w = putUint ord w v := by
      rw [List.take_append_of_le_length (by omega), List.take_of_length_le (by omega)]
    have hdrop : (putUint ord w v ++ (encodeElems ord w vs ++ rest)).drop w =
        encodeElems ord w vs ++ rest := by
      rw [List.drop_append_of_le_length (by omega), List.drop_of_length_le (by omega)]
      rfl
    simp only [List.length_cons, encodeElems, List.append_assoc, decodeElems, htake, hdrop,
      ih hvs, getUint_putUint ord w v hv]

/-- Decoding into a target of the same layout gives back the value encoded. -/
theorem decode_encode (ord : ByteOrder) (v : StructVal) (hv : WellTyped v) :
    ∀ (w : StructVal) (rest : List Byte), SameLayout w v →
      decode ord w (encode ord v ++ rest) = v := by
  induction v with
  | nil =>
    intro w rest hl
    cases w with
    | nil => rfl
    | cons g gs => simp [SameLayout] at hl
  | cons f fs ih =>
    intro w rest hl
    cases w with
    | nil => simp [SameLayout] at hl
    | cons g gs =>
      simp only [SameLayout, List.map_cons, List.cons.injEq, Prod.mk.injEq] at hl
      obtain ⟨⟨hk, hn⟩, hl'⟩ := hl
      have hf : f.WellTyped := hv f (by simp)
      have hfs : WellTyped fs := fun x hx => hv x (by simp [hx])
      obtain ⟨fk, fe⟩ := f
      simp only at hk hn
      simp only [decode, encode, List.append_assoc, hk, hn,
        decodeElems_encodeElems ord fk.size fe _ hf, ih hfs gs rest hl']

theorem binarySize_of_sameLayout (w v : StructVal) (h : SameLayout w v) :
    binarySize w = binarySize v := by
  have : w.map (fun f => f.kind.size * f.elems.length) =
      v.map (fun f => f.kind.size * f.elems.length) := by
    have h' := congrArg (List.map (fun p : Scalar × Nat => p.1.size * p.2)) h
    simpa [SameLayout, List.map_map, Function.comp_def] using h'
  simp [binarySize, this]

theorem Scalar.size_pos (k : Scalar) : 0 < k.size := by
  cases k <;> decide

/-- A value of encoded size zero is determined by its layout. -/
theorem eq_of_sameLayout_of_size_zero :
    ∀ (w v : StructVal), SameLayout w v → binarySize v = 0 → w = v := by
  intro w v
  induction v generalizing w with
  | nil =>
    intro hl _
    cases w with
    | nil => rfl
    | cons g gs => simp [SameLayout] at hl
  | cons f fs ih =>
    intro hl hz
    cases w with
    | nil => simp [SameLayout] at hl
    | cons g gs =>
      simp only [SameLayout, List.map_cons, List.cons.injEq, Prod.mk.injEq] at hl
      obtain ⟨⟨hk, hn⟩, hl'⟩ := hl
      simp only [binarySize, List.map_cons, List.sum_cons, Nat.add_eq_zero, mul_eq_zero] at hz
      obtain ⟨hz1, hz2⟩ := hz
      have hfe : f.elems.length = 0 := by
        rcases hz1 with h | h
        · exact absurd h (Nat.pos_iff_ne_zero.mp (Scalar.size_pos f.kind))
        · exact h
      obtain ⟨fk, fe⟩ := f
      obtain ⟨gk, ge⟩ := g
      simp only at hk hn hfe
      have h1 : fe = [] := List.length_eq_zero.mp hfe
      have h2 : ge = [] := List.length_eq_zero.mp (by rw [hn, hfe])
      rw [ih gs hl' hz2, hk, h1, h2]

/-! ## `ReadStruct` and `WriteStruct` -/

/-- What one `Read` of `bufio.Reader` does: the bytes it yields are the first
of those at hand, at most as many as asked for, and an error comes without
bytes and is the one the connection reports. -/
theorem bufioRead_spec (n : Nat) (s : Reader) :
    ∃ data raw s', bufioRead n s = (data, raw, s') ∧ s.pending = data ++ s'.pending ∧
      data.length ≤ n ∧ s'.fail = s.fail ∧ (raw ≠ .nil → raw = s.fail ∧ data = []) ∧
      data = s.ready.take n := by
  obtain ⟨buf, chunks, fail⟩ := s
  by_cases hn : n = 0
  · exact ⟨[], .nil, ⟨buf, chunks, fail⟩, by simp [bufioRead, hn], rfl, by simp, rfl, by simp,
      by simp [hn]⟩
  cases buf with
  | cons b r =>
    refine ⟨(b :: r).take n, .nil, ⟨(b :: r).drop n, chunks, fail⟩, by simp [bufioRead, hn], ?_,
      by simp, rfl, by simp, rfl⟩
    simp only [Reader.pending]
    rw [← List.append_assoc, List.take_append_drop]
  | nil =>
    cases chunks with
    | nil =>
      refine ⟨[], fail, ⟨[], [], fail⟩, ?_, rfl, by simp, rfl, fun _ => ⟨rfl, rfl⟩,
        by simp [Reader.ready]⟩
      by_cases hbig : defaultBufSize ≤ n <;> simp [bufioRead, hn, hbig, connRead]
    | cons c cs =>
      obtain ⟨c0, c⟩ := c
      by_cases hbig : defaultBufSize ≤ n
      · refine ⟨(c0 :: c).take n, .nil, ⟨[], asChunk ((c0 :: c).drop n) ++ cs, fail⟩,
          by simp [bufioRead, hn, hbig, connRead], ?_, by simp, rfl, by simp, rfl⟩
        simp only [Reader.pending, flatten_asChunk, List.nil_append, List.map_cons,
          List.flatten_cons]
        rw [← List.append_assoc, List.take_append_drop]
      · have hbig' : ¬ 4096 ≤ n := hbig
        refine ⟨(c0 :: c.take 4095).take n, .nil,
          ⟨(c0 :: c.take 4095).drop n, asChunk (c.drop 4095) ++ cs, fail⟩, ?_, ?_, by simp, rfl,
          by simp, ?_⟩
        · simp [bufioRead, hn, hbig', connRead, defaultBufSize]
        · simp only [Reader.pending, flatten_asChunk, List.nil_append, List.map_cons,
            List.flatten_cons]
          rw [← List.append_assoc (List.take n _), List.take_append_drop]
          simp only [List.cons_append, List.cons.injEq, true_and]
          rw [← List.append_assoc, List.take_append_drop]
        · have h1 : c0 :: c.take 4095 = (c0 :: c).take 4096 := rfl
          have h2 : min n 4096 = n := by omega
          simp only [Reader.ready, h1, List.take_take, h2]

/-- With `n > 0` bytes at hand, a `Read` of length `n` yields exactly these,
without error. -/
theorem bufioRead_ready (bytes t : List Byte) (s : Reader) (hne : bytes ≠ [])
    (h : s.ready = bytes ++ t) :
    ∃ s', bufioRead bytes.length s = (bytes, .nil, s') ∧ s.pending = bytes ++ s'.pending ∧
      s'.fail = s.fail := by
  obtain ⟨data, raw, s', hread, hpend, _, hfail, herr, hdata⟩ := bufioRead_spec bytes.length s
  have hd : data = bytes := by rw [hdata, h, List.take_left]
  subst hd
  have hraw : raw = .nil := by
    by_contra hc
    exact hne (herr hc).2
  subst hraw
  exact ⟨s', hread, hpend, hfail⟩

/-- With the encoding at hand for one read, a fixed-size struct value written
by `WriteStruct` is read back by `ReadStruct`, for either byte order:
`WriteStruct` sends the encoding of the value, `binary.Size` bytes, in one
write; when these bytes are buffered or come in one delivery, `ReadStruct` into
a target of the same layout succeeds, consumes exactly these bytes and leaves
the target equal to the value, field for field. -/
theorem ReadStruct_WriteStruct (ord : ByteOrder) (v w : StructVal) (c : Conn) (s : Reader)
    (hv : WellTyped v) (hl : SameLayout w v) (hopen : c.closed = false) (hwr : c.wfail = .nil)
    (hready : encode ord v <+: s.ready) :
    WriteStruct ord v c = .ok (.nil, { c with sent := c.sent ++ [encode ord v] }) ∧
    (encode ord v).length = binarySize v ∧
    ∃ s', ReadStruct ord w s = .ok (.nil, v, s') ∧ s.pending = encode ord v ++ s'.pending ∧
      s'.fail = s.fail := by
  refine ⟨?_, encode_length ord v, ?_⟩
  · simp [WriteStruct, Write, connWrite, hopen, hwr, ChkNetErr_nil]
  · have hsz : binarySize w = binarySize v := binarySize_of_sameLayout w v hl
    by_cases hz : binarySize v = 0
    · have hnil : encode ord v = [] := List.length_eq_zero.mp (by rw [encode_length, hz])
      have hwv : w = v := eq_of_sameLayout_of_size_zero w v hl hz
      exact ⟨s, by simp [ReadStruct, hwv, hz], by simp [hnil], rfl⟩
    · have hne : encode ord v ≠ [] := by
        intro h
        exact hz (by rw [← encode_length ord v, h]; rfl)
      obtain ⟨t, ht⟩ := hready
      obtain ⟨s', hread, hpend, hfail⟩ := bufioRead_ready (encode ord v) t s hne ht.symm
      rw [encode_length] at hread
      have hdec : decode ord w (encode ord v) = v := by
        simpa using decode_encode ord v hv w [] hl
      exact ⟨s', by simp [ReadStruct, hsz, hz, Read, hread, ChkNetErr_nil, encode_length,
        binaryRead, hdec], hpend, hfail⟩

/-- The round trip at a concrete value, little-endian, with one more byte in
the same delivery. -/
theorem ReadStruct_WriteStruct_witness :
    WriteStruct .LittleEndian [⟨.u16, [0x0102]⟩, ⟨.f32, [0x3f800000]⟩, ⟨.u8, [7, 8]⟩]
        ⟨[], .nil, .nil, false⟩ =
      .ok (.nil, ⟨[[2, 1, 0, 0, 0x80, 0x3f, 7, 8]], .nil, .nil, false⟩) ∧
    ∃ s', ReadStruct .LittleEndian [⟨.u16, [0]⟩, ⟨.f32, [0]⟩, ⟨.u8, [0, 0]⟩]
        ⟨[], [(2, [1, 0, 0, 0x80, 0x3f, 7, 8, 9])], .eof⟩ =
      .ok (.nil, [⟨.u16, [0x0102]⟩, ⟨.f32, [0x3f800000]⟩, ⟨.u8, [7, 8]⟩], s') :=
  have h := ReadStruct_WriteStruct .LittleEndian
    [⟨.u16, [0x0102]⟩, ⟨.f32, [0x3f800000]⟩, ⟨.u8, [7, 8]⟩]
    [⟨.u16, [0]⟩, ⟨.f32, [0]⟩, ⟨.u8, [0, 0]⟩] ⟨[], .nil, .nil, false⟩
    ⟨[], [(2, [1, 0, 0, 0x80, 0x3f, 7, 8, 9])], .eof⟩
    (by simp [WellTyped, FieldVal.WellTyped, Scalar.size]) (by simp [SameLayout]) rfl rfl
    ⟨[9], by decide⟩
  ⟨h.1, h.2.2.imp fun _ hs => hs.1⟩

/-- C4: the bytes that `WriteStruct` sends for a value are not read back by
`ReadStruct` when the connection delivers them in two pieces.  For a `uint16`
field, `WriteStruct` sends `[2, 1]`; with `[2]` and `[1]` delivered one after
the other, `ReadStruct` takes the first byte only and returns `Err_BadData`,
leaving the target as it was; with both bytes in one delivery it returns nil and
the value. -/
theorem ReadStruct_split_delivery :
    WriteStruct .LittleEndian [⟨.u16, [0x0102]⟩] ⟨[], .nil, .nil, false⟩ =
      .ok (.nil, ⟨[[2, 1]], .nil, .nil, false⟩) ∧
    (⟨[], [(2, []), (1, [])], .eof⟩ : Reader).pending = [2, 1] ∧
    ReadStruct .LittleEndian [⟨.u16, [0]⟩] ⟨[], [(2, []), (1, [])], .eof⟩ =
      .ok (Err_BadData, [⟨.u16, [0]⟩], ⟨[], [(1, [])], .eof⟩) ∧
    ReadStruct .LittleEndian [⟨.u16, [0]⟩] ⟨[], [(2, [1])], .eof⟩ =
      .ok (.nil, [⟨.u16, [0x0102]⟩], ⟨[], [], .eof⟩) := by
  decide

/-- C5 (amended): for a target of positive encoded size `n`, `ReadStruct`
issues one read for `n` bytes and consumes exactly the bytes that read yields,
at most `n`.  When the read reports no error, `ReadStruct` decodes the target
and returns nil if `n` bytes came, and returns `Err_BadData`, leaving the
target alone, if fewer came.  When the read reports an error, `ReadStruct`
returns that error normalised, which is not `Err_BadData`. -/
theorem ReadStruct_outcome (ord : ByteOrder) (i : StructVal) (s : Reader)
    (hn : 0 < binarySize i) :
    ∃ data raw s', bufioRead (binarySize i) s = (data, raw, s') ∧
      s.pending = data ++ s'.pending ∧ data.length ≤ binarySize i ∧
      (raw = .nil → data.length = binarySize i →
        ReadStruct ord i s = .ok (.nil, decode ord i data, s')) ∧
      (raw = .nil → data.length < binarySize i →
        ReadStruct ord i s = .ok (Err_BadData, i, s')) ∧
      (raw ≠ .nil → ∀ e, ChkNetErr raw = .ok e →
        ReadStruct ord i s = .ok (e, i, s') ∧ (raw ≠ Err_BadData → e ≠ Err_BadData)) ∧
      (raw ≠ .nil → ∀ a, ChkNetErr raw = .error a → ReadStruct ord i s = .error a) := by
  obtain ⟨data, raw, s', hread, hpend, hlen, _, _, _⟩ := bufioRead_spec (binarySize i) s
  have hn' : binarySize i ≠ 0 := by omega
  refine ⟨data, raw, s', hread, hpend, hlen, ?_, ?_, ?_, ?_⟩
  · intro hraw hfull
    subst hraw
    simp [ReadStruct, hn', Read, hread, ChkNetErr_nil, hfull, binaryRead]
  · intro hraw hshort
    subst hraw
    have hne : data.length ≠ binarySize i := by omega
    simp [ReadStruct, hn', Read, hread, ChkNetErr_nil, hne]
  · intro hraw e he
    have he1 : e ≠ .nil := ChkNetErr_ne_nil raw e he hraw
    have he2 : ChkNetErr e = .ok e := ChkNetErr_again raw e he
    refine ⟨by simp [ReadStruct, hn', Read, hread, he, he1, he2], ?_⟩
    intro hbad hebad
    rw [hebad] at he
    exact hbad (ChkNetErr_eq_BadData raw he)
  · intro _ a ha
    simp [ReadStruct, hn', Read, hread, ha]

/-- The amended C5 at a two-byte target with a single byte buffered. -/
theorem ReadStruct_outcome_witness :
    ∃ data raw s', bufioRead (binarySize [⟨.u16, [0]⟩]) ⟨[1], [], .eof⟩ = (data, raw, s') ∧
      (⟨[1], [], .eof⟩ : Reader).pending = data ++ s'.pending ∧
      data.length ≤ binarySize [⟨.u16, [0]⟩] ∧
      (raw = .nil → data.length = binarySize [⟨.u16, [0]⟩] →
        ReadStruct .BigEndian [⟨.u16, [0]⟩] ⟨[1], [], .eof⟩ =
          .ok (.nil, decode .BigEndian [⟨.u16, [0]⟩] data, s')) ∧
      (raw = .nil → data.length < binarySize [⟨.u16, [0]⟩] →
        ReadStruct .BigEndian [⟨.u16, [0]⟩] ⟨[1], [], .eof⟩ =
          .ok (Err_BadData, [⟨.u16, [0]⟩], s')) ∧
      (raw ≠ .nil → ∀ e, ChkNetErr raw = .ok e →
        ReadStruct .BigEndian [⟨.u16, [0]⟩] ⟨[1], [], .eof⟩ = .ok (e, [⟨.u16, [0]⟩], s') ∧
          (raw ≠ Err_BadData → e ≠ Err_BadData)) ∧
      (raw ≠ .nil → ∀ a, ChkNetErr raw = .error a →
        ReadStruct .BigEndian [⟨.u16, [0]⟩] ⟨[1], [], .eof⟩ = .error a) :=
  ReadStruct_outcome .BigEndian [⟨.u16, [0]⟩] ⟨[1], [], .eof⟩ (by decide)

/-- C5 (as stated) fails: on a connection that is at its end the read for a
two-byte target yields no byte, fewer than two, and `ReadStruct` returns
`io.EOF`, not `Err_BadData`. -/
theorem ReadStruct_outcome_counterexample :
    0 < binarySize [⟨.u16, [0]⟩] ∧
    (⟨[], [], .eof⟩ : Reader).pending = [] ∧
    ReadStruct .BigEndian [⟨.u16, [0]⟩] ⟨[], [], .eof⟩ =
      .ok (.eof, [⟨.u16, [0]⟩], ⟨[], [], .eof⟩) ∧
    GoErr.eof ≠ Err_BadData := by
  decide

/-! ## The buffered-write variant -/

/-- C10: the buffered variant hands out the raw error of a failed flush.  With
a byte written into the buffer and a connection whose write runs into its
deadline, `Flush` and `Close` return the `*net.OpError` itself, where
`ChkNetErr` of it is `Err_Timeout`; the unbuffered `Write` on the same
connection returns `Err_Timeout`. -/
theorem readBufWriter_Flush_raw :
    readBufWriter.WriteString [120] (newReadBufWriter ⟨[], errDeadline, .nil, false⟩) =
      .ok (.nil, ⟨⟨[], errDeadline, .nil, false⟩, [120], .nil⟩) ∧
    readBufWriter.Flush ⟨⟨[], errDeadline, .nil, false⟩, [120], .nil⟩ =
      (errDeadline, ⟨⟨[], errDeadline, .nil, false⟩, [120], errDeadline⟩) ∧
    readBufWriter.Close ⟨⟨[], errDeadline, .nil, false⟩, [120], .nil⟩ =
      .ok (errDeadline, ⟨⟨[], errDeadline, .nil, true⟩, [120], errDeadline⟩) ∧
    ChkNetErr errDeadline = .ok Err_Timeout ∧
    errDeadline ≠ Err_Timeout ∧
    Write [120] ⟨[], errDeadline, .nil, false⟩ =
      .ok (Err_Timeout, ⟨[], errDeadline, .nil, false⟩) := by
  decide

/-! ## `ReadBytes` and `ReadString` -/

theorem cutAt_none (delim : Byte) (l : List Byte) (h : delim ∉ l) : cutAt delim l = none := by
  induction l with
  | nil => rfl
  | cons b bs ih =>
    have hb : b ≠ delim := fun hb => h (by simp [hb])
    have hbs : delim ∉ bs := fun hbs => h (by simp [hbs])
    simp [cutAt, hb, ih hbs]

theorem cutAt_first (delim : Byte) (line rest : List Byte) (h : delim ∉ line) :
    cutAt delim (line ++ delim :: rest) = some (line ++ [delim], rest) := by
  induction line with
  | nil => simp [cutAt]
  | cons b bs ih =>
    have hb : b ≠ delim := fun hb => h (by simp [hb])
    have hbs : delim ∉ bs := fun hbs => h (by simp [hbs])
    simp [cutAt, hb, ih hbs]

/-- Where the first `delim` of `a ++ b` lies when it is not in `a`. -/
theorem split_of_notMem (delim : Byte) (a b line rest : List Byte)
    (h : a ++ b = line ++ delim :: rest) (ha : delim ∉ a) :
    ∃ t, line = a ++ t ∧ b = t ++ delim :: rest := by
  rcases List.append_eq_append_iff.mp h with ⟨t, h1, h2⟩ | ⟨t, h1, h2⟩
  · exact ⟨t, h1, h2⟩
  · cases t with
    | nil => exact ⟨[], by simpa using h1.symm, by simpa using h2.symm⟩
    | cons d t =>
      simp only [List.cons_append, List.cons.injEq] at h2
      exact absurd (by rw [h1, h2.1]; simp) ha

/-- Where the first `delim` of `a ++ b` lies when `a` contains it. -/
theorem split_of_mem (delim : Byte) (a b line rest : List Byte)
    (h : a ++ b = line ++ delim :: rest) (ha : delim ∈ a) (hl : delim ∉ line) :
    ∃ t, a = line ++ delim :: t ∧ rest = t ++ b := by
  rcases List.append_eq_append_iff.mp h with ⟨t, h1, _⟩ | ⟨t, h1, h2⟩
  · exact absurd (by rw [h1]; simp [ha]) hl
  · cases t with
    | nil => exact absurd (by simpa [h1] using ha) hl
    | cons d t =>
      simp only [List.cons_append, List.cons.injEq] at h2
      exact ⟨t, by rw [h1, h2.1], h2.2⟩

/-- The line loop of `bufio.Reader` hands out the pending bytes up to and
including the first delimiter, however they are spread over the buffer and the
deliveries to come. -/
theorem bufioReadBytesLoop_line (delim : Byte) (rest : List Byte) :
    ∀ (fuel : Nat) (acc line : List Byte) (s : Reader), delim ∉ line →
      2 * ((s.chunks.map (fun c => c.1 :: c.2)).flatten).length +
        (if defaultBufSize ≤ s.buf.length then 1 else 0) < fuel →
      s.pending = line ++ delim :: rest →
      ∃ s', bufioReadBytesLoop delim fuel acc s = .ok (acc ++ (line ++ [delim]), .nil, s') ∧
        s'.pending = rest ∧ s'.fail = s.fail := by
  intro fuel
  induction fuel with
  | zero => intro acc line s _ h; omega
  | succ fuel ih =>
    intro acc line s hl hfuel hs
    obtain ⟨buf, chunks, fail⟩ := s
    simp only [Reader.pending] at hs
    simp only at hfuel
    by_cases hmem : delim ∈ buf
    · obtain ⟨t, hbuf, hrest⟩ := split_of_mem delim buf _ line rest hs hmem hl
      refine ⟨⟨t, chunks, fail⟩, ?_, by simp [Reader.pending, hrest], rfl⟩
      simp [bufioReadBytesLoop, hbuf, cutAt_first delim line t hl]
    · obtain ⟨t, hline, hflat⟩ := split_of_notMem delim buf _ line rest hs hmem
      have ht : delim ∉ t := fun h => hl (by rw [hline]; simp [h])
      by_cases hfull : defaultBufSize ≤ buf.length
      · obtain ⟨s', h1, h2, h3⟩ := ih (acc ++ buf) t ⟨[], chunks, fail⟩ ht
          (by
            have hno : ¬ defaultBufSize ≤ ([] : List Byte).length := by simp [defaultBufSize]
            simp only [hfull, if_true] at hfuel
            simp only [hno, if_false]
            omega)
          (by simpa [Reader.pending] using hflat)
        refine ⟨s', ?_, h2, h3⟩
        simp only [bufioReadBytesLoop, cutAt_none delim buf hmem, hfull, if_true]
        rw [h1, hline]
        simp
      · cases chunks with
        | nil => simp at hflat
        | cons c cs =>
          obtain ⟨c0, c⟩ := c
          obtain ⟨m, hm⟩ : ∃ m, defaultBufSize - buf.length = m + 1 :=
            ⟨defaultBufSize - buf.length - 1, by omega⟩
          have hlen : (c.take m).length + (c.drop m).length = c.length := by
            rw [← List.length_append, List.take_append_drop]
          obtain ⟨s', h1, h2, h3⟩ := ih acc line
            ⟨buf ++ c0 :: c.take m, asChunk (c.drop m) ++ cs, fail⟩ hl
            (by
              simp only [hfull, if_false, List.map_cons, List.flatten_cons, List.length_append,
                List.length_cons] at hfuel
              simp only [flatten_asChunk, List.length_append]
              split <;> omega)
            (by
              simp only [Reader.pending, flatten_asChunk]
              rw [← hs]
              simp only [List.map_cons, List.flatten_cons, List.append_assoc, List.cons_append]
              rw [← List.append_assoc (c.take m), List.take_append_drop])
          refine ⟨s', ?_, h2, h3⟩
          simp only [bufioReadBytesLoop, cutAt_none delim buf hmem, hfull, if_false, hm, connRead,
            List.take_succ_cons, List.drop_succ_cons]
          exact h1

/-- With a delimiter among the pending bytes and a budget of more than twice
their number, `ReadBytes` of the reader returns the bytes up to and including
the first delimiter, without error. -/
theorem ReadBytes_line (eol : Byte) (line rest : List Byte) (s : Reader) (fuel : Nat)
    (hl : eol ∉ line) (hs : s.pending = line ++ eol :: rest)
    (hfuel : 2 * s.pending.length + 1 < fuel) :
    ∃ s', ReadBytes fuel eol s = .ok (line ++ [eol], .nil, s') ∧ s'.pending = rest ∧
      s'.fail = s.fail := by
  have hμ : 2 * ((s.chunks.map (fun c => c.1 :: c.2)).flatten).length +
      (if defaultBufSize ≤ s.buf.length then 1 else 0) < fuel := by
    have : s.pending.length = s.buf.length +
        ((s.chunks.map (fun c => c.1 :: c.2)).flatten).length := by
      simp only [Reader.pending, List.length_append]
    split <;> omega
  obtain ⟨s', h1, h2, h3⟩ := bufioReadBytesLoop_line eol rest fuel [] line s hl hμ hs
  exact ⟨s', by simp [ReadBytes, h1, ChkNetErr_nil], h2, h3⟩

/-- The method `ReadString` is `ReadBytes` with the newline for EOL byte. -/
theorem ReadString_eq_ReadBytes (fuel : Nat) (s : Reader) :
    ReadString fuel s = ReadBytes fuel 10 s := rfl

/-- C12: after `SetEOL e`, `ReadBytes` returns the bytes up to and including
the first `e` and `ReadString` those up to and including the first newline,
whatever `e` is; a `readWriter` as constructed has the newline for EOL byte, and
then `ReadBytes` and `ReadString` return the same. -/
theorem ReadBytes_ReadString_eol (x : Traced.readWriter) (e : Byte) (fuel : Nat)
    (hfuel : 2 * x.reader.pending.length + 1 < fuel) :
    (∀ line rest, e ∉ line → x.reader.pending = line ++ e :: rest →
      ∃ x', (x.SetEOL e).ReadBytes fuel = .ok (line ++ [e], .nil, x') ∧
        x'.reader.pending = rest) ∧
    (∀ line rest, (10 : Byte) ∉ line → x.reader.pending = line ++ 10 :: rest →
      ∃ x', (x.SetEOL e).ReadString fuel = .ok (line ++ [10], .nil, x') ∧
        x'.reader.pending = rest) ∧
    (∀ reader conn, (Traced.newReadWriter reader conn).eol = 10 ∧
      (Traced.newReadWriter reader conn).ReadBytes fuel =
        (Traced.newReadWriter reader conn).ReadString fuel) := by
  refine ⟨?_, ?_, fun reader conn => ⟨rfl, rfl⟩⟩
  · intro line rest hl hs
    obtain ⟨s', h1, h2, _⟩ := ReadBytes_line e line rest x.reader fuel hl hs hfuel
    exact ⟨_, by simp only [Traced.readWriter.ReadBytes, Traced.readWriter.SetEOL, h1]; rfl, h2⟩
  · intro line rest hl hs
    obtain ⟨s', h1, h2, _⟩ := ReadBytes_line 10 line rest x.reader fuel hl hs hfuel
    rw [← ReadString_eq_ReadBytes] at h1
    exact ⟨_, by simp only [Traced.readWriter.ReadString, Traced.readWriter.SetEOL, h1]; rfl, h2⟩

/-- C12 at a concrete stream: with `;` (59) for EOL byte, `ReadBytes` stops
behind the `;` and `ReadString` behind the newline. -/
theorem ReadBytes_ReadString_eol_witness :
    (∃ x', ((Traced.newReadWriter ⟨[1], [(59, [2]), (10, [3])], .eof⟩
        ⟨[], .nil, .nil, false⟩).SetEOL 59).ReadBytes 12 = .ok ([1, 59], .nil, x') ∧
      x'.reader.pending = [2, 10, 3]) ∧
    (∃ x', ((Traced.newReadWriter ⟨[1], [(59, [2]), (10, [3])], .eof⟩
        ⟨[], .nil, .nil, false⟩).SetEOL 59).ReadString 12 = .ok ([1, 59, 2, 10], .nil, x') ∧
      x'.reader.pending = [3]) :=
  have h := ReadBytes_ReadString_eol
    (Traced.newReadWriter ⟨[1], [(59, [2]), (10, [3])], .eof⟩ ⟨[], .nil, .nil, false⟩) 59 12
    (by decide)
  ⟨h.1 [1] [2, 10, 3] (by decide) (by decide), h.2.1 [1, 59, 2] [3] (by decide) (by decide)⟩

/-! ## Deadlines before reads and writes -/

theorem covered_mono (dr dw : Option Nat) :
    ∀ (ops : List ConnOp) (r w r' w' : Bool), (r = true → r' = true) → (w = true → w' = true) →
      covered dr dw r w ops = true → covered dr dw r' w' ops = true := by
  intro ops
  induction ops with
  | nil => intros; rfl
  | cons op ops ih =>
    intro r w r' w' hr hw h
    cases op with
    | SetReadDeadline d => simpa [covered] using h
    | SetWriteDeadline d => simpa [covered] using h
    | Read =>
      simp only [covered, Bool.and_eq_true] at h ⊢
      exact ⟨hr h.1, ih r false r' false hr (fun x => x) h.2⟩
    | Write dta =>
      simp only [covered, Bool.and_eq_true] at h ⊢
      exact ⟨hw h.1, ih false w false w' (fun x => x) hw h.2⟩
    | Close => simpa [covered] using h

theorem covered_append (dr dw : Option Nat) :
    ∀ (a b : List ConnOp) (r w : Bool), covered dr dw r w a = true →
      covered dr dw false false b = true → covered dr dw r w (a ++ b) = true := by
  intro a
  induction a with
  | nil =>
    intro b r w _ hb
    exact covered_mono dr dw b false false r w (by simp) (by simp) hb
  | cons op a ih =>
    intro b r w ha hb
    cases op with
    | SetReadDeadline d =>
      simp only [covered, Bool.and_eq_true, List.cons_append] at ha ⊢
      exact ⟨ha.1, ih b _ _ ha.2 hb⟩
    | SetWriteDeadline d =>
      simp only [covered, Bool.and_eq_true, List.cons_append] at ha ⊢
      exact ⟨ha.1, ih b _ _ ha.2 hb⟩
    | Read =>
      simp only [covered, Bool.and_eq_true, List.cons_append] at ha ⊢
      exact ⟨ha.1, ih b _ _ ha.2 hb⟩
    | Write dta =>
      simp only [covered, Bool.and_eq_true, List.cons_append] at ha ⊢
      exact ⟨ha.1, ih b _ _ ha.2 hb⟩
    | Close =>
      simp only [covered, List.cons_append] at ha ⊢
      exact ih b _ _ ha hb

/-- Reads that follow a read deadline are covered. -/
theorem covered_reads (dr dw : Option Nat) (k : Nat) (w : Bool) :
    covered dr dw true w (List.replicate k .Read) = true := by
  induction k generalizing w with
  | zero => rfl
  | succ k ih => simp [List.replicate_succ, covered, ih]

theorem covered_setR_reads (dr dw : Option Nat) (k : Nat) :
    covered dr dw false false (.SetReadDeadline dr :: List.replicate k .Read) = true := by
  simp [covered, covered_reads]

theorem Traced.Issues.refl (x : Traced.readWriter) : Traced.Issues x x :=
  ⟨rfl, rfl, [], by simp, rfl⟩

theorem Traced.Issues.trans {x y z : Traced.readWriter} (h1 : Traced.Issues x y)
    (h2 : Traced.Issues y z) : Traced.Issues x z := by
  obtain ⟨hr1, hw1, s1, ho1, hc1⟩ := h1
  obtain ⟨hr2, hw2, s2, ho2, hc2⟩ := h2
  have hre : y.rExpiry = x.rExpiry := by simp [Traced.readWriter.rExpiry, hr1]
  have hwe : y.wExpiry = x.wExpiry := by simp [Traced.readWriter.wExpiry, hw1]
  rw [hre, hwe] at hc2
  exact ⟨hr2.trans hr1, hw2.trans hw1, s1 ++ s2, by rw [ho2, ho1, List.append_assoc],
    covered_append _ _ s1 s2 false false hc1 hc2⟩

/-- A record that grows by a read deadline and reads. -/
theorem Traced.Issues.ofReads (x x' : Traced.readWriter) (k : Nat)
    (hr : x'.readTimeout = x.readTimeout) (hw : x'.writeTimeout = x.writeTimeout)
    (ho : x'.ops = x.setRExpiry.ops ++ List.replicate k .Read) : Traced.Issues x x' :=
  ⟨hr, hw, .SetReadDeadline x.rExpiry :: List.replicate k .Read,
    by simp [ho, Traced.readWriter.setRExpiry], covered_setR_reads _ _ k⟩

theorem Traced.Issues.setRExpiry (x : Traced.readWriter) : Traced.Issues x x.setRExpiry :=
  Traced.Issues.ofReads x x.setRExpiry 0 rfl rfl (by simp)

theorem Traced.ReadByte_issues (x x' : Traced.readWriter) (b : Byte) (e : GoErr)
    (h : x.ReadByte = .ok (b, e, x')) : Traced.Issues x x' := by
  unfold Traced.readWriter.ReadByte at h
  split at h
  · cases h
  · cases h
    exact Traced.Issues.ofReads _ _ _ rfl rfl rfl

theorem Traced.Read_issues (n : Nat) (x x' : Traced.readWriter) (d : List Byte) (e : GoErr)
    (h : x.Read n = .ok (d, e, x')) : Traced.Issues x x' := by
  unfold Traced.readWriter.Read at h
  split at h
  · cases h
  · cases h
    exact Traced.Issues.ofReads _ _ _ rfl rfl rfl

theorem Traced.ReadBytes_issues (fuel : Nat) (x x' : Traced.readWriter) (d : List Byte)
    (e : GoErr) (h : x.ReadBytes fuel = .ok (d, e, x')) : Traced.Issues x x' := by
  unfold Traced.readWriter.ReadBytes at h
  split at h
  · cases h
  · cases h
    exact Traced.Issues.ofReads _ _ _ rfl rfl rfl

theorem Traced.ReadString_issues (fuel : Nat) (x x' : Traced.readWriter) (d : List Byte)
    (e : GoErr) (h : x.ReadString fuel = .ok (d, e, x')) : Traced.Issues x x' := by
  unfold Traced.readWriter.ReadString at h
  split at h
  · cases h
  · cases h
    exact Traced.Issues.ofReads _ _ _ rfl rfl rfl

theorem Traced.findStartLoop_issues (stRec : List Byte) :
    ∀ (fuel i : Nat) (x x' : Traced.readWriter) (e : GoErr),
      Traced.findStartLoop stRec fuel i x = .ok (e, x') → Traced.Issues x x' := by
  intro fuel
  induction fuel with
  | zero =>
    intro i x x' e h
    simp only [Traced.findStartLoop] at h
    split_ifs at h
    cases h
    exact Traced.Issues.refl _
  | succ fuel ih =>
    intro i x x' e h
    simp only [Traced.findStartLoop] at h
    split_ifs at h with hi
    · split at h
      · cases h
      · rename_i b err x1 hb
        have h1 := Traced.ReadByte_issues x x1 b err hb
        split_ifs at h
        · cases h; exact h1
        · exact h1.trans (ih _ _ _ _ h)
        · exact h1.trans (ih _ _ _ _ h)
    · cases h
      exact Traced.Issues.refl _

theorem Traced.FindStart_issues (fuel : Nat) (stRec : List Byte) (x x' : Traced.readWriter)
    (e : GoErr) (h : x.FindStart fuel stRec = .ok (e, x')) : Traced.Issues x x' :=
  (Traced.Issues.setRExpiry x).trans (Traced.findStartLoop_issues stRec fuel 0 _ _ e h)

theorem Traced.readRecordLoop_issues (enRec : List Byte) :
    ∀ (fuel i : Nat) (data d : List Byte) (x x' : Traced.readWriter) (e : GoErr),
      Traced.readRecordLoop enRec fuel i data x = .ok (d, e, x') → Traced.Issues x x' := by
  intro fuel
  induction fuel with
  | zero =>
    intro i data d x x' e h
    simp only [Traced.readRecordLoop] at h
    split_ifs at h
    cases h
    exact Traced.Issues.refl _
  | succ fuel ih =>
    intro i data d x x' e h
    simp only [Traced.readRecordLoop] at h
    split_ifs at h with hi
    · split at h
      · cases h
      · rename_i b err x1 hb
        have h1 := Traced.ReadByte_issues x x1 b err hb
        split_ifs at h
        · split at h
          · cases h; exact h1
          · cases h
        · exact h1.trans (ih _ _ _ _ _ _ h)
        · exact h1.trans (ih _ _ _ _ _ _ h)
    · cases h
      exact Traced.Issues.refl _

theorem Traced.ReadRecord_issues (fuel : Nat) (stRec enRec : List Byte)
    (x x' : Traced.readWriter) (d : List Byte) (e : GoErr)
    (h : x.ReadRecord fuel stRec enRec = .ok (d, e, x')) : Traced.Issues x x' := by
  unfold Traced.readWriter.ReadRecord at h
  split_ifs at h
  split at h
  · cases h
  · rename_i err x1 hf
    have h1 := Traced.FindStart_issues fuel stRec x x1 err hf
    split_ifs at h
    · split at h
      · cases h; exact h1
      · cases h
    · exact h1.trans (Traced.readRecordLoop_issues enRec fuel 0 [] d x1 x' e h)

theorem Traced.ReadSizedRecord_issues (fuel : Nat) (stRec : List Byte) (recLen : Int)
    (x x' : Traced.readWriter) (d : List Byte) (e : GoErr)
    (h : x.ReadSizedRecord fuel stRec recLen = .ok (d, e, x')) : Traced.Issues x x' := by
  unfold Traced.readWriter.ReadSizedRecord at h
  split at h
  · cases h
  · rename_i err x1 hf
    have h1 := Traced.FindStart_issues fuel stRec x x1 err hf
    split_ifs at h
    · split at h
      · cases h; exact h1
      · cases h
    · split at h
      · cases h
      · rename_i data err2 x2 hrd
        have h2 := Traced.Read_issues _ x1 x2 data err2 hrd
        split at h
        · cases h; exact h1.trans h2
        · cases h

theorem Traced.ReadStruct_issues (ord : ByteOrder) (i v : StructVal)
    (x x' : Traced.readWriter) (e : GoErr)
    (h : x.ReadStruct ord i = .ok (e, v, x')) : Traced.Issues x x' := by
  unfold Traced.readWriter.ReadStruct at h
  split_ifs at h
  · cases h; exact Traced.Issues.refl _
  · split at h
    · cases h
    · rename_i data err x1 hrd
      have h1 := Traced.Read_issues _ x x1 data err hrd
      split_ifs at h
      · split at h
        · cases h; exact h1
        · cases h
      · cases h; exact h1
      · cases h; exact h1

/-- Writes that follow a write deadline are covered. -/
theorem covered_writes (dr dw : Option Nat) :
    ∀ (seg : List ConnOp) (r : Bool), (∀ op ∈ seg, ∃ d, op = ConnOp.Write d) →
      covered dr dw r true seg = true := by
  intro seg
  induction seg with
  | nil => intros; rfl
  | cons op seg ih =>
    intro r h
    obtain ⟨d, rfl⟩ := h op (by simp)
    simp only [covered, Bool.true_and]
    exact ih false (fun o ho => h o (by simp [ho]))

/-- A record that grows by a write deadline and writes. -/
theorem Traced.Issues.ofWrites (x x' : Traced.readWriter) (seg : List ConnOp)
    (hr : x'.readTimeout = x.readTimeout) (hw : x'.writeTimeout = x.writeTimeout)
    (hseg : ∀ op ∈ seg, ∃ d, op = ConnOp.Write d)
    (ho : x'.ops = x.setWExpiry.ops ++ seg) : Traced.Issues x x' :=
  ⟨hr, hw, .SetWriteDeadline x.wExpiry :: seg,
    by simp [ho, Traced.readWriter.setWExpiry],
    by simp [covered, covered_writes _ _ seg false hseg]⟩

theorem bufioFlushOps_writes (w : BufWriter) : ∀ op ∈ bufioFlushOps w, ∃ d, op = ConnOp.Write d := by
  intro op h
  unfold bufioFlushOps at h
  split_ifs at h
  · simp at h
  · simp at h
  · exact ⟨_, by simpa using h⟩

theorem bufioWriteOps_writes (p : List Byte) (w : BufWriter) :
    ∀ op ∈ bufioWriteOps p w, ∃ d, op = ConnOp.Write d := by
  intro op h
  simp only [bufioWriteOps, List.mem_append] at h
  rcases h with h | h <;>
    (split_ifs at h <;>
      first
      | exact bufioFlushOps_writes _ op h
      | exact ⟨_, by simpa using h⟩
      | simp at h)

theorem Traced.Write_issues (dta : List Byte) (x x' : Traced.readWriter) (e : GoErr)
    (h : x.Write dta = .ok (e, x')) : Traced.Issues x x' := by
  unfold Traced.readWriter.Write at h
  split at h
  · cases h
  · cases h
    exact Traced.Issues.ofWrites _ _ [.Write dta] rfl rfl (by simp) rfl

theorem Traced.WriteByte_issues (byt : Byte) (x x' : Traced.readWriter) (e : GoErr)
    (h : x.WriteByte byt = .ok (e, x')) : Traced.Issues x x' := by
  unfold Traced.readWriter.WriteByte at h
  split at h
  · cases h
  · cases h
    exact Traced.Issues.ofWrites _ _ [.Write [byt]] rfl rfl (by simp) rfl

theorem Traced.WriteString_issues (str : List Byte) (x x' : Traced.readWriter) (e : GoErr)
    (h : x.WriteString str = .ok (e, x')) : Traced.Issues x x' := by
  unfold Traced.readWriter.WriteString at h
  split at h
  · cases h
  · cases h
    exact Traced.Issues.ofWrites _ _ [.Write str] rfl rfl (by simp) rfl

theorem Traced.bufWrite_issues (dta : List Byte) (x x' : Traced.readBufWriter) (e : GoErr)
    (h : x.Write dta = .ok (e, x')) : Traced.Issues x.r x'.r := by
  unfold Traced.readBufWriter.Write at h
  split at h
  · cases h
  · cases h
    exact Traced.Issues.ofWrites _ _ _ rfl rfl (bufioWriteOps_writes dta x.writer) rfl

theorem Traced.bufWriteByte_issues (byt : Byte) (x x' : Traced.readBufWriter) (e : GoErr)
    (h : x.WriteByte byt = .ok (e, x')) : Traced.Issues x.r x'.r := by
  unfold Traced.readBufWriter.WriteByte at h
  split at h
  · cases h
  · cases h
    exact Traced.Issues.ofWrites _ _ _ rfl rfl (bufioWriteOps_writes [byt] x.writer) rfl

theorem Traced.bufWriteString_issues (str : List Byte) (x x' : Traced.readBufWriter) (e : GoErr)
    (h : x.WriteString str = .ok (e, x')) : Traced.Issues x.r x'.r := by
  unfold Traced.readBufWriter.WriteString at h
  split at h
  · cases h
  · cases h
    exact Traced.Issues.ofWrites _ _ _ rfl rfl (bufioWriteOps_writes str x.writer) rfl

theorem Traced.viaReader_issues {α : Type}
    (f : Traced.readWriter → Run (α × GoErr × Traced.readWriter))
    (hf : ∀ r a e r', f r = .ok (a, e, r') → Traced.Issues r r')
    (x x' : Traced.readBufWriter) (a : α) (e : GoErr) (h : x.viaReader f = .ok (a, e, x')) :
    Traced.Issues x.r x'.r := by
  unfold Traced.readBufWriter.viaReader at h
  split at h
  · cases h
  · rename_i a' e' r' hr
    cases h
    exact hf _ _ _ _ hr

theorem Traced.bufFindStart_issues (fuel : Nat) (stRec : List Byte)
    (x x' : Traced.readBufWriter) (e : GoErr) (h : x.FindStart fuel stRec = .ok (e, x')) :
    Traced.Issues x.r x'.r := by
  unfold Traced.readBufWriter.FindStart at h
  split at h
  · cases h
  · rename_i e' r' hr
    cases h
    exact Traced.FindStart_issues fuel stRec _ _ _ hr

theorem Traced.bufReadStruct_issues (ord : ByteOrder) (i v : StructVal)
    (x x' : Traced.readBufWriter) (e : GoErr) (h : x.ReadStruct ord i = .ok (e, v, x')) :
    Traced.Issues x.r x'.r := by
  unfold Traced.readBufWriter.ReadStruct at h
  split at h
  · cases h
  · rename_i e' v' r' hr
    cases h
    exact Traced.ReadStruct_issues ord i _ _ _ _ hr

/-- The flush of the buffered variant puts its write on the record with no
deadline call of its own in front. -/
theorem Traced.Flush_ops (x : Traced.readBufWriter) (h1 : x.werr = .nil) (h2 : x.wbuf ≠ []) :
    x.Flush.2.r.ops = x.r.ops ++ [.Write x.wbuf] := by
  have h3 : x.wbuf.length ≠ 0 := by simpa using h2
  simp [Traced.readBufWriter.Flush, bufioFlushOps, Traced.readBufWriter.writer, h1, h3]

/-- C11 (amended): every call of a read primitive (`Read`, `ReadByte`,
`ReadBytes`, `ReadString`, `FindStart`, `ReadRecord`, `ReadSizedRecord`,
`ReadStruct`, in either variant) and of `Write`, `WriteByte`, `WriteString`,
`WriteStruct` (in either variant) that returns has put on the record of
connection calls only reads that follow a `SetReadDeadline` with nothing but
reads in between and writes that follow a `SetWriteDeadline` with nothing but
writes in between, the deadline being now plus the timeout when the timeout is
not zero and the zero time when it is. -/
theorem deadlines_cover_calls :
    (∀ n x d e x', Traced.readWriter.Read n x = .ok (d, e, x') → Traced.Issues x x') ∧
    (∀ x b e x', Traced.readWriter.ReadByte x = .ok (b, e, x') → Traced.Issues x x') ∧
    (∀ fuel x d e x', Traced.readWriter.ReadBytes fuel x = .ok (d, e, x') →
      Traced.Issues x x') ∧
    (∀ fuel x d e x', Traced.readWriter.ReadString fuel x = .ok (d, e, x') →
      Traced.Issues x x') ∧
    (∀ fuel stRec x e x', Traced.readWriter.FindStart fuel stRec x = .ok (e, x') →
      Traced.Issues x x') ∧
    (∀ fuel stRec enRec x d e x',
      Traced.readWriter.ReadRecord fuel stRec enRec x = .ok (d, e, x') → Traced.Issues x x') ∧
    (∀ fuel stRec recLen x d e x',
      Traced.readWriter.ReadSizedRecord fuel stRec recLen x = .ok (d, e, x') →
        Traced.Issues x x') ∧
    (∀ ord i x e v x', Traced.readWriter.ReadStruct ord i x = .ok (e, v, x') →
      Traced.Issues x x') ∧
    (∀ dta x e x', Traced.readWriter.Write dta x = .ok (e, x') → Traced.Issues x x') ∧
    (∀ byt x e x', Traced.readWriter.WriteByte byt x = .ok (e, x') → Traced.Issues x x') ∧
    (∀ str x e x', Traced.readWriter.WriteString str x = .ok (e, x') → Traced.Issues x x') ∧
    (∀ ord i x e x', Traced.readWriter.WriteStruct ord i x = .ok (e, x') →
      Traced.Issues x x') ∧
    (∀ dta x e x', Traced.readBufWriter.Write dta x = .ok (e, x') → Traced.Issues x.r x'.r) ∧
    (∀ byt x e x', Traced.readBufWriter.WriteByte byt x = .ok (e, x') →
      Traced.Issues x.r x'.r) ∧
    (∀ str x e x', Traced.readBufWriter.WriteString str x = .ok (e, x') →
      Traced.Issues x.r x'.r) ∧
    (∀ ord i x e x', Traced.readBufWriter.WriteStruct ord i x = .ok (e, x') →
      Traced.Issues x.r x'.r) ∧
    (∀ n x d e x', Traced.readBufWriter.viaReader (Traced.readWriter.Read n) x =
        .ok (d, e, x') → Traced.Issues x.r x'.r) ∧
    (∀ x b e x', Traced.readBufWriter.viaReader Traced.readWriter.ReadByte x =
        .ok (b, e, x') → Traced.Issues x.r x'.r) ∧
    (∀ fuel x d e x', Traced.readBufWriter.viaReader (Traced.readWriter.ReadBytes fuel) x =
        .ok (d, e, x') → Traced.Issues x.r x'.r) ∧
    (∀ fuel x d e x', Traced.readBufWriter.viaReader (Traced.readWriter.ReadString fuel) x =
        .ok (d, e, x') → Traced.Issues x.r x'.r) ∧
    (∀ fuel stRec enRec x d e x',
      Traced.readBufWriter.viaReader (Traced.readWriter.ReadRecord fuel stRec enRec) x =
        .ok (d, e, x') → Traced.Issues x.r x'.r) ∧
    (∀ fuel stRec recLen x d e x',
      Traced.readBufWriter.viaReader (Traced.readWriter.ReadSizedRecord fuel stRec recLen) x =
        .ok (d, e, x') → Traced.Issues x.r x'.r) ∧
    (∀ fuel stRec x e x', Traced.readBufWriter.FindStart fuel stRec x = .ok (e, x') →
      Traced.Issues x.r x'.r) ∧
    (∀ ord i x e v x', Traced.readBufWriter.ReadStruct ord i x = .ok (e, v, x') →
      Traced.Issues x.r x'.r) := by
  refine ⟨fun n x d e x' => Traced.Read_issues n x x' d e,
    fun x b e x' => Traced.ReadByte_issues x x' b e,
    fun fuel x d e x' => Traced.ReadBytes_issues fuel x x' d e,
    fun fuel x d e x' => Traced.ReadString_issues fuel x x' d e,
    fun fuel stRec x e x' => Traced.FindStart_issues fuel stRec x x' e,
    fun fuel stRec enRec x d e x' => Traced.ReadRecord_issues fuel stRec enRec x x' d e,
    fun fuel stRec recLen x d e x' => Traced.ReadSizedRecord_issues fuel stRec recLen x x' d e,
    fun ord i x e v x' => Traced.ReadStruct_issues ord i v x x' e,
    fun dta x e x' => Traced.Write_issues dta x x' e,
    fun byt x e x' => Traced.WriteByte_issues byt x x' e,
    fun str x e x' => Traced.WriteString_issues str x x' e,
    fun ord i x e x' => Traced.Write_issues (encode ord i) x x' e,
    fun dta x e x' => Traced.bufWrite_issues dta x x' e,
    fun byt x e x' => Traced.bufWriteByte_issues byt x x' e,
    fun str x e x' => Traced.bufWriteString_issues str x x' e,
    fun ord i x e x' => Traced.bufWrite_issues (encode ord i) x x' e,
    fun n x d e x' => Traced.viaReader_issues _
      (fun r a e r' => Traced.Read_issues n r r' a e) x x' d e,
    fun x b e x' => Traced.viaReader_issues _
      (fun r a e r' => Traced.ReadByte_issues r r' a e) x x' b e,
    fun fuel x d e x' => Traced.viaReader_issues _
      (fun r a e r' => Traced.ReadBytes_issues fuel r r' a e) x x' d e,
    fun fuel x d e x' => Traced.viaReader_issues _
      (fun r a e r' => Traced.ReadString_issues fuel r r' a e) x x' d e,
    fun fuel stRec enRec x d e x' => Traced.viaReader_issues _
      (fun r a e r' => Traced.ReadRecord_issues fuel stRec enRec r r' a e) x x' d e,
    fun fuel stRec recLen x d e x' => Traced.viaReader_issues _
      (fun r a e r' => Traced.ReadSizedRecord_issues fuel stRec recLen r r' a e) x x' d e,
    fun fuel stRec x e x' => Traced.bufFindStart_issues fuel stRec x x' e,
    fun ord i x e v x' => Traced.bufReadStruct_issues ord i v x x' e⟩

/-- The amended C11 at a concrete call: `ReadRecord` with a read timeout of 5 on
a stream delivered in two pieces sets the deadline before each of its reads. -/
theorem deadlines_cover_calls_witness :
    ((Traced.newReadWriter ⟨[], [(62, [1]), (60, [])], .eof⟩
        ⟨[], .nil, .nil, false⟩).ReadTimeout 5).ReadRecord 4 [62] [60] =
      .ok ([1], .nil, ⟨⟨[], [], .eof⟩, ⟨[], .nil, .nil, false⟩, 10, 5, 0,
        [.SetReadDeadline (some 5), .SetReadDeadline (some 5), .Read,
          .SetReadDeadline (some 5), .SetReadDeadline (some 5), .Read]⟩) ∧
    Traced.Issues ((Traced.newReadWriter ⟨[], [(62, [1]), (60, [])], .eof⟩
        ⟨[], .nil, .nil, false⟩).ReadTimeout 5)
      ⟨⟨[], [], .eof⟩, ⟨[], .nil, .nil, false⟩, 10, 5, 0,
        [.SetReadDeadline (some 5), .SetReadDeadline (some 5), .Read,
          .SetReadDeadline (some 5), .SetReadDeadline (some 5), .Read]⟩ :=
  ⟨by decide, deadlines_cover_calls.2.2.2.2.2.1 4 [62] [60] _ [1] .nil _ (by decide)⟩

/-- C11 (as stated) fails: `ReadBytes` sets the read deadline once and the
line `[1, 10]`, delivered in two pieces, takes two reads of the connection, the
second of which follows the first read and not a `SetReadDeadline`. -/
theorem deadlines_cover_calls_counterexample :
    ((Traced.newReadWriter ⟨[], [(1, []), (10, [])], .eof⟩
        ⟨[], .nil, .nil, false⟩).ReadBytes 10).map (fun r => (r.1, r.2.1, r.2.2.ops)) =
      .ok ([1, 10], .nil, [.SetReadDeadline none, .Read, .Read]) ∧
    immediate none none none [.SetReadDeadline none, .Read, .Read] = false := by
  decide

/-! ## The listener -/

theorem Listener.status_eq (s : Status) (l : Listener) :
    Listener.status s l = { l with log := l.log ++ l.statusLog s } := by
  obtain ⟨c, sv, h, sp, t, cl, lg⟩ := l
  cases sp <;> simp [Listener.status, Listener.statusLog]

/-- A `WaitOnConnection` whose accept fails returns nil, -1 and the normalised
error, and only the log changes. -/
theorem Listener.WaitOnConnection_fail (out : Accepted) (l : Listener) (e : GoErr)
    (hraw : (l.accepted out).2 ≠ .nil) (he : ChkNetErr (l.accepted out).2 = .ok e) :
    l.WaitOnConnection out = .ok (none, -1, e, { l with log := l.log ++ l.waitLog }) := by
  have hne : e ≠ .nil := ChkNetErr_ne_nil _ e he hraw
  simp only [Listener.WaitOnConnection, he, Listener.status_eq, hne, ne_eq, not_false_eq_true,
    if_true, Listener.waitLog, Listener.statusLog, List.append_assoc]

/-- A `WaitOnConnection` whose accept succeeds adds one to both counters and
returns the connection and the new number of connections. -/
theorem Listener.WaitOnConnection_ok (out : Accepted) (l : Listener)
    (hraw : (l.accepted out).2 = .nil) :
    l.WaitOnConnection out =
      .ok ((l.accepted out).1, Int.ofNat (addUint32 l.connections 1), .nil,
        { l with servicing := addUint32 l.servicing 1,
                 connections := addUint32 l.connections 1,
                 log := l.log ++ l.waitLog }) := by
  simp only [Listener.WaitOnConnection, hraw, ChkNetErr_nil, Listener.status_eq, ne_eq,
    not_true_eq_false, if_false, Listener.waitLog, Listener.statusLog, List.append_assoc]

/-- A `handleConn` whose handler result is normalised to `e` returns `e`, takes
one off `servicing` and changes nothing else but the log. -/
theorem Listener.handleConn_ok (serving : String) (conNum : Int) (ch : ConnHandler)
    (errPipe : Bool) (l : Listener) (e : GoErr) (he : ChkNetErr (ch conNum serving) = .ok e) :
    Listener.handleConn (some serving) conNum ch errPipe l =
      .ok (e, { l with servicing := addUint32 l.servicing (2 ^ 32 - 1),
                       log := l.log ++ l.handleLog conNum serving e errPipe }) := by
  simp only [Listener.handleConn, he, Listener.status_eq, Listener.handleLog, Listener.statusLog]
  split <;> simp

/-- C13: a `WaitOnConnection` whose accept fails returns nil, -1 and the
normalised error and leaves both counters as they are; one whose accept
succeeds adds one to `servicing` and to `connections` (in 32-bit unsigned
arithmetic) and returns the new value of `connections` for sequence number. -/
theorem WaitOnConnection_counters (out : Accepted) (l : Listener) :
    (∀ e, (l.accepted out).2 ≠ .nil → ChkNetErr (l.accepted out).2 = .ok e →
      ∃ l', l.WaitOnConnection out = .ok (none, -1, e, l') ∧
        l'.servicing = l.servicing ∧ l'.connections = l.connections ∧
        l'.Counts = l.Counts) ∧
    ((l.accepted out).2 = .nil →
      ∃ l', l.WaitOnConnection out =
          .ok ((l.accepted out).1, Int.ofNat l'.connections, .nil, l') ∧
        l'.servicing = (l.servicing + 1) % 2 ^ 32 ∧
        l'.connections = (l.connections + 1) % 2 ^ 32 ∧
        (l.servicing + 1 < 2 ^ 32 → l'.servicing = l.servicing + 1) ∧
        (l.connections + 1 < 2 ^ 32 → l'.connections = l.connections + 1)) := by
  constructor
  · intro e hraw he
    exact ⟨_, Listener.WaitOnConnection_fail out l e hraw he, rfl, rfl, rfl⟩
  · intro hraw
    refine ⟨{ l with servicing := addUint32 l.servicing 1,
                     connections := addUint32 l.connections 1,
                     log := l.log ++ l.waitLog },
      Listener.WaitOnConnection_ok out l hraw, rfl, rfl, ?_, ?_⟩
    · intro h; exact Nat.mod_eq_of_lt h
    · intro h; exact Nat.mod_eq_of_lt h

/-- C13 at concrete calls: an accept that runs into its deadline and an accept
that brings a connection, on a listener with counters 3 and 7. -/
theorem WaitOnConnection_counters_witness :
    (∃ l', Listener.WaitOnConnection (none, errDeadline) ⟨7, 3, "h", false, 0, false, []⟩ =
        .ok (none, -1, Err_Timeout, l') ∧ l'.servicing = 3 ∧ l'.connections = 7) ∧
    (∃ l', Listener.WaitOnConnection (some "p", .nil) ⟨7, 3, "h", false, 0, false, []⟩ =
        .ok (some "p", 8, .nil, l') ∧ l'.servicing = 4 ∧ l'.connections = 8) :=
  have h := WaitOnConnection_counters
  ⟨(h (none, errDeadline) ⟨7, 3, "h", false, 0, false, []⟩).1 Err_Timeout (by decide) (by decide)
      |>.imp fun _ hl => ⟨hl.1, hl.2.1, hl.2.2.1⟩,
    (h (some "p", .nil) ⟨7, 3, "h", false, 0, false, []⟩).2 (by decide)
      |>.imp fun _ hl => ⟨by simpa [hl.2.2.1] using hl.1, hl.2.2.2.1 (by decide),
        hl.2.2.2.2 (by decide)⟩⟩

/-- C16: `HandleARequest` returns the error of `WaitOnConnection` when the
accept fails, and the handler is not called; otherwise it calls the handler
once, with the sequence number and the peer address of the connection, closes
the connection and returns `ChkNetErr` of what the handler returned. -/
theorem HandleARequest_result (out : Accepted) (ch : ConnHandler) (l : Listener) :
    (∀ e, (l.accepted out).2 ≠ .nil → ChkNetErr (l.accepted out).2 = .ok e →
      ∃ l', l.HandleARequest out ch = .ok (e, l') ∧
        l.WaitOnConnection out = .ok (none, -1, e, l') ∧ l'.log = l.log ++ l.waitLog) ∧
    (∀ serving e, l.accepted out = (some serving, .nil) →
      ChkNetErr (ch (Int.ofNat (addUint32 l.connections 1)) serving) = .ok e →
      ∃ l', l.HandleARequest out ch = .ok (e, l') ∧
        l'.log = l.log ++ l.waitLog ++
          l.handleLog (Int.ofNat (addUint32 l.connections 1)) serving e false ∧
        (ch (Int.ofNat (addUint32 l.connections 1)) serving = .nil → e = .nil)) := by
  constructor
  · intro e hraw he
    have hne : e ≠ .nil := ChkNetErr_ne_nil _ e he hraw
    have hw := Listener.WaitOnConnection_fail out l e hraw he
    exact ⟨_, by simp [Listener.HandleARequest, hw, hne], hw, rfl⟩
  · intro serving e hacc he
    have hraw : (l.accepted out).2 = .nil := by rw [hacc]
    have hw := Listener.WaitOnConnection_ok out l hraw
    rw [hacc] at hw
    have hh := Listener.handleConn_ok serving (Int.ofNat (addUint32 l.connections 1)) ch false
      { l with servicing := addUint32 l.servicing 1,
               connections := addUint32 l.connections 1,
               log := l.log ++ l.waitLog } e he
    refine ⟨_, by simp only [Listener.HandleARequest, hw, ne_eq, not_true_eq_false, if_false]
                  exact hh, ?_, ?_⟩
    · simp [Listener.handleLog, Listener.statusLog]
    · intro hnil
      rw [hnil, ChkNetErr_nil] at he
      cases he
      rfl

/-- C16 at concrete calls on a listener with a status channel: an accept on a
closed listener, and a connection whose handler returns `io.EOF`. -/
theorem HandleARequest_result_witness :
    (∃ l', (Listener.fresh "h" true).Close.HandleARequest (some "p", .nil) (fun _ _ => .eof) =
        .ok (Err_NoConnection, l') ∧
      l'.log = [.status .Created, .listenerClose, .status .Closed, .setDeadline none,
        .status .Waiting, .accept]) ∧
    (∃ l', (Listener.fresh "h" true).HandleARequest (some "p", .nil) (fun _ _ => .eof) =
        .ok (.eof, l') ∧
      l'.log = [.status .Created, .setDeadline none, .status .Waiting, .accept,
        .status (.Con 1 "p"), .handler 1 "p", .connClose "p", .status (.Dis 1 "p" .eof)]) :=
  ⟨((HandleARequest_result (some "p", .nil) (fun _ _ => .eof)
        (Listener.fresh "h" true).Close).1 Err_NoConnection (by decide) (by decide)).imp
      fun _ hl => ⟨hl.1, by rw [hl.2.2]; decide⟩,
    ((HandleARequest_result (some "p", .nil) (fun _ _ => .eof)
        (Listener.fresh "h" true)).2 "p" .eof (by decide) (by decide)).imp
      fun _ hl => ⟨hl.1, by rw [hl.2.1]; decide⟩⟩

/-- What one operation does to the counters of an open listener that is not
closed by it. -/
theorem Listener.step_counters (op : ListenerOp) (l : Listener) (hret : op.Returns)
    (hnc : op ≠ .close) (hopen : l.closed = false) (hs : l.servicing < 2 ^ 32)
    (hc : l.connections < 2 ^ 32) :
    ∃ l', l.step op = .ok l' ∧ l'.closed = false ∧ l'.statPipe = l.statPipe ∧
      l'.servicing = (l.servicing + (if op.accepts then 1 else 0) +
        (if op.handles then 2 ^ 32 - 1 else 0)) % 2 ^ 32 ∧
      l'.connections = (l.connections + (if op.accepts then 1 else 0)) % 2 ^ 32 := by
  have hacc : ∀ out, l.accepted out = out := fun out => by simp [Listener.accepted, hopen]
  have hs' : l.servicing < 4294967296 := by simpa using hs
  have hc' : l.connections < 4294967296 := by simpa using hc
  cases op with
  | wait out =>
    obtain ⟨e, he⟩ := hret
    by_cases hraw : out.2 = .nil
    · have hw := Listener.WaitOnConnection_ok out l (by rw [hacc]; exact hraw)
      refine ⟨_, by simp only [Listener.step, hw]; rfl, ?_, ?_, ?_, ?_⟩
      · exact hopen
      · rfl
      · simp [ListenerOp.accepts, ListenerOp.handles, hraw, addUint32]
      · simp [ListenerOp.accepts, hraw, addUint32]
    · have hw := Listener.WaitOnConnection_fail out l e (by rw [hacc]; exact hraw)
        (by rw [hacc]; exact he)
      refine ⟨_, by simp only [Listener.step, hw]; rfl, ?_, ?_, ?_, ?_⟩
      · exact hopen
      · rfl
      · simp [ListenerOp.accepts, ListenerOp.handles, hraw]; omega
      · simp [ListenerOp.accepts, hraw]; omega
  | handled conn conNum res errPipe =>
    obtain ⟨hconn, e, he⟩ := hret
    obtain ⟨serving, rfl⟩ := Option.ne_none_iff_exists'.mp hconn
    have hh := Listener.handleConn_ok serving conNum (fun _ _ => res) errPipe l e he
    refine ⟨_, by simp only [Listener.step, hh]; rfl, ?_, ?_, ?_, ?_⟩
    · exact hopen
    · rfl
    · simp [ListenerOp.accepts, ListenerOp.handles, addUint32]
    · simp [ListenerOp.accepts]; omega
  | request out res =>
    obtain ⟨⟨e, he⟩, hconn, e', he'⟩ := hret
    by_cases hraw : out.2 = .nil
    · have hw := Listener.WaitOnConnection_ok out l (by rw [hacc]; exact hraw)
      obtain ⟨serving, hserving⟩ := Option.ne_none_iff_exists'.mp (hconn hraw)
      rw [hacc, hserving] at hw
      have hh := Listener.handleConn_ok serving (Int.ofNat (addUint32 l.connections 1))
        (fun _ _ => res) false
        { l with servicing := addUint32 l.servicing 1,
                 connections := addUint32 l.connections 1,
                 log := l.log ++ l.waitLog } e' he'
      refine ⟨_, by simp only [Listener.step, Listener.HandleARequest, hw, ne_eq,
        not_true_eq_false, if_false, hh]; rfl, ?_, ?_, ?_, ?_⟩
      · exact hopen
      · rfl
      · simp [ListenerOp.accepts, ListenerOp.handles, hraw, addUint32]
      · simp [ListenerOp.accepts, hraw, addUint32]
    · have hne : e ≠ .nil := ChkNetErr_ne_nil _ e he hraw
      have hw := Listener.WaitOnConnection_fail out l e (by rw [hacc]; exact hraw)
        (by rw [hacc]; exact he)
      refine ⟨_, by simp only [Listener.step, Listener.HandleARequest, hw, hne, ne_eq,
        not_false_eq_true, if_true]; rfl, ?_, ?_, ?_, ?_⟩
      · exact hopen
      · rfl
      · simp [ListenerOp.accepts, ListenerOp.handles, hraw]; omega
      · simp [ListenerOp.accepts, hraw]; omega
  | setTimeout t =>
    refine ⟨_, rfl, hopen, rfl, ?_, ?_⟩
    · simp [ListenerOp.accepts, ListenerOp.handles, Listener.SetTimeout]; omega
    · simp [ListenerOp.accepts, Listener.SetTimeout]; omega
  | close => exact absurd rfl hnc

/-- The counters after a sequence of operations on an open listener, none of
them `Close`: `servicing` has gone up by the accepts and down by the runs of
`handleConn`, `connections` up by the accepts, modulo `2 ^ 32`. -/
theorem Listener.run_counters :
    ∀ (ops : List ListenerOp) (l : Listener), (∀ op ∈ ops, op.Returns) →
      (∀ op ∈ ops, op ≠ .close) → l.closed = false → l.servicing < 2 ^ 32 →
      l.connections < 2 ^ 32 →
      ∃ l', l.run ops = .ok l' ∧ l'.closed = false ∧ l'.statPipe = l.statPipe ∧
        l'.servicing = (l.servicing + ops.countP ListenerOp.accepts +
          ops.countP ListenerOp.handles * (2 ^ 32 - 1)) % 2 ^ 32 ∧
        l'.connections = (l.connections + ops.countP ListenerOp.accepts) % 2 ^ 32 := by
  intro ops
  induction ops with
  | nil =>
    intro l _ _ hopen hs hc
    have hs' : l.servicing < 4294967296 := by simpa using hs
    have hc' : l.connections < 4294967296 := by simpa using hc
    refine ⟨l, rfl, hopen, rfl, ?_, ?_⟩
    · simp; omega
    · simp; omega
  | cons op ops ih =>
    intro l hret hnc hopen hs hc
    obtain ⟨l1, h1, ho1, hp1, hs1, hc1⟩ := Listener.step_counters op l (hret op (by simp))
      (hnc op (by simp)) hopen hs hc
    obtain ⟨l', h2, ho2, hp2, hs2, hc2⟩ := ih l1 (fun o ho => hret o (by simp [ho]))
      (fun o ho => hnc o (by simp [ho])) ho1 (by rw [hs1]; exact Nat.mod_lt _ (by norm_num))
      (by rw [hc1]; exact Nat.mod_lt _ (by norm_num))
    refine ⟨l', by simp only [Listener.run, h1, h2], ho2, hp2.trans hp1, ?_, ?_⟩
    · rw [hs2, hs1, List.countP_cons, List.countP_cons]
      norm_num
      split <;> split <;> omega
    · rw [hc2, hc1, List.countP_cons]
      norm_num
      split <;> omega

theorem Listener.fresh_counters (ipPort : String) (status : Bool) :
    (Listener.fresh ipPort status).closed = false ∧ (Listener.fresh ipPort status).servicing = 0 ∧
      (Listener.fresh ipPort status).connections = 0 := by
  cases status <;> simp [Listener.fresh, Listener.status]

/-- C14 (amended): after any sequence of `K` successful accepts and `K` runs of
`handleConn`, in whatever order and whatever the handlers return, `Counts`
gives `servicing = 0` and `totalConnections = K mod 2 ^ 32`, which is `K` for
fewer than `2 ^ 32` connections. -/
theorem Counts_after_handlers (K : Nat) (ops : List ListenerOp) (ipPort : String)
    (status : Bool) (hret : ∀ op ∈ ops, op.Returns) (hnc : ∀ op ∈ ops, op ≠ .close)
    (hacc : ops.countP ListenerOp.accepts = K) (hhan : ops.countP ListenerOp.handles = K) :
    ∃ l', (Listener.fresh ipPort status).run ops = .ok l' ∧
      l'.Counts = (0, Int.ofNat (K % 2 ^ 32)) ∧ (K < 2 ^ 32 → l'.Counts = (0, Int.ofNat K)) := by
  obtain ⟨ho, hs, hc⟩ := Listener.fresh_counters ipPort status
  obtain ⟨l', h1, _, _, hs', hc'⟩ := Listener.run_counters ops (Listener.fresh ipPort status)
    hret hnc ho (by rw [hs]; norm_num) (by rw [hc]; norm_num)
  rw [hs, hacc, hhan] at hs'
  rw [hc, hacc] at hc'
  have hs0 : l'.servicing = 0 := by rw [hs']; omega
  have hcK : l'.connections = K % 2 ^ 32 := by rw [hc']; simp
  refine ⟨l', h1, by simp [Listener.Counts, hs0, hcK], fun hK => ?_⟩
  rw [Nat.mod_eq_of_lt hK] at hcK
  simp [Listener.Counts, hs0, hcK]

/-- The amended C14 at a concrete interleaving: two accepts, then the two
handlers, the second one first. -/
theorem Counts_after_handlers_witness :
    ∃ l', (Listener.fresh "h" false).run
        [.wait (some "a", .nil), .wait (some "b", .nil), .handled (some "b") 2 .eof true,
          .handled (some "a") 1 .nil true] = .ok l' ∧
      l'.Counts = (0, Int.ofNat (2 % 2 ^ 32)) ∧ (2 < 2 ^ 32 → l'.Counts = (0, Int.ofNat 2)) :=
  Counts_after_handlers 2 _ "h" false
    (by
      intro op hop
      simp only [List.mem_cons, List.mem_singleton, List.not_mem_nil, or_false] at hop
      rcases hop with rfl | rfl | rfl | rfl
      · exact ⟨.nil, rfl⟩
      · exact ⟨.nil, rfl⟩
      · exact ⟨by simp, .eof, rfl⟩
      · exact ⟨by simp, .nil, rfl⟩)
    (by decide) (by decide) (by decide)

/-- C14 (as stated) fails for `K = 2 ^ 32`: after `2 ^ 32` calls of
`HandleARequest`, each with its handler finished, `Counts` gives a total of 0,
not `2 ^ 32`. -/
theorem Counts_after_handlers_counterexample :
    ∃ l', (Listener.fresh "h" false).run
        (List.replicate (2 ^ 32) (.request (some "p", .nil) .nil)) = .ok l' ∧
      l'.Counts = (0, 0) ∧ ((0 : Int), (0 : Int)) ≠ (0, Int.ofNat (2 ^ 32)) := by
  obtain ⟨ho, hs, hc⟩ := Listener.fresh_counters "h" false
  obtain ⟨l', h1, _, _, hs', hc'⟩ := Listener.run_counters
    (List.replicate (2 ^ 32) (.request (some "p", .nil) .nil)) (Listener.fresh "h" false)
    (by
      intro op hop
      rw [List.eq_of_mem_replicate hop]
      exact ⟨⟨.nil, rfl⟩, by simp, .nil, rfl⟩)
    (by
      intro op hop
      rw [List.eq_of_mem_replicate hop]
      simp)
    ho (by rw [hs]; norm_num) (by rw [hc]; norm_num)
  have hcount1 : (List.replicate (2 ^ 32) (ListenerOp.request (some "p", .nil) .nil)).countP
      ListenerOp.accepts = 2 ^ 32 := by
    rw [List.countP_replicate]; rfl
  have hcount2 : (List.replicate (2 ^ 32) (ListenerOp.request (some "p", .nil) .nil)).countP
      ListenerOp.handles = 2 ^ 32 := by
    rw [List.countP_replicate]; rfl
  rw [hs, hcount1, hcount2] at hs'
  rw [hc, hcount1] at hc'
  have hs0 : l'.servicing = 0 := by rw [hs']; norm_num
  have hc0 : l'.connections = 0 := by rw [hc']; norm_num
  refine ⟨l', h1, by simp [Listener.Counts, hs0, hc0], ?_⟩
  intro h
  have := (Prod.mk.inj h).2
  norm_num at this

/-- A `WaitOnConnection` that returns leaves `connections` as it is or adds
one to it. -/
theorem Listener.WaitOnConnection_connections (out : Accepted) (l l' : Listener)
    (conn : Option String) (n : Int) (e : GoErr)
    (h : l.WaitOnConnection out = .ok (conn, n, e, l')) :
    l'.connections = l.connections ∨ l'.connections = (l.connections + 1) % 2 ^ 32 := by
  by_cases hraw : (l.accepted out).2 = .nil
  · rw [Listener.WaitOnConnection_ok out l hraw] at h
    cases h
    exact Or.inr rfl
  · cases he : ChkNetErr (l.accepted out).2 with
    | error a => simp [Listener.WaitOnConnection, he] at h
    | ok e' =>
      rw [Listener.WaitOnConnection_fail out l e' hraw he] at h
      cases h
      exact Or.inl rfl

/-- A `handleConn` that returns leaves `connections` as it is. -/
theorem Listener.handleConn_connections (conn : Option String) (conNum : Int)
    (ch : ConnHandler) (errPipe : Bool) (l l' : Listener) (e : GoErr)
    (h : Listener.handleConn conn conNum ch errPipe l = .ok (e, l')) :
    l'.connections = l.connections := by
  cases conn with
  | none => simp [Listener.handleConn] at h
  | some serving =>
    simp only [Listener.handleConn, Listener.status_eq] at h
    split at h
    · cases h
    · split_ifs at h <;> (cases h; rfl)

/-- One operation leaves `connections` as it is or adds one to it, modulo
`2 ^ 32`. -/
theorem Listener.step_connections (op : ListenerOp) (l l' : Listener)
    (h : l.step op = .ok l') :
    l'.connections = l.connections ∨ l'.connections = (l.connections + 1) % 2 ^ 32 := by
  cases op with
  | wait out =>
    simp only [Listener.step] at h
    split at h
    · cases h
    · rename_i c n e l1 hw
      cases h
      exact Listener.WaitOnConnection_connections out l _ c n e hw
  | handled conn conNum res errPipe =>
    simp only [Listener.step] at h
    split at h
    · cases h
    · rename_i e l1 hh
      cases h
      exact Or.inl (Listener.handleConn_connections _ _ _ _ l _ e hh)
  | request out res =>
    simp only [Listener.step, Listener.HandleARequest] at h
    split at h
    · cases h
    · rename_i e l2 hr
      cases h
      split at hr
      · cases hr
      · rename_i c n e1 l1 hw
        have h1 := Listener.WaitOnConnection_connections out l l1 c n e1 hw
        split_ifs at hr
        · cases hr; exact h1
        · rw [Listener.handleConn_connections _ _ _ _ l1 _ e hr]; exact h1
  | setTimeout t => cases h; exact Or.inl rfl
  | close =>
    cases h
    exact Or.inl (by simp [Listener.Close, Listener.status_eq])

theorem Listener.run_connections_lt :
    ∀ (ops : List ListenerOp) (l l' : Listener), l.connections < 2 ^ 32 →
      l.run ops = .ok l' → l'.connections < 2 ^ 32 := by
  intro ops
  induction ops with
  | nil => intro l l' hc h; cases h; exact hc
  | cons op ops ih =>
    intro l l' hc h
    simp only [Listener.run] at h
    split at h
    · cases h
    · rename_i l1 h1
      refine ih l1 l' ?_ h
      rcases Listener.step_connections op l l1 h1 with h2 | h2
      · rw [h2]; exact hc
      · rw [h2]; exact Nat.mod_lt _ (by norm_num)

/-- C15 (amended): across every sequence of listener operations the servicing
value reported by `Counts` is never negative, and the total reported by
`Counts` does not decrease from one operation to the next except when the
32-bit counter, having reached `2 ^ 32 - 1`, goes back to 0 with one more
accepted connection. -/
theorem Counts_never_decrease (ops : List ListenerOp) (op : ListenerOp) (l l1 l2 : Listener)
    (hc : l.connections < 2 ^ 32) (h1 : l.run ops = .ok l1) (h2 : l1.step op = .ok l2) :
    0 ≤ l1.Counts.1 ∧ 0 ≤ l2.Counts.1 ∧
    (l1.Counts.2 ≤ l2.Counts.2 ∨ (l1.Counts.2 = 2 ^ 32 - 1 ∧ l2.Counts.2 = 0)) := by
  have hc1 : l1.connections < 2 ^ 32 := Listener.run_connections_lt ops l l1 hc h1
  have hc1' : l1.connections < 4294967296 := by simpa using hc1
  refine ⟨Int.ofNat_nonneg _, Int.ofNat_nonneg _, ?_⟩
  simp only [Listener.Counts]
  rcases Listener.step_connections op l1 l2 h2 with h | h
  · left; rw [h]
  · by_cases hw : l1.connections + 1 < 4294967296
    · left
      rw [h]
      norm_num
      omega
    · right
      have hmax : l1.connections = 4294967295 := by omega
      rw [h, hmax]
      norm_num

/-- The amended C15 at a concrete sequence: an accept, a timeout set, a failed
accept, and then one more accept. -/
theorem Counts_never_decrease_witness :
    (0 : Int) ≤ 1 ∧ (0 : Int) ≤ 2 ∧ ((1 : Int) ≤ 2 ∨ ((1 : Int) = 2 ^ 32 - 1 ∧ (2 : Int) = 0)) :=
  Counts_never_decrease
    [.wait (some "a", .nil), .setTimeout 5, .wait (none, errDeadline)]
    (.wait (some "b", .nil)) (Listener.fresh "h" false)
    ⟨1, 1, "h", false, 5, false,
      [.setDeadline none, .accept, .setDeadline (some 5), .accept]⟩
    ⟨2, 2, "h", false, 5, false,
      [.setDeadline none, .accept, .setDeadline (some 5), .accept, .setDeadline (some 5),
        .accept]⟩
    (by decide) (by decide) (by decide)

/-- C15 (as stated) fails: after `2 ^ 32 - 1` accepted connections the total
reported is `2 ^ 32 - 1`, and with one more accepted connection it is 0. -/
theorem Counts_never_decrease_counterexample :
    ∃ l1 l2, (Listener.fresh "h" false).run
        (List.replicate (2 ^ 32 - 1) (.wait (some "p", .nil))) = .ok l1 ∧
      l1.step (.wait (some "p", .nil)) = .ok l2 ∧
      l1.Counts.2 = 4294967295 ∧ l2.Counts.2 = 0 := by
  obtain ⟨ho, hs, hc⟩ := Listener.fresh_counters "h" false
  obtain ⟨l1, h1, ho1, _, hs1, hc1⟩ := Listener.run_counters
    (List.replicate (2 ^ 32 - 1) (.wait (some "p", .nil))) (Listener.fresh "h" false)
    (by
      intro op hop
      rw [List.eq_of_mem_replicate hop]
      exact ⟨.nil, rfl⟩)
    (by
      intro op hop
      rw [List.eq_of_mem_replicate hop]
      simp)
    ho (by rw [hs]; norm_num) (by rw [hc]; norm_num)
  have hcount : (List.replicate (2 ^ 32 - 1) (ListenerOp.wait (some "p", .nil))).countP
      ListenerOp.accepts = 2 ^ 32 - 1 := by
    rw [List.countP_replicate]; rfl
  rw [hc, hcount] at hc1
  have hc1' : l1.connections = 4294967295 := by rw [hc1]; norm_num
  obtain ⟨l2, h2, _, _, _, hc2⟩ := Listener.step_counters (.wait (some "p", .nil)) l1
    ⟨.nil, rfl⟩ (by simp) ho1 (by rw [hs1]; exact Nat.mod_lt _ (by norm_num))
    (by rw [hc1']; norm_num)
  have hc2' : l2.connections = 0 := by
    rw [hc2, hc1']
    simp [ListenerOp.accepts]
  exact ⟨l1, l2, h1, h2, by simp [Listener.Counts, hc1'], by simp [Listener.Counts, hc2']⟩

theorem Listener.waitLog_spawn (l : Listener) : l.waitLog.countP Event.isSpawn = 0 := by
  obtain ⟨c, sv, h, sp, t, cl, lg⟩ := l
  cases sp <;> simp [Listener.waitLog, Listener.statusLog, Event.isSpawn, List.countP_cons]

theorem Listener.handleLog_spawn (l : Listener) (n : Int) (serving : String) (e : GoErr)
    (errPipe : Bool) : (l.handleLog n serving e errPipe).countP Event.isSpawn = 0 := by
  obtain ⟨c, sv, h, sp, t, cl, lg⟩ := l
  cases sp <;> by_cases hn : e ≠ GoErr.nil ∧ errPipe = true <;>
    simp [Listener.handleLog, Listener.statusLog, Event.isSpawn, List.countP_cons, hn]

/-- The accept loop goes through a stretch of the schedule made of successful
accepts and of runs of handlers without returning, starting one goroutine for
each accept. -/
theorem Listener.HandleRequests_pre (ch : ConnHandler) (errPipe : Bool)
    (hch : ∀ n s, ∃ e, ChkNetErr (ch n s) = .ok e) :
    ∀ (pre : List Sched) (tasks : List (Option String × Int)) (l : Listener),
      l.closed = false → (∀ t ∈ tasks, t.1 ≠ none) →
      (∀ st ∈ pre, (∃ serving, st = Sched.accept (some serving, .nil)) ∨
        ∃ i, st = Sched.run i) →
      ∃ tasks' l1, l1.closed = false ∧ (∀ t ∈ tasks', t.1 ≠ none) ∧
        l1.log.countP Event.isSpawn = l.log.countP Event.isSpawn + pre.countP Sched.isAccept ∧
        ∀ rest, Listener.HandleRequests ch errPipe (pre ++ rest) tasks l =
          Listener.HandleRequests ch errPipe rest tasks' l1 := by
  intro pre
  induction pre with
  | nil =>
    intro tasks l hopen htasks _
    exact ⟨tasks, l, hopen, htasks, by simp, fun rest => rfl⟩
  | cons st pre ih =>
    intro tasks l hopen htasks hpre
    have hpre' : ∀ st ∈ pre, (∃ serving, st = Sched.accept (some serving, .nil)) ∨
        ∃ i, st = Sched.run i := fun x hx => hpre x (by simp [hx])
    rcases hpre st (by simp) with ⟨serving, rfl⟩ | ⟨i, rfl⟩
    · have hacc : l.accepted (some serving, .nil) = (some serving, .nil) := by
        simp [Listener.accepted, hopen]
      have hw := Listener.WaitOnConnection_ok (some serving, .nil) l (by rw [hacc])
      rw [hacc] at hw
      obtain ⟨tasks', l1, ho1, ht1, hcnt, hrest⟩ := ih
        (tasks ++ [(some serving, Int.ofNat (addUint32 l.connections 1))])
        { l with servicing := addUint32 l.servicing 1,
                 connections := addUint32 l.connections 1,
                 log := l.log ++ l.waitLog ++
                   [Event.spawn (Int.ofNat (addUint32 l.connections 1)) (some serving)] }
        hopen
        (by
          intro t ht
          rcases List.mem_append.mp ht with ht | ht
          · exact htasks t ht
          · simp only [List.mem_singleton] at ht
            rw [ht]; simp)
        hpre'
      refine ⟨tasks', l1, ho1, ht1, ?_, fun rest => ?_⟩
      · rw [hcnt]
        simp [List.countP_cons, Sched.isAccept, Event.isSpawn, Listener.waitLog_spawn]
        omega
      · rw [← hrest rest]
        simp only [List.cons_append, Listener.HandleRequests, hw, ne_eq, not_true_eq_false,
          if_false]
        rfl
    · cases hget : tasks.get? i with
      | none =>
        obtain ⟨tasks', l1, ho1, ht1, hcnt, hrest⟩ := ih tasks l hopen htasks hpre'
        refine ⟨tasks', l1, ho1, ht1, ?_, fun rest => ?_⟩
        · rw [hcnt]; simp [List.countP_cons, Sched.isAccept]
        · rw [← hrest rest]
          simp only [List.cons_append, Listener.HandleRequests, hget]
          rfl
      | some t =>
        obtain ⟨conn, conNum⟩ := t
        have hmem := List.get?_mem hget
        obtain ⟨serving, hserving⟩ := Option.ne_none_iff_exists'.mp (htasks _ hmem)
        simp only at hserving
        subst hserving
        obtain ⟨e, he⟩ := hch conNum serving
        have hh := Listener.handleConn_ok serving conNum ch errPipe l e he
        obtain ⟨tasks', l1, ho1, ht1, hcnt, hrest⟩ := ih (tasks.eraseIdx i)
          { l with servicing := addUint32 l.servicing (2 ^ 32 - 1),
                   log := l.log ++ l.handleLog conNum serving e errPipe }
          hopen (fun t ht => htasks t (List.mem_of_mem_eraseIdx ht)) hpre'
        refine ⟨tasks', l1, ho1, ht1, ?_, fun rest => ?_⟩
        · rw [hcnt]
          simp [List.countP_cons, Sched.isAccept, Listener.handleLog_spawn]
        · rw [← hrest rest]
          simp only [List.cons_append, Listener.HandleRequests, hget, hh]
          rfl

/-- C17: `HandleRequests` returns when a `WaitOnConnection` call fails, with
the error of that call, and not before: whatever the handlers return, the
handlers started up to then are as many as the successful accepts before the
failed one, and a schedule without a failed accept leaves the loop waiting. -/
theorem HandleRequests_returns (ch : ConnHandler) (errPipe : Bool) (pre post : List Sched)
    (out : Accepted) (tasks : List (Option String × Int)) (l : Listener) (e : GoErr)
    (hopen : l.closed = false) (htasks : ∀ t ∈ tasks, t.1 ≠ none)
    (hch : ∀ n s, ∃ e', ChkNetErr (ch n s) = .ok e')
    (hpre : ∀ st ∈ pre, (∃ serving, st = Sched.accept (some serving, .nil)) ∨
      ∃ i, st = Sched.run i)
    (hout : out.2 ≠ .nil) (he : ChkNetErr out.2 = .ok e) :
    (∃ l', Listener.HandleRequests ch errPipe (pre ++ Sched.accept out :: post) tasks l =
        .ok (e, l') ∧
      l'.log.countP Event.isSpawn = l.log.countP Event.isSpawn + pre.countP Sched.isAccept) ∧
    Listener.HandleRequests ch errPipe pre tasks l = .error .outOfFuel := by
  obtain ⟨tasks', l1, ho1, _, hcnt, hrest⟩ :=
    Listener.HandleRequests_pre ch errPipe hch pre tasks l hopen htasks hpre
  have hacc : l1.accepted out = out := by simp [Listener.accepted, ho1]
  have hne : e ≠ .nil := ChkNetErr_ne_nil _ e he hout
  have hw := Listener.WaitOnConnection_fail out l1 e (by rw [hacc]; exact hout)
    (by rw [hacc]; exact he)
  constructor
  · refine ⟨{ l1 with log := l1.log ++ l1.waitLog }, ?_, ?_⟩
    · rw [hrest]
      simp only [Listener.HandleRequests, hw, hne, ne_eq, not_false_eq_true, if_true]
    · simp [hcnt, Listener.waitLog_spawn]
  · have h := hrest []
    rw [List.append_nil] at h
    rw [h]
    cases tasks' <;> rfl

/-- C17 at a concrete schedule: two accepts, the second handler run, then an
accept that runs into its deadline; the handlers return `io.EOF`. -/
theorem HandleRequests_returns_witness :
    (∃ l', Listener.HandleRequests (fun _ _ => .eof) true
        ([.accept (some "a", .nil), .accept (some "b", .nil), .run 1] ++
          Sched.accept (none, errDeadline) :: [.run 0]) [] (Listener.fresh "h" false) =
        .ok (Err_Timeout, l') ∧
      l'.log.countP Event.isSpawn = (Listener.fresh "h" false).log.countP Event.isSpawn +
        List.countP Sched.isAccept [.accept (some "a", .nil), .accept (some "b", .nil), .run 1]) ∧
    Listener.HandleRequests (fun _ _ => .eof) true
      [.accept (some "a", .nil), .accept (some "b", .nil), .run 1] []
      (Listener.fresh "h" false) = .error .outOfFuel :=
  HandleRequests_returns (fun _ _ => .eof) true
    [.accept (some "a", .nil), .accept (some "b", .nil), .run 1] [.run 0] (none, errDeadline) []
    (Listener.fresh "h" false) Err_Timeout (by decide) (by simp) (fun _ _ => ⟨.eof, rfl⟩)
    (by
      intro st hst
      simp only [List.mem_cons, List.mem_singleton, List.not_mem_nil, or_false] at hst
      rcases hst with rfl | rfl | rfl
      · exact Or.inl ⟨"a", rfl⟩
      · exact Or.inl ⟨"b", rfl⟩
      · exact Or.inr ⟨1, rfl⟩)
    (by decide) (by decide)

/-! ## The buffered `Close` -/

/-- C18: the buffered `Close` flushes and then closes, but a flush that runs
into the write deadline comes back as the `*net.OpError` itself: the error
`Close` returns is not `Err_Timeout`, which is what `ChkNetErr` makes of it. -/
theorem readBufWriter_Close_raw :
    ((Traced.readBufWriter.mk (Traced.newReadWriter ⟨[], [], .eof⟩ ⟨[], .nil, .nil, false⟩)
        [120] .nil).Close).map (fun r => (r.1, r.2.r.conn, r.2.r.ops)) =
      .ok (.nil, ⟨[[120]], .nil, .nil, true⟩, [.Write [120], .Close]) ∧
    readBufWriter.Close ⟨⟨[], errDeadline, .nil, false⟩, [120], .nil⟩ =
      .ok (errDeadline, ⟨⟨[], errDeadline, .nil, true⟩, [120], errDeadline⟩) ∧
    ChkNetErr errDeadline = .ok Err_Timeout ∧
    errDeadline ≠ Err_Timeout := by
  decide

/-! ## `FindMyIP4Addr` -/

theorem Split_of_notMem (sep : Char) (p : List Char) (h : sep ∉ p) : Split sep p = [p] := by
  induction p with
  | nil => rfl
  | cons c cs ih =>
    have hc : c ≠ sep := fun hc => h (by simp [hc])
    have hcs : sep ∉ cs := fun hcs => h (by simp [hcs])
    simp [Split, hc, ih hcs]

theorem Split_pair (sep : Char) (p q : List Char) (hp : sep ∉ p) (hq : sep ∉ q) :
    Split sep (p ++ sep :: q) = [p, q] := by
  induction p with
  | nil => simp [Split, Split_of_notMem sep q hq]
  | cons c cs ih =>
    have hc : c ≠ sep := fun hc => hp (by simp [hc])
    have hcs : sep ∉ cs := fun hcs => hp (by simp [hcs])
    simp [Split, hc, ih hcs]

theorem beforeSlash_cidr (ip mask : List Char) (h : '/' ∉ ip) :
    beforeSlash (ip ++ '/' :: mask) = .ok ip := by
  induction ip with
  | nil => simp [beforeSlash]
  | cons c cs ih =>
    have hc : c ≠ '/' := fun hc => h (by simp [hc])
    have hcs : '/' ∉ cs := fun hcs => h (by simp [hcs])
    simp [beforeSlash, hc, ih hcs]

/-- The inner loop returns for the first address that has no colon and passes
the test. -/
theorem findInAddrs_eq (lead tail : List Char) (i : Interface) :
    ∀ addrs : List (List Char),
      findInAddrs lead tail i.Name addrs =
        match addrs.filter (fun a => decide (':' ∉ a) && selects lead i a) with
        | [] => none
        | a :: _ => some (foundAddr tail a) := by
  intro addrs
  induction addrs with
  | nil => rfl
  | cons a rest ih =>
    by_cases hcol : ':' ∈ a
    · simp [findInAddrs, hcol, ih]
    · by_cases hlead : lead = []
      · by_cases hname : i.Name = ['l', 'o']
        · simp [findInAddrs, hcol, hlead, hname, selects] at ih ⊢
          exact ih
        · simp [findInAddrs, hcol, hlead, hname, selects]
      · by_cases hpre : lead.isPrefixOf a = true
        · simp [findInAddrs, hcol, hlead, hpre, selects]
        · simp [findInAddrs, hcol, hlead, hpre, selects] at ih ⊢
          exact ih

/-- The two loops return the first of the addresses, in interface order, that
have no colon and pass the test. -/
theorem findInInterfaces_eq (lead tail : List Char) :
    ∀ infs : List Interface,
      findInInterfaces lead tail infs = firstAddr tail (ip4Addrs (selects lead) infs) := by
  intro infs
  induction infs with
  | nil => rfl
  | cons i rest ih =>
    by_cases herr : i.err = .nil
    · simp only [findInInterfaces, herr, ne_eq, not_true_eq_false, if_false, findInAddrs_eq,
        ip4Addrs, List.map_cons, if_true, List.flatten_cons]
      cases hf : i.addrs.filter (fun a => decide (':' ∉ a) && selects lead i a) with
      | nil =>
        simp only [List.nil_append]
        exact ih
      | cons a as => simp [firstAddr]
    · simp only [findInInterfaces, herr, ne_eq, not_false_eq_true, if_true, ip4Addrs,
        List.map_cons, if_false, List.flatten_cons, List.nil_append]
      exact ih

/-- The first address is returned without its mask and with the port. -/
theorem firstAddr_cidr (tail ip mask : List Char) (rest : List (List Char)) (h : '/' ∉ ip) :
    firstAddr tail ((ip ++ '/' :: mask) :: rest) = .ok (ip ++ tail, .nil) := by
  simp [firstAddr, foundAddr, beforeSlash_cidr ip mask h]

/-- What the code does with an empty filter (`""` or `":port"`): `FindMyIP4Addr`
returns the first address, in interface order, that has no colon and belongs to
an interface not called `lo`, with its `/mask` removed and the `:port`, if
given, appended; without such an address it returns `Err_BadInterface`. -/
theorem FindMyIP4Addr_empty (infs : List Interface) (port : List Char) (hport : ':' ∉ port) :
    FindMyIP4Addr infs [] =
      firstAddr [] (ip4Addrs (fun i _ => decide (i.Name ≠ ['l', 'o'])) infs) ∧
    FindMyIP4Addr infs (':' :: port) =
      firstAddr (':' :: port) (ip4Addrs (fun i _ => decide (i.Name ≠ ['l', 'o'])) infs) ∧
    (∀ tail ip mask rest, '/' ∉ ip →
      firstAddr tail ((ip ++ '/' :: mask) :: rest) = .ok (ip ++ tail, .nil)) ∧
    (∀ tail, firstAddr tail [] = .ok ([], Err_BadInterface)) := by
  have hsel : selects [] = fun i _ => decide (i.Name ≠ ['l', 'o']) := by
    funext i a
    simp [selects]
  refine ⟨?_, ?_, fun tail ip mask rest h => firstAddr_cidr tail ip mask rest h, fun _ => rfl⟩
  · simp [FindMyIP4Addr, Split, findInInterfaces_eq, hsel]
  · have hsplit : Split ':' (':' :: port) = [[], port] := by
      simpa using Split_pair ':' [] port (by simp) hport
    simp [FindMyIP4Addr, hsplit, findInInterfaces_eq, hsel]

/-- The empty filter at a concrete machine: the loopback interface `lo` and one
more interface. -/
theorem FindMyIP4Addr_empty_witness :
    FindMyIP4Addr [⟨"lo".toList, ["127.0.0.1/8".toList, "::1/128".toList], .nil⟩,
        ⟨"eth0".toList, ["fe80::1/64".toList, "192.168.1.5/24".toList], .nil⟩] ":1234".toList =
      .ok ("192.168.1.5:1234".toList, .nil) :=
  ((FindMyIP4Addr_empty [⟨"lo".toList, ["127.0.0.1/8".toList, "::1/128".toList], .nil⟩,
        ⟨"eth0".toList, ["fe80::1/64".toList, "192.168.1.5/24".toList], .nil⟩] "1234".toList
      (by decide)).2.1).trans (by decide)

/-- C19: where the loopback interface is not called `lo` (here `lo0`), the
address returned for the empty filter is `127.0.0.1`, a loopback address, with
or without a port, and not the first address that is not a loopback address,
`192.168.1.5`; with the same addresses and the loopback interface called `lo`,
`192.168.1.5` is returned. -/
theorem FindMyIP4Addr_empty_loopback :
    FindMyIP4Addr [⟨"lo0".toList, ["127.0.0.1/8".toList, "::1/128".toList], .nil⟩,
        ⟨"en0".toList, ["192.168.1.5/24".toList], .nil⟩] [] =
      .ok ("127.0.0.1".toList, .nil) ∧
    FindMyIP4Addr [⟨"lo0".toList, ["127.0.0.1/8".toList, "::1/128".toList], .nil⟩,
        ⟨"en0".toList, ["192.168.1.5/24".toList], .nil⟩] ":1234".toList =
      .ok ("127.0.0.1:1234".toList, .nil) ∧
    isLoopbackAddr "127.0.0.1".toList = true ∧
    (["127.0.0.1/8".toList, "::1/128".toList, "192.168.1.5/24".toList].filter
        (fun a => decide (':' ∉ a) && !isLoopbackAddr a)).head? =
      some "192.168.1.5/24".toList ∧
    FindMyIP4Addr [⟨"lo".toList, ["127.0.0.1/8".toList, "::1/128".toList], .nil⟩,
        ⟨"en0".toList, ["192.168.1.5/24".toList], .nil⟩] [] =
      .ok ("192.168.1.5".toList, .nil) := by
  decide

/-- C20 (amended): for a filter `p` that is not empty, does not begin with a
dot and has fewer than four dots once a trailing dot is forced on it,
`FindMyIP4Addr` (given `p` or `p:port`) returns the first address, in interface
order, that has no colon and starts with `p` and its trailing dot, with its
`/mask` removed and the `:port` appended; it returns `Err_BadInterface` if and
only if there is no such address. -/
theorem FindMyIP4Addr_filter (infs : List Interface) (p port : List Char) (hp : p ≠ [])
    (hcol : ':' ∉ p) (hport : ':' ∉ port) (hdot : p.head? ≠ some '.')
    (hcount : (forceDot p).count '.' < 4) :
    FindMyIP4Addr infs p =
      firstAddr [] (ip4Addrs (fun _ a => (forceDot p).isPrefixOf a) infs) ∧
    FindMyIP4Addr infs (p ++ ':' :: port) =
      firstAddr (':' :: port) (ip4Addrs (fun _ a => (forceDot p).isPrefixOf a) infs) ∧
    ((∃ r, FindMyIP4Addr infs p = .ok (r, Err_BadInterface)) ↔
      ip4Addrs (fun _ a => (forceDot p).isPrefixOf a) infs = []) ∧
    (∀ tail ip mask rest, '/' ∉ ip →
      firstAddr tail ((ip ++ '/' :: mask) :: rest) = .ok (ip ++ tail, .nil)) := by
  have hne : forceDot p ≠ [] := by
    unfold forceDot
    split
    · simp
    · exact hp
  have hsel : selects (forceDot p) = fun _ a => (forceDot p).isPrefixOf a := by
    funext i a
    simp [selects, hne]
  have hlen : 0 < p.length := List.length_pos.mpr hp
  have h1 : FindMyIP4Addr infs p =
      firstAddr [] (ip4Addrs (fun _ a => (forceDot p).isPrefixOf a) infs) := by
    simp [FindMyIP4Addr, Split_of_notMem ':' p hcol, hlen, hdot, hcount, findInInterfaces_eq,
      hsel]
  refine ⟨h1, ?_, ?_, fun tail ip mask rest h => firstAddr_cidr tail ip mask rest h⟩
  · simp [FindMyIP4Addr, Split_pair ':' p port hcol hport, hlen, hdot, hcount,
      findInInterfaces_eq, hsel]
  · rw [h1]
    cases hc : ip4Addrs (fun _ a => (forceDot p).isPrefixOf a) infs with
    | nil => simp [firstAddr]
    | cons a rest =>
      simp only [firstAddr, foundAddr, reduceCtorEq, iff_false, not_exists]
      intro r h
      split at h
      · cases h
      · cases h

/-- The amended C20 at a concrete machine: the filter `192.168` with a port. -/
theorem FindMyIP4Addr_filter_witness :
    FindMyIP4Addr [⟨"lo".toList, ["127.0.0.1/8".toList, "::1/128".toList], .nil⟩,
        ⟨"eth0".toList, ["fe80::1/64".toList, "192.168.1.5/24".toList], .nil⟩]
        ("192.168".toList ++ ':' :: "1234".toList) =
      .ok ("192.168.1.5:1234".toList, .nil) :=
  ((FindMyIP4Addr_filter [⟨"lo".toList, ["127.0.0.1/8".toList, "::1/128".toList], .nil⟩,
        ⟨"eth0".toList, ["fe80::1/64".toList, "192.168.1.5/24".toList], .nil⟩]
      "192.168".toList "1234".toList (by decide) (by decide) (by decide) (by decide)
      (by decide)).2.1).trans (by decide)

/-- C20 (as stated) fails: the address `192.168.1.5/24` has no colon and
starts with the filter `19`, yet `FindMyIP4Addr` returns `Err_BadInterface`,
because it looks for `19.`. -/
theorem FindMyIP4Addr_filter_counterexample :
    FindMyIP4Addr [⟨"eth0".toList, ["192.168.1.5/24".toList], .nil⟩] "19".toList =
      .ok ([], Err_BadInterface) ∧
    "19".toList.isPrefixOf "192.168.1.5/24".toList = true ∧
    ':' ∉ "192.168.1.5/24".toList := by
  decide

/-! ## Markers: the empty start marker, the scan for the end marker -/

/-- A `ReadByte` that returns without error has taken the first pending byte;
one that returns an error has taken nothing, nothing being pending. -/
theorem ReadByte_cases (s s' : Reader) (b : Byte) (e : GoErr)
    (h : ReadByte s = .ok (b, e, s')) :
    (e = .nil ∧ s.pending = b :: s'.pending ∧ s'.fail = s.fail) ∨
      (e ≠ .nil ∧ s.pending = [] ∧ s' = s) := by
  cases hp : s.pending with
  | cons b0 rest =>
    obtain ⟨s1, h1, hp1, hf1⟩ := ReadByte_pending s b0 rest hp
    rw [h1] at h
    cases h
    exact Or.inl ⟨rfl, by rw [hp1], hf1⟩
  | nil =>
    obtain ⟨buf, chunks, fail⟩ := s
    cases buf with
    | cons x r => simp [Reader.pending] at hp
    | nil =>
      cases chunks with
      | cons c cs => simp [Reader.pending] at hp
      | nil =>
        right
        simp only [ReadByte, bufioReadByte, connRead] at h
        have hraw : (if fail = GoErr.nil then ErrNoProgress else fail) ≠ .nil := by
          split
          · simp [ErrNoProgress]
          · assumption
        cases hc : ChkNetErr (if fail = GoErr.nil then ErrNoProgress else fail) with
        | error a => rw [hc] at h; cases h
        | ok e' =>
          rw [hc] at h
          cases h
          exact ⟨ChkNetErr_ne_nil _ _ hc hraw, rfl, rfl⟩

/-- C21: with an empty start marker `FindStart` returns nil with the stream as
it was (the only call it makes on the connection sets the read deadline), so
`ReadRecord` with an empty start marker is its scan for the end marker from the
current position and `ReadSizedRecord` with an empty start marker, for a length
that `make` accepts, is its one `Read` from the current position (for a length
that is negative or beyond `maxAlloc` it panics before any read). -/
theorem FindStart_empty_marker (fuel : Nat) (s : Reader) :
    FindStart fuel [] s = .ok (.nil, s) ∧
    (∀ x : Traced.readWriter, x.FindStart fuel [] = .ok (.nil, x.setRExpiry) ∧
      x.setRExpiry.reader = x.reader ∧
      x.setRExpiry.ops = x.ops ++ [.SetReadDeadline x.rExpiry]) ∧
    (∀ E : List Byte, E ≠ [] → ReadRecord fuel [] E s = readRecordLoop E fuel 0 [] s) ∧
    (∀ N : Int, 0 ≤ N → N ≤ Int.ofNat maxAlloc →
      ReadSizedRecord fuel [] N s = Read N.toNat s) ∧
    (∀ N : Int, N < 0 ∨ Int.ofNat maxAlloc < N →
      ReadSizedRecord fuel [] N s = .error .panic) := by
  have h0 : FindStart fuel [] s = .ok (.nil, s) := by
    cases fuel <;> simp [FindStart, findStartLoop]
  refine ⟨h0, fun x => ⟨?_, rfl, rfl⟩, fun E hE => ?_, fun N hN hmax => ?_, fun N hN => ?_⟩
  · cases fuel <;> simp [Traced.readWriter.FindStart, Traced.findStartLoop]
  · have hlen : E.length ≠ 0 := by simpa using hE
    simp [ReadRecord, hlen, h0]
  rotate_left
  · by_cases hneg : N < 0
    · simp only [ReadSizedRecord, h0, ne_eq, not_true_eq_false, if_false, hneg, if_true]
    · have hbig : maxAlloc < N.toNat := by
        simp only [Int.ofNat_eq_coe] at hN
        omega
      simp only [ReadSizedRecord, h0, ne_eq, not_true_eq_false, if_false, hneg, hbig, if_true]
  · have hN' : ¬ N < 0 := by omega
    have hfit : ¬ maxAlloc < N.toNat := by
      simp only [Int.ofNat_eq_coe] at hmax
      omega
    simp only [ReadSizedRecord, h0, ne_eq, not_true_eq_false, if_false, hN', hfit]
    cases hr : Read N.toNat s with
    | error a => rfl
    | ok r =>
      obtain ⟨d, e, s'⟩ := r
      have he : ChkNetErr e = .ok e := by
        unfold Read at hr
        cases hc : ChkNetErr (bufioRead N.toNat s).2.1 with
        | error a => simp [hc] at hr
        | ok e' =>
          simp only [hc] at hr
          cases hr
          exact ChkNetErr_again _ _ hc
      simp [he]

/-- C21 at a concrete stream: with the end marker `<`, the record starts with
the first pending byte, and a sized record of two bytes is the first two. -/
theorem FindStart_empty_marker_witness :
    ReadRecord 3 [] [60] ⟨[], [(1, [2, 60, 9])], .eof⟩ =
      readRecordLoop [60] 3 0 [] ⟨[], [(1, [2, 60, 9])], .eof⟩ ∧
    ReadRecord 3 [] [60] ⟨[], [(1, [2, 60, 9])], .eof⟩ = .ok ([1, 2], .nil, ⟨[9], [], .eof⟩) ∧
    ReadSizedRecord 0 [] 2 ⟨[], [(1, [2, 60, 9])], .eof⟩ =
      .ok ([1, 2], .nil, ⟨[60, 9], [], .eof⟩) :=
  ⟨(FindStart_empty_marker 3 ⟨[], [(1, [2, 60, 9])], .eof⟩).2.2.1 [60] (by decide),
    by decide,
    ((FindStart_empty_marker 0 ⟨[], [(1, [2, 60, 9])], .eof⟩).2.2.2.1 2 (by decide)
      (by decide)).trans (by decide)⟩

/-- C25: `ChkNetErr` is idempotent: a second pass over what a first pass
returned returns the same, so the errors that `ReadByte` and `Read` hand to
`FindStart`, `ReadRecord`, `ReadSizedRecord` and `ReadStruct`, and the error
`handleConn` returns, are left as they are by one more pass. -/
theorem ChkNetErr_idempotent :
    (∀ x e, ChkNetErr x = .ok e → ChkNetErr e = .ok e) ∧
    (∀ x, (ChkNetErr x).bind ChkNetErr = ChkNetErr x) ∧
    (∀ s b e s', ReadByte s = .ok (b, e, s') → ChkNetErr e = .ok e) ∧
    (∀ n s d e s', Read n s = .ok (d, e, s') → ChkNetErr e = .ok e) ∧
    (∀ conn conNum ch errPipe l e l',
      Listener.handleConn conn conNum ch errPipe l = .ok (e, l') → ChkNetErr e = .ok e) := by
  refine ⟨ChkNetErr_again, fun x => ?_, fun s b e s' h => ?_, fun n s d e s' h => ?_,
    fun conn conNum ch errPipe l e l' h => ?_⟩
  · cases hc : ChkNetErr x with
    | error a => rfl
    | ok e => exact ChkNetErr_again x e hc
  · unfold ReadByte at h
    cases hc : ChkNetErr (bufioReadByte s).2.1 with
    | error a => simp [hc] at h
    | ok e' =>
      simp only [hc] at h
      cases h
      exact ChkNetErr_again _ _ hc
  · unfold Read at h
    cases hc : ChkNetErr (bufioRead n s).2.1 with
    | error a => simp [hc] at h
    | ok e' =>
      simp only [hc] at h
      cases h
      exact ChkNetErr_again _ _ hc
  · cases conn with
    | none => simp [Listener.handleConn] at h
    | some serving =>
      cases hc : ChkNetErr (ch conNum serving) with
      | error a => simp [Listener.handleConn, hc] at h
      | ok e' =>
        rw [Listener.handleConn_ok serving conNum ch errPipe l e' hc] at h
        cases h
        exact ChkNetErr_again _ _ hc

/-- C25 at concrete errors: a timeout, a reset connection and `io.EOF`. -/
theorem ChkNetErr_idempotent_witness :
    ChkNetErr Err_Timeout = .ok Err_Timeout ∧ ChkNetErr Err_ResetByPeer = .ok Err_ResetByPeer ∧
      ChkNetErr .eof = .ok .eof :=
  ⟨ChkNetErr_idempotent.1 errDeadline Err_Timeout (by decide),
    ChkNetErr_idempotent.1 (.opError false (.syscallError (.errno ECONNRESET))) Err_ResetByPeer
      (by decide),
    ChkNetErr_idempotent.1 .eof .eof (by decide)⟩

/-- C26: for a non-empty end marker `E`, a payload `S` in which the first byte
of `E` does not occur and any tail, `ReadRecord` with an empty start marker on
`S ++ E ++ tail` returns exactly `S` with a nil error and leaves `tail`
pending. -/
theorem ReadRecord_empty_start (E S tail : List Byte) (s : Reader) (fuel : Nat) (hE : E ≠ [])
    (hS : ∀ e ∈ E.head?, e ∉ S) (hs : s.pending = S ++ E ++ tail)
    (hfuel : S.length + E.length ≤ fuel) :
    ∃ s', ReadRecord fuel [] E s = .ok (S, .nil, s') ∧ s'.pending = tail ∧
      s'.fail = s.fail := by
  have hlen : E.length ≠ 0 := by simpa using hE
  have h0 : FindStart fuel [] s = .ok (.nil, s) := by
    cases fuel <;> simp [FindStart, findStartLoop]
  obtain ⟨s', h2, hp', hf'⟩ := readRecordLoop_payload E S tail s fuel hE hS hs hfuel
  exact ⟨s', by simp [ReadRecord, hlen, h0, h2], hp', hf'⟩

/-- C26 at a concrete stream: the payload `[1, 2, 3]`, the end marker `<<` and
two bytes behind it, delivered in two pieces. -/
theorem ReadRecord_empty_start_witness :
    ∃ s', ReadRecord 5 [] [60, 60] ⟨[], [(1, [2]), (3, [60, 60, 98, 99])], .eof⟩ =
        .ok ([1, 2, 3], .nil, s') ∧ s'.pending = [98, 99] ∧ s'.fail = .eof :=
  ReadRecord_empty_start [60, 60] [1, 2, 3] [98, 99]
    ⟨[], [(1, [2]), (3, [60, 60, 98, 99])], .eof⟩ 5
    (by simp) (by simp) (by simp [Reader.pending]) (by simp)

/-- One pass of the loop `waitEnd` with a byte pending: the byte is read and,
when it is not the marker byte expected, goes to the data behind the marker
bytes matched so far, the match starting again at zero; when it is, the match
goes one further. -/
theorem readRecordLoop_pass (E : List Byte) (fuel i : Nat) (data : List Byte) (s : Reader)
    (b : Byte) (rest : List Byte) (hi : i < E.length) (hs : s.pending = b :: rest) :
    ∃ s1, s1.pending = rest ∧ s1.fail = s.fail ∧
      (b ≠ E.get ⟨i, hi⟩ → readRecordLoop E (fuel + 1) i data s =
        readRecordLoop E fuel 0 (data ++ E.take i ++ [b]) s1) ∧
      (b = E.get ⟨i, hi⟩ → readRecordLoop E (fuel + 1) i data s =
        readRecordLoop E fuel (i + 1) data s1) := by
  obtain ⟨s1, h1, hp1, hf1⟩ := ReadByte_pending s b rest hs
  refine ⟨s1, hp1, hf1, fun hb => ?_, fun hb => ?_⟩
  · have hb' : b ≠ E[i] := hb
    simp [readRecordLoop, hi, h1, hb']
  · have hb' : E[i] = b := hb.symm
    simp [readRecordLoop, hi, h1, hb']

/-- Whenever the loop `waitEnd` returns a nil error, the data it entered with,
the marker bytes matched at entry and the bytes it has taken from the stream
make up the data returned followed by the whole end marker. -/
theorem readRecordLoop_nil (E : List Byte) :
    ∀ (fuel i : Nat) (data : List Byte) (s : Reader) (d : List Byte) (s' : Reader),
      readRecordLoop E fuel i data s = .ok (d, .nil, s') →
      ∃ c, s.pending = c ++ s'.pending ∧ data ++ E.take i ++ c = d ++ E := by
  intro fuel
  induction fuel with
  | zero =>
    intro i data s d s' h
    simp only [readRecordLoop] at h
    split_ifs at h with hi
    cases h
    exact ⟨[], by simp, by simp [List.take_of_length_le (Nat.le_of_not_lt hi)]⟩
  | succ fuel ih =>
    intro i data s d s' h
    by_cases hi : i < E.length
    · simp only [readRecordLoop, hi, dif_pos] at h
      cases hr : ReadByte s with
      | error a => simp [hr] at h
      | ok r =>
        obtain ⟨b, err, s1⟩ := r
        simp only [hr] at h
        rcases ReadByte_cases s s1 b err hr with ⟨rfl, hp, _⟩ | ⟨hne, _, _⟩
        · simp only [ne_eq, not_true_eq_false, if_false] at h
          split_ifs at h with hb
          · obtain ⟨c, hc1, hc2⟩ := ih (i + 1) data s1 d s' h
            refine ⟨b :: c, by rw [hp, hc1]; rfl, ?_⟩
            have ht : E.take (i + 1) = E.take i ++ [E[i]] := by
              rw [List.take_succ, List.getElem?_eq_getElem hi]
              rfl
            have hb' : b = E[i] := hb
            rw [← hc2, ht, hb']
            simp only [List.append_assoc, List.singleton_append]
          · obtain ⟨c, hc1, hc2⟩ := ih 0 _ s1 d s' h
            exact ⟨b :: c, by rw [hp, hc1]; rfl, by simpa using hc2⟩
        · simp only [ne_eq, hne, not_false_eq_true, if_true] at h
          cases hc : ChkNetErr err with
          | error a => simp [hc] at h
          | ok e =>
            simp only [hc] at h
            cases h
            exact absurd rfl (ChkNetErr_ne_nil err _ hc hne)
    · simp only [readRecordLoop, hi, dif_neg, not_false_eq_true] at h
      cases h
      exact ⟨[], by simp, by simp [List.take_of_length_le (Nat.le_of_not_lt hi)]⟩

/-- C22: for a non-empty end marker `E`, when `ReadRecord` returns with a nil
error, the start marker was found and the bytes taken from the stream after it
are exactly the data returned followed by `E`; in the scan, a byte that is not
the marker byte expected after `i` matched bytes is appended to the data behind
those `i` bytes and the match starts again at zero, and the marker, once
matched to its end, is not added to the data. -/
theorem ReadRecord_consumed (E : List Byte) (hE : E ≠ []) :
    (∀ fuel start s d s', ReadRecord fuel start E s = .ok (d, .nil, s') →
      ∃ s1, FindStart fuel start s = .ok (.nil, s1) ∧ s1.pending = d ++ E ++ s'.pending) ∧
    (∀ fuel i data s b rest (hi : i < E.length), s.pending = b :: rest → b ≠ E.get ⟨i, hi⟩ →
      ∃ s1, s1.pending = rest ∧ readRecordLoop E (fuel + 1) i data s =
        readRecordLoop E fuel 0 (data ++ E.take i ++ [b]) s1) ∧
    (∀ fuel i data s b rest (hi : i < E.length), s.pending = b :: rest → b = E.get ⟨i, hi⟩ →
      ∃ s1, s1.pending = rest ∧ readRecordLoop E (fuel + 1) i data s =
        readRecordLoop E fuel (i + 1) data s1) ∧
    (∀ fuel data s, readRecordLoop E fuel E.length data s = .ok (data, .nil, s)) := by
  have hlen : E.length ≠ 0 := by simpa using hE
  refine ⟨fun fuel start s d s' h => ?_, fun fuel i data s b rest hi hs hb => ?_,
    fun fuel i data s b rest hi hs hb => ?_, fun fuel data s => ?_⟩
  · simp only [ReadRecord, hlen, if_false] at h
    cases hf : FindStart fuel start s with
    | error a => simp [hf] at h
    | ok r =>
      obtain ⟨err, s1⟩ := r
      simp only [hf] at h
      by_cases hne : err = .nil
      · subst hne
        simp only [ne_eq, not_true_eq_false, if_false] at h
        obtain ⟨c, hc1, hc2⟩ := readRecordLoop_nil E fuel 0 [] s1 d s' h
        refine ⟨s1, rfl, ?_⟩
        rw [hc1, ← hc2]
        simp
      · simp only [ne_eq, hne, not_false_eq_true, if_true] at h
        cases hc : ChkNetErr err with
        | error a => simp [hc] at h
        | ok e =>
          simp only [hc] at h
          cases h
          exact absurd rfl (ChkNetErr_ne_nil err _ hc hne)
  · obtain ⟨s1, hp1, _, h1, _⟩ := readRecordLoop_pass E fuel i data s b rest hi hs
    exact ⟨s1, hp1, h1 hb⟩
  · obtain ⟨s1, hp1, _, _, h2⟩ := readRecordLoop_pass E fuel i data s b rest hi hs
    exact ⟨s1, hp1, h2 hb⟩
  · cases fuel <;> simp [readRecordLoop]

/-- C22 at a concrete stream: behind the start marker `>` come `1`, a lone `<`,
`2`, the end marker `<<` and one more byte; the lone `<` and the `2` that broke
the match are part of the record. -/
theorem ReadRecord_consumed_witness :
    ∃ s1, FindStart 8 [62] ⟨[], [(7, [62, 1, 60]), (2, [60, 60, 9])], .eof⟩ = .ok (.nil, s1) ∧
      s1.pending = [1, 60, 2] ++ [60, 60] ++ (⟨[9], [], .eof⟩ : Reader).pending :=
  (ReadRecord_consumed [60, 60] (by decide)).1 8 [62]
    ⟨[], [(7, [62, 1, 60]), (2, [60, 60, 9])], .eof⟩ [1, 60, 2] ⟨[9], [], .eof⟩ (by decide)

/-! ## Streams that end: the number of byte reads -/

/-- On a stream of `n` pending bytes that then fails, the loop of `FindStart`
ends after `k` calls of `ReadByte`, `k ≤ n + 1`: with nil after taking `k`
bytes, or with the error of the stream after taking all `n`. -/
theorem findStartLoop_reads (M : List Byte) (e : GoErr) :
    ∀ (n i : Nat) (s : Reader), s.pending.length = n → s.fail ≠ .nil →
      ChkNetErr s.fail = .ok e →
      ∃ k err s', k ≤ n + 1 ∧ (∀ fuel, k ≤ fuel → findStartLoop M fuel i s = .ok (err, s')) ∧
        ((err = .nil ∧ s'.pending.length + k = n ∧ s'.fail = s.fail) ∨
          (err = e ∧ e ≠ .nil ∧ k = n + 1 ∧ s'.pending = [])) := by
  intro n
  induction n with
  | zero =>
    intro i s hn hf he
    have hp : s.pending = [] := List.length_eq_zero.mp hn
    by_cases hi : i < M.length
    · have hr := ReadByte_exhausted s e hp hf he
      have hne : e ≠ .nil := ChkNetErr_ne_nil _ e he hf
      refine ⟨1, e, s, by omega, fun fuel hfuel => ?_, Or.inr ⟨rfl, hne, rfl, hp⟩⟩
      obtain ⟨f, rfl⟩ : ∃ f, fuel = f + 1 := ⟨fuel - 1, by omega⟩
      simp [findStartLoop, hi, hr, hne]
    · refine ⟨0, .nil, s, by omega, fun fuel _ => ?_, Or.inl ⟨rfl, by omega, rfl⟩⟩
      cases fuel <;> simp [findStartLoop, hi]
  | succ n ih =>
    intro i s hn hf he
    by_cases hi : i < M.length
    · obtain ⟨b, rest, hp⟩ : ∃ b rest, s.pending = b :: rest := by
        cases hp : s.pending with
        | nil => simp [hp] at hn
        | cons b rest => exact ⟨b, rest, rfl⟩
      obtain ⟨s1, h1, hp1, hf1⟩ := ReadByte_pending s b rest hp
      have hn1 : s1.pending.length = n := by
        rw [hp] at hn
        rw [hp1]
        simpa using hn
      have step : ∃ i', ∀ fuel, findStartLoop M (fuel + 1) i s = findStartLoop M fuel i' s1 := by
        by_cases hb : M[i] = b
        · exact ⟨i + 1, fun fuel => by simp [findStartLoop, hi, h1, hb]⟩
        · have hb' : b ≠ M[i] := fun h => hb h.symm
          exact ⟨0, fun fuel => by simp [findStartLoop, hi, h1, hb']⟩
      obtain ⟨i', hstep⟩ := step
      obtain ⟨k, err, s', hk, hrun, hres⟩ := ih i' s1 hn1 (by rw [hf1]; exact hf)
        (by rw [hf1]; exact he)
      refine ⟨k + 1, err, s', by omega, fun fuel hfuel => ?_, ?_⟩
      · obtain ⟨f, rfl⟩ : ∃ f, fuel = f + 1 := ⟨fuel - 1, by omega⟩
        rw [hstep f]
        exact hrun f (by omega)
      · rcases hres with ⟨r1, r2, r3⟩ | ⟨r1, r2, r3, r4⟩
        · exact Or.inl ⟨r1, by omega, by rw [r3, hf1]⟩
        · exact Or.inr ⟨r1, r2, by omega, r4⟩
    · refine ⟨0, .nil, s, by omega, fun fuel _ => ?_, Or.inl ⟨rfl, by omega, rfl⟩⟩
      cases fuel <;> simp [findStartLoop, hi]

/-- On a stream of `n` pending bytes that then fails, the loop `waitEnd` ends
after `k` calls of `ReadByte`, `k ≤ n + 1`: with nil after taking `k` bytes, or
with the error of the stream after taking all `n`, and then the data it entered
with, the marker bytes matched at entry and the bytes taken make up the data
returned followed by the marker bytes matched at the end. -/
theorem readRecordLoop_reads (E : List Byte) (e : GoErr) :
    ∀ (n i : Nat) (data : List Byte) (s : Reader), s.pending.length = n → s.fail ≠ .nil →
      ChkNetErr s.fail = .ok e →
      ∃ k d err s', k ≤ n + 1 ∧
        (∀ fuel, k ≤ fuel → readRecordLoop E fuel i data s = .ok (d, err, s')) ∧
        ((err = .nil ∧ s'.pending.length + k = n ∧ s'.fail = s.fail) ∨
          (err = e ∧ e ≠ .nil ∧ k = n + 1 ∧ s'.pending = [] ∧
            ∃ j, j < E.length ∧ data ++ E.take i ++ s.pending = d ++ E.take j)) := by
  intro n
  induction n with
  | zero =>
    intro i data s hn hf he
    have hp : s.pending = [] := List.length_eq_zero.mp hn
    by_cases hi : i < E.length
    · have hr := ReadByte_exhausted s e hp hf he
      have hne : e ≠ .nil := ChkNetErr_ne_nil _ e he hf
      refine ⟨1, data, e, s, by omega, fun fuel hfuel => ?_,
        Or.inr ⟨rfl, hne, rfl, hp, i, hi, by rw [hp]; simp⟩⟩
      obtain ⟨f, rfl⟩ : ∃ f, fuel = f + 1 := ⟨fuel - 1, by omega⟩
      simp [readRecordLoop, hi, hr, hne, ChkNetErr_again _ _ he]
    · refine ⟨0, data, .nil, s, by omega, fun fuel _ => ?_, Or.inl ⟨rfl, by omega, rfl⟩⟩
      cases fuel <;> simp [readRecordLoop, hi]
  | succ n ih =>
    intro i data s hn hf he
    by_cases hi : i < E.length
    · obtain ⟨b, rest, hp⟩ : ∃ b rest, s.pending = b :: rest := by
        cases hp : s.pending with
        | nil => simp [hp] at hn
        | cons b rest => exact ⟨b, rest, rfl⟩
      obtain ⟨s1, h1, hp1, hf1⟩ := ReadByte_pending s b rest hp
      have hn1 : s1.pending.length = n := by
        rw [hp] at hn
        rw [hp1]
        simpa using hn
      have ht : E.take (i + 1) = E.take i ++ [E[i]] := by
        rw [List.take_succ, List.getElem?_eq_getElem hi]
        rfl
      have step : ∃ i' data', (∀ fuel, readRecordLoop E (fuel + 1) i data s =
          readRecordLoop E fuel i' data' s1) ∧ data' ++ E.take i' = data ++ E.take i ++ [b] := by
        by_cases hb : E[i] = b
        · exact ⟨i + 1, data, fun fuel => by simp [readRecordLoop, hi, h1, hb],
            by rw [ht, hb]; simp only [List.append_assoc]⟩
        · have hb' : b ≠ E[i] := fun h => hb h.symm
          exact ⟨0, data ++ E.take i ++ [b], fun fuel => by simp [readRecordLoop, hi, h1, hb'],
            by simp⟩
      obtain ⟨i', data', hstep, hdata⟩ := step
      obtain ⟨k, d, err, s', hk, hrun, hres⟩ := ih i' data' s1 hn1 (by rw [hf1]; exact hf)
        (by rw [hf1]; exact he)
      refine ⟨k + 1, d, err, s', by omega, fun fuel hfuel => ?_, ?_⟩
      · obtain ⟨f, rfl⟩ : ∃ f, fuel = f + 1 := ⟨fuel - 1, by omega⟩
        rw [hstep f]
        exact hrun f (by omega)
      · rcases hres with ⟨r1, r2, r3⟩ | ⟨r1, r2, r3, r4, j, hj, hjd⟩
        · exact Or.inl ⟨r1, by omega, by rw [r3, hf1]⟩
        · refine Or.inr ⟨r1, r2, by omega, r4, j, hj, ?_⟩
          rw [hp, ← hjd, hdata, hp1]
          simp
    · refine ⟨0, data, .nil, s, by omega, fun fuel _ => ?_, Or.inl ⟨rfl, by omega, rfl⟩⟩
      cases fuel <;> simp [readRecordLoop, hi]

/-- C27: when the stream fails while `ReadRecord` scans for the end marker with
`i` marker bytes matched, `ReadRecord` returns the (normalised) error of the
stream together with the data gathered so far, which does not hold the `i`
bytes of the match under way: the bytes taken from the stream after the start
marker are the data returned followed by the first `i` bytes of the marker. -/
theorem ReadRecord_stream_fails (E : List Byte) (e : GoErr) (hE : E ≠ []) :
    (∀ fuel i data s, i < E.length → s.pending = [] → s.fail ≠ .nil →
      ChkNetErr s.fail = .ok e → readRecordLoop E (fuel + 1) i data s = .ok (data, e, s)) ∧
    (∀ fuel start s s1, FindStart fuel start s = .ok (.nil, s1) → s1.fail ≠ .nil →
      ChkNetErr s1.fail = .ok e → s1.pending.length < fuel →
      ∃ d err s', ReadRecord fuel start E s = .ok (d, err, s') ∧
        ((err = .nil ∧ s1.pending = d ++ E ++ s'.pending) ∨
          (err = e ∧ e ≠ .nil ∧ s'.pending = [] ∧
            ∃ i, i < E.length ∧ s1.pending = d ++ E.take i))) := by
  have hlen : E.length ≠ 0 := by simpa using hE
  refine ⟨fun fuel i data s hi hp hf he => ?_, fun fuel start s s1 hfind hf he hfuel => ?_⟩
  · have hr := ReadByte_exhausted s e hp hf he
    have hne : e ≠ .nil := ChkNetErr_ne_nil _ e he hf
    simp [readRecordLoop, hi, hr, hne, ChkNetErr_again _ _ he]
  · obtain ⟨k, d, err, s', hk, hrun, hres⟩ :=
      readRecordLoop_reads E e s1.pending.length 0 [] s1 rfl hf he
    have hloop := hrun fuel (by omega)
    have hrec : ReadRecord fuel start E s = .ok (d, err, s') := by
      simp [ReadRecord, hlen, hfind, hloop]
    refine ⟨d, err, s', hrec, ?_⟩
    rcases hres with ⟨r1, _, _⟩ | ⟨r1, r2, _, r4, j, hj, hjd⟩
    · subst r1
      obtain ⟨c, hc1, hc2⟩ := readRecordLoop_nil E fuel 0 [] s1 d s' hloop
      refine Or.inl ⟨rfl, ?_⟩
      rw [hc1, ← hc2]
      simp
    · exact Or.inr ⟨r1, r2, r4, j, hj, by simpa using hjd⟩

/-- C27 at a concrete stream: behind the start marker `>` come `1`, `2` and one
`<` of the end marker `<<`, and then the peer closes: the data returned with
`io.EOF` is `[1, 2]`, without the `<`. -/
theorem ReadRecord_stream_fails_witness :
    ∃ d err s', ReadRecord 5 [62] [60, 60] ⟨[], [(62, [1, 2, 60])], .eof⟩ = .ok (d, err, s') ∧
      ((err = .nil ∧ (⟨[1, 2, 60], [], .eof⟩ : Reader).pending = d ++ [60, 60] ++ s'.pending) ∨
        (err = .eof ∧ GoErr.eof ≠ .nil ∧ s'.pending = [] ∧
          ∃ i, i < [(60 : Byte), 60].length ∧
            (⟨[1, 2, 60], [], .eof⟩ : Reader).pending = d ++ [(60 : Byte), 60].take i)) :=
  (ReadRecord_stream_fails [60, 60] .eof (by decide)).2 5 [62] ⟨[], [(62, [1, 2, 60])], .eof⟩
    ⟨[1, 2, 60], [], .eof⟩ (by decide) (by decide) (by decide) (by decide)

/-- C28: on a stream of finitely many bytes that then fails, `FindStart` and
`ReadRecord` end for every marker: every pass of their loops is one `ReadByte`
call that takes one byte, `FindStart` returns nil or the error of the stream
after at most `len + 1` calls, and `ReadRecord` returns after at most `len + 1`
calls in all, those of its `FindStart` and those of its scan taken together
(with an empty end marker it stops at its assertion before any read). -/
theorem FindStart_ReadRecord_terminate (s : Reader) (e : GoErr) (hf : s.fail ≠ .nil)
    (he : ChkNetErr s.fail = .ok e) :
    (∀ M, ∃ k err s', k ≤ s.pending.length + 1 ∧
      (∀ fuel, k ≤ fuel → FindStart fuel M s = .ok (err, s')) ∧
      ((err = .nil ∧ s'.pending.length + k = s.pending.length) ∨
        (err = e ∧ e ≠ .nil ∧ s'.pending = []))) ∧
    (∀ start E, E ≠ [] → ∃ k1 k2 err1 s1 d err s', k1 + k2 ≤ s.pending.length + 1 ∧
      (∀ fuel, k1 ≤ fuel → FindStart fuel start s = .ok (err1, s1)) ∧
      (err1 = .nil → ∀ fuel, k2 ≤ fuel → readRecordLoop E fuel 0 [] s1 = .ok (d, err, s')) ∧
      (err1 ≠ .nil → k2 = 0) ∧
      (∀ fuel, k1 ≤ fuel → k2 ≤ fuel → ReadRecord fuel start E s = .ok (d, err, s')) ∧
      (err = .nil ∨ err = e)) ∧
    (∀ fuel start, ReadRecord fuel start [] s = .error .assertion) := by
  refine ⟨fun M => ?_, fun start E hE => ?_, fun fuel start => by simp [ReadRecord]⟩
  · obtain ⟨k, err, s', hk, hrun, hres⟩ := findStartLoop_reads M e s.pending.length 0 s rfl hf he
    refine ⟨k, err, s', hk, hrun, ?_⟩
    rcases hres with ⟨r1, r2, _⟩ | ⟨r1, r2, _, r4⟩
    · exact Or.inl ⟨r1, r2⟩
    · exact Or.inr ⟨r1, r2, r4⟩
  · have hlen : E.length ≠ 0 := by simpa using hE
    obtain ⟨k1, err1, s1, hk1, hrun1, hres1⟩ :=
      findStartLoop_reads start e s.pending.length 0 s rfl hf he
    rcases hres1 with ⟨r1, r2, r3⟩ | ⟨r1, r2, r3, r4⟩
    · subst r1
      obtain ⟨k2, d, err, s', hk2, hrun2, hres2⟩ :=
        readRecordLoop_reads E e s1.pending.length 0 [] s1 rfl (by rw [r3]; exact hf)
          (by rw [r3]; exact he)
      refine ⟨k1, k2, .nil, s1, d, err, s', by omega, hrun1, fun _ => hrun2,
        fun h => absurd rfl h, fun fuel h1 h2 => ?_, ?_⟩
      · have hfind : FindStart fuel start s = .ok (.nil, s1) := hrun1 fuel h1
        simp [ReadRecord, hlen, hfind, hrun2 fuel h2]
      · rcases hres2 with ⟨q, _⟩ | ⟨q, _⟩
        · exact Or.inl q
        · exact Or.inr q
    · subst r1
      refine ⟨k1, 0, err1, s1, [], err1, s1, by omega, hrun1, fun h => absurd h r2,
        fun _ => rfl, fun fuel h1 _ => ?_, Or.inr rfl⟩
      have hfind : FindStart fuel start s = .ok (err1, s1) := hrun1 fuel h1
      simp [ReadRecord, hlen, hfind, r2, ChkNetErr_again _ _ he]

/-- C28 at a concrete stream of four bytes that ends with `io.EOF`: a start
marker that never comes is looked for with five reads. -/
theorem FindStart_ReadRecord_terminate_witness :
    ∃ k err s', k ≤ (⟨[], [(1, [1]), (2, [1])], .eof⟩ : Reader).pending.length + 1 ∧
      (∀ fuel, k ≤ fuel →
        FindStart fuel [1, 1, 1] ⟨[], [(1, [1]), (2, [1])], .eof⟩ = .ok (err, s')) ∧
      ((err = .nil ∧
          s'.pending.length + k = (⟨[], [(1, [1]), (2, [1])], .eof⟩ : Reader).pending.length) ∨
        (err = .eof ∧ GoErr.eof ≠ .nil ∧ s'.pending = [])) :=
  (FindStart_ReadRecord_terminate ⟨[], [(1, [1]), (2, [1])], .eof⟩ .eof (by decide)
    (by decide)).1 [1, 1, 1]

/-! ## `handleConn`, the full-address filter, the buffered `Close` once more -/

/-- C23: for a connection with number `n` and peer `p` whose handler result is
normalised to `err`, `handleConn` sends the status `Con n p`, calls the
handler, closes the connection, sends `err` to the error channel if and only if
`err` is not nil and a channel was given, takes one off `servicing` (in 32-bit
unsigned arithmetic) and sends the status `Dis n p err`, in this order; without
a status channel it sends no status. -/
theorem handleConn_reports (n : Int) (p : String) (ch : ConnHandler) (errPipe : Bool)
    (l : Listener) (err : GoErr) (he : ChkNetErr (ch n p) = .ok err) :
    ∃ l', Listener.handleConn (some p) n ch errPipe l = .ok (err, l') ∧
      l'.log = l.log ++ (if l.statPipe then [Event.status (.Con n p)] else []) ++
        [Event.handler n p, Event.connClose p] ++
        (if err ≠ .nil ∧ errPipe = true then [Event.errSent err] else []) ++
        (if l.statPipe then [Event.status (.Dis n p err)] else []) ∧
      l'.servicing = (l.servicing + (2 ^ 32 - 1)) % 2 ^ 32 ∧
      (0 < l.servicing → l.servicing < 2 ^ 32 → l'.servicing = l.servicing - 1) ∧
      l'.connections = l.connections ∧
      (l.statPipe = false → l'.log = l.log ++ [Event.handler n p, Event.connClose p] ++
        (if err ≠ .nil ∧ errPipe = true then [Event.errSent err] else [])) := by
  refine ⟨_, Listener.handleConn_ok p n ch errPipe l err he, ?_, rfl, ?_, rfl, ?_⟩
  · simp [Listener.handleLog, Listener.statusLog]
  · intro h0 h1
    show addUint32 l.servicing (2 ^ 32 - 1) = l.servicing - 1
    have h1' : l.servicing < 4294967296 := by simpa using h1
    simp only [addUint32]
    norm_num
    omega
  · intro hs
    simp [Listener.handleLog, Listener.statusLog, hs]

/-- C23 at concrete calls on a listener that serves two connections: a handler
that returns a reset connection, with status and error channels, and a handler
that returns nil. -/
theorem handleConn_reports_witness :
    (∃ l', Listener.handleConn (some "p") 7 (fun _ _ => .errno ECONNRESET) true
        ⟨7, 2, "h", true, 0, false, []⟩ = .ok (Err_ResetByPeer, l') ∧
      l'.log = [.status (.Con 7 "p"), .handler 7 "p", .connClose "p", .errSent Err_ResetByPeer,
        .status (.Dis 7 "p" Err_ResetByPeer)] ∧ l'.servicing = 1) ∧
    (∃ l', Listener.handleConn (some "p") 7 (fun _ _ => .nil) true
        ⟨7, 2, "h", false, 0, false, []⟩ = .ok (.nil, l') ∧
      l'.log = [.handler 7 "p", .connClose "p"] ∧ l'.servicing = 1) :=
  ⟨(handleConn_reports 7 "p" (fun _ _ => .errno ECONNRESET) true
      ⟨7, 2, "h", true, 0, false, []⟩ Err_ResetByPeer (by decide)).imp
      fun _ hl => ⟨hl.1, by rw [hl.2.1]; decide, hl.2.2.2.1 (by decide) (by decide)⟩,
    (handleConn_reports 7 "p" (fun _ _ => .nil) true
      ⟨7, 2, "h", false, 0, false, []⟩ .nil (by decide)).imp
      fun _ hl => ⟨hl.1, by rw [hl.2.1]; decide, hl.2.2.2.1 (by decide) (by decide)⟩⟩

/-- C24: for the full address `127.0.0.1` as filter (three dots) the code
first forces a trailing dot, so the count its assertion checks is 4, the
assertion `strings.Count(lead, ".") < 4` fails and no interface is looked at,
with or without a port; the filter `127.0.0` passes. -/
theorem FindMyIP4Addr_full_address :
    "127.0.0.1".toList.count '.' = 3 ∧
    forceDot "127.0.0.1".toList = "127.0.0.1.".toList ∧
    (forceDot "127.0.0.1".toList).count '.' = 4 ∧
    (∀ infs, FindMyIP4Addr infs "127.0.0.1".toList = .error .assertion) ∧
    (∀ infs, FindMyIP4Addr infs "127.0.0.1:5555".toList = .error .assertion) ∧
    FindMyIP4Addr [⟨"lo".toList, ["127.0.0.1/8".toList], .nil⟩] "127.0.0".toList =
      .ok ("127.0.0.1".toList, .nil) := by
  refine ⟨by decide, by decide, by decide, fun infs => ?_, fun infs => ?_, by decide⟩
  · have h1 : Split ':' "127.0.0.1".toList = ["127.0.0.1".toList] := by decide
    have h2 : ¬ (forceDot "127.0.0.1".toList).count '.' < 4 := by decide
    have h3 : "127.0.0.1".toList.head? ≠ some '.' := by decide
    have h4 : 0 < "127.0.0.1".toList.length := by decide
    simp only [FindMyIP4Addr, h1, List.length_singleton, OfNat.one_ne_ofNat, if_false, h4,
      if_true, h3, h2, not_false_eq_true]
  · have h1 : Split ':' "127.0.0.1:5555".toList = ["127.0.0.1".toList, "5555".toList] := by
      decide
    have h2 : ¬ (forceDot "127.0.0.1".toList).count '.' < 4 := by decide
    have h3 : "127.0.0.1".toList.head? ≠ some '.' := by decide
    have h4 : 0 < "127.0.0.1".toList.length := by decide
    have h5 : ["127.0.0.1".toList, "5555".toList].getD 0 [] = "127.0.0.1".toList := rfl
    simp only [FindMyIP4Addr, h1, List.length_cons, List.length_singleton, List.length_nil,
      Nat.reduceAdd, if_true, h5, h4, h3, h2, not_false_eq_true, if_false]

/-- C29: the buffered `Close` closes the connection whether the flush fails or
not (the close is on the record of connection calls, behind the write of the
flush), and returns the error of the flush when the flush failed and the
(normalised) error of the close when the flush succeeded. -/
theorem readBufWriter_Close_closes (x : Traced.readBufWriter) (e : GoErr)
    (he : ChkNetErr (connClose (bufioFlush x.writer).2.conn).1 = .ok e) :
    ∃ r x', x.Close = .ok (r, x') ∧ x'.r.conn.closed = true ∧
      x'.r.ops = x.r.ops ++ bufioFlushOps x.writer ++ [.Close] ∧
      ((bufioFlush x.writer).1 ≠ .nil → r = (bufioFlush x.writer).1) ∧
      ((bufioFlush x.writer).1 = .nil → r = e) := by
  have hclosed : (connClose (bufioFlush x.writer).2.conn).2.closed = true := by
    unfold connClose
    split
    · assumption
    · rfl
  by_cases hf : (bufioFlush x.writer).1 = .nil
  · refine ⟨e, { r := { x.r with conn := (connClose (bufioFlush x.writer).2.conn).2,
                                 ops := x.r.ops ++ bufioFlushOps x.writer ++ [.Close] },
                 wbuf := (bufioFlush x.writer).2.wbuf, werr := (bufioFlush x.writer).2.werr },
      ?_, hclosed, rfl, fun h => absurd hf h, fun _ => rfl⟩
    simp only [Traced.readBufWriter.Close, readBufWriter.Close, Nwk.Close, he, hf, ne_eq,
      not_true_eq_false, if_false]
  · refine ⟨(bufioFlush x.writer).1,
      { r := { x.r with conn := (connClose (bufioFlush x.writer).2.conn).2,
                        ops := x.r.ops ++ bufioFlushOps x.writer ++ [.Close] },
        wbuf := (bufioFlush x.writer).2.wbuf, werr := (bufioFlush x.writer).2.werr },
      ?_, hclosed, rfl, fun _ => rfl, fun h => absurd h hf⟩
    simp only [Traced.readBufWriter.Close, readBufWriter.Close, Nwk.Close, he, hf, ne_eq,
      not_false_eq_true, if_true]

/-- C29 at concrete calls: a flush that runs into the write deadline, and a
flush that succeeds on a connection whose close reports a reset. -/
theorem readBufWriter_Close_closes_witness :
    (∃ r x', (Traced.readBufWriter.mk (Traced.newReadWriter ⟨[], [], .eof⟩
          ⟨[], errDeadline, .nil, false⟩) [120] .nil).Close = .ok (r, x') ∧
        x'.r.conn.closed = true ∧ r = errDeadline) ∧
    (∃ r x', (Traced.readBufWriter.mk (Traced.newReadWriter ⟨[], [], .eof⟩
          ⟨[], .nil, .errno ECONNRESET, false⟩) [120] .nil).Close = .ok (r, x') ∧
        x'.r.conn.closed = true ∧ r = Err_ResetByPeer) :=
  ⟨(readBufWriter_Close_closes (Traced.readBufWriter.mk (Traced.newReadWriter ⟨[], [], .eof⟩
        ⟨[], errDeadline, .nil, false⟩) [120] .nil) .nil (by decide)).imp
      fun _ hr => hr.imp fun _ hx => ⟨hx.1, hx.2.1, hx.2.2.2.1 (by decide)⟩,
    (readBufWriter_Close_closes (Traced.readBufWriter.mk (Traced.newReadWriter ⟨[], [], .eof⟩
        ⟨[], .nil, .errno ECONNRESET, false⟩) [120] .nil) Err_ResetByPeer (by decide)).imp
      fun _ hr => hr.imp fun _ hx => ⟨hx.1, hx.2.1, hx.2.2.2.2 (by decide)⟩⟩

/-! ## The servicing counter and the calls made -/

/-- A `WaitOnConnection` that returns has counted one connection more when it
returns no error, and none when it returns one. -/
theorem Listener.WaitOnConnection_servicing (out : Accepted) (l l' : Listener)
    (conn : Option String) (n : Int) (err : GoErr)
    (h : l.WaitOnConnection out = .ok (conn, n, err, l')) :
    l'.servicing = (l.servicing + (if err = .nil then 1 else 0)) % 2 ^ 32 ∨
      (err ≠ .nil ∧ l'.servicing = l.servicing) := by
  by_cases hraw : (l.accepted out).2 = .nil
  · rw [Listener.WaitOnConnection_ok out l hraw] at h
    cases h
    exact Or.inl (by simp [addUint32])
  · cases he : ChkNetErr (l.accepted out).2 with
    | error a => simp [Listener.WaitOnConnection, he] at h
    | ok e =>
      rw [Listener.WaitOnConnection_fail out l e hraw he] at h
      cases h
      exact Or.inr ⟨ChkNetErr_ne_nil _ _ he hraw, rfl⟩

/-- A `handleConn` that returns has taken one off `servicing`. -/
theorem Listener.handleConn_servicing (conn : Option String) (n : Int) (ch : ConnHandler)
    (errPipe : Bool) (l l' : Listener) (e : GoErr)
    (h : Listener.handleConn conn n ch errPipe l = .ok (e, l')) :
    l'.servicing = (l.servicing + (2 ^ 32 - 1)) % 2 ^ 32 := by
  cases conn with
  | none => simp [Listener.handleConn] at h
  | some serving =>
    cases hc : ChkNetErr (ch n serving) with
    | error a => simp [Listener.handleConn, hc] at h
    | ok e' =>
      rw [Listener.handleConn_ok serving n ch errPipe l e' hc] at h
      cases h
      rfl

/-- What one operation that returns does to `servicing`, by the calls it
counts. -/
theorem Listener.step_tally (op : ListenerOp) (l l' : Listener) (hs : l.servicing < 2 ^ 32)
    (h : l.step op = .ok l') :
    l'.servicing = (l.servicing + (l.tallyStep op).1 + (l.tallyStep op).2 * (2 ^ 32 - 1)) %
      2 ^ 32 := by
  have hs' : l.servicing < 4294967296 := by simpa using hs
  cases op with
  | wait out =>
    simp only [Listener.step] at h
    cases hw : l.WaitOnConnection out with
    | error a => simp [hw] at h
    | ok r =>
      obtain ⟨conn, n, err, l1⟩ := r
      simp only [hw] at h
      cases h
      simp only [Listener.tallyStep, hw]
      rcases Listener.WaitOnConnection_servicing out l l' conn n err hw with h1 | ⟨hne, h1⟩
      · rw [h1]
        split <;> simp
      · rw [h1]
        simp [hne]
        omega
  | handled conn n res errPipe =>
    simp only [Listener.step] at h
    cases hh : Listener.handleConn conn n (fun _ _ => res) errPipe l with
    | error a => simp [hh] at h
    | ok r =>
      obtain ⟨e, l1⟩ := r
      simp only [hh] at h
      cases h
      simp only [Listener.tallyStep, hh]
      rw [Listener.handleConn_servicing conn n _ errPipe l l' e hh]
      simp
  | request out res =>
    simp only [Listener.step, Listener.HandleARequest] at h
    cases hw : l.WaitOnConnection out with
    | error a => simp [hw] at h
    | ok r =>
      obtain ⟨conn, n, err, l1⟩ := r
      simp only [hw] at h
      by_cases hne : err = .nil
      · subst hne
        simp only [ne_eq, not_true_eq_false, if_false] at h
        cases hh : Listener.handleConn conn n (fun _ _ => res) false l1 with
        | error a => simp [hh] at h
        | ok r2 =>
          obtain ⟨e, l2⟩ := r2
          simp only [hh] at h
          cases h
          simp only [Listener.tallyStep, hw, hh, if_true]
          rw [Listener.handleConn_servicing conn n _ false l1 l' e hh]
          rcases Listener.WaitOnConnection_servicing out l l1 conn n .nil hw with h1 | ⟨hne, _⟩
          · rw [h1]
            norm_num
          · exact absurd rfl hne
      · simp only [ne_eq, hne, not_false_eq_true, if_true] at h
        cases h
        simp only [Listener.tallyStep, hw, hne, if_false]
        rcases Listener.WaitOnConnection_servicing out l l' conn n err hw with h1 | ⟨_, h1⟩
        · rw [h1]
          simp [hne]
        · rw [h1]
          simp
          omega
  | setTimeout t =>
    cases h
    simp [Listener.tallyStep, Listener.SetTimeout]
    omega
  | close =>
    cases h
    have hc : l.Close.servicing = l.servicing := by
      cases hp : l.statPipe <;> simp [Listener.Close, Listener.status, hp]
    rw [hc]
    simp [Listener.tallyStep]
    omega

/-- After a sequence of operations that all return, `servicing` has gone up by
the `WaitOnConnection` calls that returned a connection and down by the
`handleConn` calls that ran to their end, modulo `2 ^ 32`. -/
theorem Listener.run_tally :
    ∀ (ops : List ListenerOp) (l l' : Listener), l.servicing < 2 ^ 32 → l.run ops = .ok l' →
      l'.servicing = (l.servicing + (Listener.tally ops l).1 +
        (Listener.tally ops l).2 * (2 ^ 32 - 1)) % 2 ^ 32 := by
  intro ops
  induction ops with
  | nil =>
    intro l l' hs h
    have hs' : l.servicing < 4294967296 := by simpa using hs
    cases h
    simp [Listener.tally]
    omega
  | cons op ops ih =>
    intro l l' hs h
    simp only [Listener.run] at h
    cases h1 : l.step op with
    | error a => simp [h1] at h
    | ok l1 =>
      simp only [h1] at h
      have hs1 := Listener.step_tally op l l1 hs h1
      have hlt : l1.servicing < 2 ^ 32 := by
        rw [hs1]
        exact Nat.mod_lt _ (by norm_num)
      rw [ih l1 l' hlt h, hs1]
      simp only [Listener.tally, h1]
      norm_num
      omega

/-- A caller who only waits for connections (and sets the timeout or closes the
listener) runs no `handleConn` to its end. -/
theorem Listener.tally_direct :
    ∀ (ops : List ListenerOp) (l : Listener), (∀ op ∈ ops, op.direct = true) →
      (Listener.tally ops l).2 = 0 := by
  intro ops
  induction ops with
  | nil => intro l _; rfl
  | cons op ops ih =>
    intro l hd
    have hop : (l.tallyStep op).2 = 0 := by
      have := hd op (by simp)
      cases op with
      | wait out =>
        simp only [Listener.tallyStep]
        split <;> rfl
      | handled conn n res errPipe => simp [ListenerOp.direct] at this
      | request out res => simp [ListenerOp.direct] at this
      | setTimeout t => rfl
      | close => rfl
    simp only [Listener.tally]
    cases h1 : l.step op with
    | error a => simpa using hop
    | ok l1 =>
      simp only [hop, ih l1 (fun o ho => hd o (by simp [ho]))]

/-- C30: in every state a listener reaches from `NewListener` by operations
that return, `servicing` is the number of `WaitOnConnection` calls that
returned a connection minus the number of `handleConn` calls that ran to their
end, modulo `2 ^ 32`; for a caller that takes its connections with
`WaitOnConnection` and never goes through `handleConn`, nothing is taken off:
`servicing` is the number of connections returned, modulo `2 ^ 32`. -/
theorem servicing_counts_calls (ipPort : String) (status : Bool) (ops : List ListenerOp)
    (l' : Listener) (h : (Listener.fresh ipPort status).run ops = .ok l') :
    Int.ofNat l'.servicing =
      (Int.ofNat (Listener.tally ops (Listener.fresh ipPort status)).1 -
        Int.ofNat (Listener.tally ops (Listener.fresh ipPort status)).2) % 2 ^ 32 ∧
    l'.Counts.1 =
      (Int.ofNat (Listener.tally ops (Listener.fresh ipPort status)).1 -
        Int.ofNat (Listener.tally ops (Listener.fresh ipPort status)).2) % 2 ^ 32 ∧
    ((∀ op ∈ ops, op.direct = true) →
      l'.servicing = (Listener.tally ops (Listener.fresh ipPort status)).1 % 2 ^ 32) := by
  obtain ⟨_, hs, _⟩ := Listener.fresh_counters ipPort status
  have hrun := Listener.run_tally ops (Listener.fresh ipPort status) l' (by rw [hs]; norm_num) h
  rw [hs] at hrun
  have hint : Int.ofNat l'.servicing =
      (Int.ofNat (Listener.tally ops (Listener.fresh ipPort status)).1 -
        Int.ofNat (Listener.tally ops (Listener.fresh ipPort status)).2) % 2 ^ 32 := by
    rw [hrun]
    simp only [Int.ofNat_eq_coe]
    push_cast
    norm_num
    omega
  refine ⟨hint, hint, fun hd => ?_⟩
  rw [hrun, Listener.tally_direct ops _ hd]
  simp

/-- C30 at a concrete run: three connections taken with `WaitOnConnection`, one
of them handed to `handleConn`, a failed accept, and the listener closed. -/
theorem servicing_counts_calls_witness :
    (Int.ofNat (2 : Nat) = (Int.ofNat 3 - Int.ofNat 1) % 2 ^ 32 ∧
      (Listener.fresh "h" false).run [.wait (some "a", .nil), .wait (some "b", .nil),
        .handled (some "a") 1 .eof false, .wait (some "c", .nil)] =
        .ok ⟨3, 2, "h", false, 0, false,
          [.setDeadline none, .accept, .setDeadline none, .accept, .handler 1 "a",
            .connClose "a", .setDeadline none, .accept]⟩) ∧
    (∃ l', (Listener.fresh "h" false).run [.wait (some "a", .nil), .wait (some "b", .nil),
        .wait (none, errDeadline), .close, .wait (some "c", .nil)] = .ok l' ∧
      l'.servicing = 2 % 2 ^ 32) :=
  ⟨⟨(servicing_counts_calls "h" false
      [.wait (some "a", .nil), .wait (some "b", .nil), .handled (some "a") 1 .eof false,
        .wait (some "c", .nil)]
      ⟨3, 2, "h", false, 0, false,
        [.setDeadline none, .accept, .setDeadline none, .accept, .handler 1 "a", .connClose "a",
          .setDeadline none, .accept]⟩ (by decide)).1, by decide⟩,
    ⟨_, by decide, (servicing_counts_calls "h" false
      [.wait (some "a", .nil), .wait (some "b", .nil), .wait (none, errDeadline), .close,
        .wait (some "c", .nil)]
      ⟨2, 2, "h", false, 0, true,
        [.setDeadline none, .accept, .setDeadline none, .accept, .setDeadline none, .accept,
          .listenerClose, .setDeadline none, .accept]⟩ (by decide)).2.2 (by decide)⟩⟩

end Nwk
